import Mathlib

/-!
# auth0-cli: request builder, role reconciliation and log rendering

A shallow embedding of

* `internal/cli/api.go` (`apiCmdInputs.parseRaw`, `validateAndSetMethod`,
  `validateAndSetData`, `validateAndSetEndpoint`, `fromArgs`, `apiCmdRun`),
* `internal/cli/users_roles.go` (`containsRole`, `pickUserRolesToAdd`,
  `pickUserRolesToRemove`, the assign and remove commands),
* `internal/display/logs.go` (`Renderer.LogList`),

together with the parts of the Go standard library these functions call
(`strings`, `net/url`).  Go strings are byte sequences, so a Go `string` is a
list of bytes here.  Library functions whose tables cannot be reproduced
(`json.Valid`, `strconv.Quote`, the Unicode case mapping, `time.Format`) are
parameters of the definitions that use them, and so is the one part of
`net/url` on which the versions of the library differ: the reading of a host
that holds `[` or more than one `:`.
-/

set_option autoImplicit false

deriving instance DecidableEq for Except

/-! ## Go strings -/

/-- A Go `string`: an immutable sequence of bytes. -/
abbrev GoString := List (Fin 256)

/-- The bytes (UTF-8) of a string literal. -/
def str (s : String) : GoString := s.toUTF8.data.toList.map UInt8.val

/-- The byte of an ASCII character literal. -/
@[reducible] def ch (c : Char) : Fin 256 := Fin.ofNat c.toNat

namespace strings

/-- Go `strings.HasPrefix`. -/
def HasPrefix (s pre : GoString) : Bool := pre.isPrefixOf s

/-- Go `strings.HasSuffix`. -/
def HasSuffix (s suf : GoString) : Bool := suf.reverse.isPrefixOf s.reverse

/-- Scan of `strings.Index`: the first offset, counted from `i`, at which `sep` occurs. -/
def indexFrom (sep : GoString) : GoString → Nat → Int
  | [], i => if sep.isPrefixOf [] then (i : Int) else -1
  | c :: rest, i => if sep.isPrefixOf (c :: rest) then (i : Int) else indexFrom sep rest (i + 1)

/-- Go `strings.Index`: the index of the first instance of `sep` in `s`, or `-1`. -/
def Index (s sep : GoString) : Int := indexFrom sep s 0

/-- Scan of `strings.LastIndex`: `last` is the latest match seen so far. -/
def lastIndexFrom (sep : GoString) : GoString → Nat → Int → Int
  | [], i, last => if sep.isPrefixOf [] then (i : Int) else last
  | c :: rest, i, last =>
    lastIndexFrom sep rest (i + 1) (if sep.isPrefixOf (c :: rest) then (i : Int) else last)

/-- Go `strings.LastIndex`: the index of the last instance of `sep` in `s`, or `-1`. -/
def LastIndex (s sep : GoString) : Int := lastIndexFrom sep s 0 (-1)

/-- Go `strings.Contains`. -/
def Contains (s sub : GoString) : Bool := decide (0 ≤ Index s sub)

/-- Go `strings.Cut`: slices `s` around the first instance of `sep`. -/
def Cut (s sep : GoString) : GoString × GoString × Bool :=
  let i := Index s sep
  if 0 ≤ i then (s.take i.toNat, s.drop (i.toNat + sep.length), true) else (s, [], false)

/-- Go `strings.Count(s, string(c))` for a one-byte separator. -/
def CountByte (s : GoString) (c : Fin 256) : Nat := s.count c

/-- Go `strings.Trim(s, string(c))` for a one-byte ASCII cutset: all leading and
trailing `c` bytes removed. -/
def TrimByte (s : GoString) (c : Fin 256) : GoString :=
  ((s.dropWhile (fun b => b == c)).reverse.dropWhile (fun b => b == c)).reverse

/-- Go `strings.TrimPrefix`. -/
def TrimPrefix (s pre : GoString) : GoString :=
  if HasPrefix s pre then s.drop pre.length else s

/-- Go `strings.Join`. -/
def Join : List GoString → GoString → GoString
  | [], _ => []
  | [a], _ => a
  | a :: b :: rest, sep => a ++ sep ++ Join (b :: rest) sep

/-- First loop of `strings.ToUpper`: `(isASCII, hasLower)`; the scan stops at the
first byte `>= utf8.RuneSelf`. -/
def upperScan : GoString → Bool → Bool × Bool
  | [], hasLower => (true, hasLower)
  | c :: rest, hasLower =>
    if (128 : Fin 256) ≤ c then (false, hasLower)
    else upperScan rest (hasLower || (decide (ch 'a' ≤ c) && decide (c ≤ ch 'z')))

/-- Go `strings.ToUpper`.  ASCII-only strings take the byte loop of the source;
any other string goes through `Map(unicode.ToUpper, s)`, which is the parameter
`unicodeUpper`. -/
def ToUpper (unicodeUpper : GoString → GoString) (s : GoString) : GoString :=
  match upperScan s false with
  | (true, hasLower) =>
    if !hasLower then s
    else s.map (fun c => if ch 'a' ≤ c ∧ c ≤ ch 'z' then c - (ch 'a' - ch 'A') else c)
  | (false, _) => unicodeUpper s

end strings

/-! ## Go `net/url`: parsing, escaping, query values -/

namespace url

/-- The `encoding` modes of `net/url`. -/
inductive encoding where
  | encodePath
  | encodePathSegment
  | encodeHost
  | encodeZone
  | encodeUserPassword
  | encodeQueryComponent
  | encodeFragment
  deriving DecidableEq, Repr

open encoding

/-- The failures of `url.Parse`, by the error value the library constructs. -/
inductive ParseError where
  /-- `net/url: invalid control character in URL` -/
  | invalidControl
  /-- `empty url` -/
  | emptyURL
  /-- `invalid URI for request` -/
  | invalidURIForRequest
  /-- `missing protocol scheme` -/
  | missingScheme
  /-- `first path segment in URL cannot contain colon` -/
  | colonInFirstSegment
  /-- `missing ']' in host` -/
  | missingBracket
  /-- `invalid port %q after host` -/
  | invalidPort (colonPort : GoString)
  /-- `net/url: invalid userinfo` -/
  | invalidUserinfo
  /-- `EscapeError`: `invalid URL escape %q` -/
  | escapeError (s : GoString)
  /-- `InvalidHostError`: `invalid character %q in host name` -/
  | invalidHostError (s : GoString)
  /-- `invalid semicolon separator in query` -/
  | invalidSemicolon
  /-- An error of the reading of an IP literal or of a host with several colons,
  given by its message (`invalid host: ...`, `invalid IP-literal`, ...). -/
  | hostLiteral (msg : GoString)
  deriving DecidableEq, Repr

/-- Letters and digits, the first test of `shouldEscape`. -/
def isAlnum (c : Fin 256) : Bool :=
  (decide (ch 'a' ≤ c) && decide (c ≤ ch 'z')) || (decide (ch 'A' ≤ c) && decide (c ≤ ch 'Z')) ||
    (decide (ch '0' ≤ c) && decide (c ≤ ch '9'))

/-- Go `ishex`. -/
def ishex (c : Fin 256) : Bool :=
  (decide (ch '0' ≤ c) && decide (c ≤ ch '9')) || (decide (ch 'a' ≤ c) && decide (c ≤ ch 'f')) ||
    (decide (ch 'A' ≤ c) && decide (c ≤ ch 'F'))

/-- Go `unhex`. -/
def unhex (c : Fin 256) : Fin 256 :=
  if ch '0' ≤ c ∧ c ≤ ch '9' then c - ch '0'
  else if ch 'a' ≤ c ∧ c ≤ ch 'f' then c - ch 'a' + 10
  else if ch 'A' ≤ c ∧ c ≤ ch 'F' then c - ch 'A' + 10
  else 0

/-- The table `upperhex = "0123456789ABCDEF"`, indexed. -/
def upperhex (i : Fin 256) : Fin 256 := (str "0123456789ABCDEF").getD i.val 0

/-- Go `shouldEscape`: whether byte `c` is escaped in a URL component of kind `mode`. -/
def shouldEscape (c : Fin 256) (mode : encoding) : Bool :=
  if isAlnum c then false
  else if (mode = encodeHost ∨ mode = encodeZone) ∧
      c ∈ [ch '!', ch '$', ch '&', 39, ch '(', ch ')', ch '*', ch '+', ch ',', ch ';', ch '=',
        ch ':', ch '[', ch ']', ch '<', ch '>', ch '"'] then false
  else if c ∈ [ch '-', ch '_', ch '.', ch '~'] then false
  else if c ∈ [ch '$', ch '&', ch '+', ch ',', ch '/', ch ':', ch ';', ch '=', ch '?', ch '@'] then
    match mode with
    | encodePath => c == ch '?'
    | encodePathSegment => c == ch '/' || c == ch ';' || c == ch ',' || c == ch '?'
    | encodeUserPassword => c == ch '@' || c == ch '/' || c == ch '?' || c == ch ':'
    | encodeQueryComponent => true
    | encodeFragment => false
    | _ => true
  else if mode = encodeFragment ∧ c ∈ [ch '!', ch '(', ch ')', ch '*'] then false
  else true

/-- First loop of Go `unescape`: checks the `%` escapes and counts them
(`n`), recording whether a `+` must be rewritten (`hasPlus`). -/
def unescapeCheck (mode : encoding) : GoString → Nat → Bool → Except ParseError (Nat × Bool)
  | [], n, hasPlus => .ok (n, hasPlus)
  | c :: rest, n, hasPlus =>
    if c = ch '%' then
      match rest with
      | h1 :: h2 :: rest2 =>
        if !ishex h1 || !ishex h2 then .error (.escapeError (c :: h1 :: [h2]))
        else if mode = encodeHost ∧ unhex h1 < 8 ∧ c :: h1 :: [h2] ≠ str "%25" then
          .error (.escapeError (c :: h1 :: [h2]))
        else if mode = encodeZone ∧ c :: h1 :: [h2] ≠ str "%25" ∧
            (unhex h1 <<< 4 ||| unhex h2) ≠ ch ' ' ∧
            shouldEscape (unhex h1 <<< 4 ||| unhex h2) encodeHost then
          .error (.escapeError (c :: h1 :: [h2]))
        else unescapeCheck mode rest2 (n + 1) hasPlus
      | _ => .error (.escapeError ((c :: rest).take 3))
    else if c = ch '+' then unescapeCheck mode rest n (decide (mode = encodeQueryComponent))
    else if (mode = encodeHost ∨ mode = encodeZone) ∧ c < 128 ∧ shouldEscape c encodeHost then
      .error (.invalidHostError [c])
    else unescapeCheck mode rest n hasPlus

/-- Second loop of Go `unescape`: rewrites `%XX` to its byte and, in query
components, `+` to a space. -/
def unescapeBytes (mode : encoding) : GoString → GoString
  | [] => []
  | c :: rest =>
    if c = ch '%' then
      match rest with
      | h1 :: h2 :: rest2 => (unhex h1 <<< 4 ||| unhex h2) :: unescapeBytes mode rest2
      | _ => []
    else if c = ch '+' then
      (if mode = encodeQueryComponent then ch ' ' else ch '+') :: unescapeBytes mode rest
    else c :: unescapeBytes mode rest

/-- Go `unescape`. -/
def unescape (s : GoString) (mode : encoding) : Except ParseError GoString :=
  match unescapeCheck mode s 0 false with
  | .error e => .error e
  | .ok (n, hasPlus) => if n = 0 ∧ hasPlus = false then .ok s else .ok (unescapeBytes mode s)

/-- Go `escape`: a space becomes `+` in query components, every other byte that
`shouldEscape` names becomes `%XX` in upper-case hex. -/
def escape (s : GoString) (mode : encoding) : GoString :=
  s.flatMap (fun c =>
    if c = ch ' ' ∧ mode = encodeQueryComponent then [ch '+']
    else if shouldEscape c mode then [ch '%', upperhex (c >>> 4), upperhex (c &&& 15)]
    else [c])

/-- Go `QueryEscape`. -/
def QueryEscape (s : GoString) : GoString := escape s encodeQueryComponent

/-- Go `QueryUnescape`. -/
def QueryUnescape (s : GoString) : Except ParseError GoString := unescape s encodeQueryComponent

/-- Go `validEncoded`. -/
def validEncoded (s : GoString) (mode : encoding) : Bool :=
  s.all (fun c =>
    if c ∈ [ch '!', ch '$', ch '&', 39, ch '(', ch ')', ch '*', ch '+', ch ',', ch ';', ch '=',
        ch ':', ch '@', ch '[', ch ']', ch '%'] then true
    else !shouldEscape c mode)

/-- Go `Userinfo`. -/
structure Userinfo where
  username : GoString
  password : GoString
  passwordSet : Bool
  deriving DecidableEq, Repr

/-- Go `url.URL`. -/
structure URL where
  Scheme : GoString := []
  Opaque : GoString := []
  User : Option Userinfo := none
  Host : GoString := []
  Path : GoString := []
  RawPath : GoString := []
  OmitHost : Bool := false
  ForceQuery : Bool := false
  RawQuery : GoString := []
  Fragment : GoString := []
  RawFragment : GoString := []
  deriving DecidableEq, Repr

/-- Go `stringContainsCTLByte`. -/
def stringContainsCTLByte (s : GoString) : Bool := s.any (fun b => decide (b < ch ' ') || b == 127)

/-- Loop of Go `getScheme` at index `i`, `whole` being the full input. -/
def getSchemeFrom (whole : GoString) : GoString → Nat → Except ParseError (GoString × GoString)
  | [], _ => .ok ([], whole)
  | c :: rest, i =>
    if (ch 'a' ≤ c ∧ c ≤ ch 'z') ∨ (ch 'A' ≤ c ∧ c ≤ ch 'Z') then getSchemeFrom whole rest (i + 1)
    else if (ch '0' ≤ c ∧ c ≤ ch '9') ∨ c = ch '+' ∨ c = ch '-' ∨ c = ch '.' then
      if i = 0 then .ok ([], whole) else getSchemeFrom whole rest (i + 1)
    else if c = ch ':' then
      if i = 0 then .error .missingScheme else .ok (whole.take i, rest)
    else .ok ([], whole)

/-- Go `getScheme`: splits `scheme:rest`. -/
def getScheme (rawURL : GoString) : Except ParseError (GoString × GoString) :=
  getSchemeFrom rawURL rawURL 0

/-- Go `validOptionalPort`. -/
def validOptionalPort (port : GoString) : Bool :=
  match port with
  | [] => true
  | c :: rest => c == ch ':' && rest.all (fun b => !(decide (b < ch '0') || decide (ch '9' < b)))

/-- Go `validUserinfo`. -/
def validUserinfo (s : GoString) : Bool :=
  s.all (fun r =>
    (decide (ch 'A' ≤ r) && decide (r ≤ ch 'Z')) || (decide (ch 'a' ≤ r) && decide (r ≤ ch 'z')) ||
    (decide (ch '0' ≤ r) && decide (r ≤ ch '9')) ||
    decide (r ∈ [ch '-', ch '.', ch '_', ch ':', ch '~', ch '!', ch '$', ch '&', 39,
      ch '(', ch ')', ch '*', ch '+', ch ',', ch ';', ch '=', ch '%', ch '@']))

/-- The hosts on which the versions of the library differ: those that hold `[`
and those that hold more than one `:`. -/
def isLiteralHost (host : GoString) : Bool :=
  strings.Contains host (str "[") || decide (1 < strings.CountByte host (ch ':'))

/-- Go `parseHost`.  On a host without `[` and with at most one `:` every version
of the library does what is written here: the optional port is checked and the
host unescaped.  The other hosts are read by the parameter `literal` (older
versions read an IP literal only behind a leading `[` and let any number of `:`
pass; later versions look for `[` anywhere, accept between the brackets only
what `netip.ParseAddr` accepts as an IPv6 address, and reject a second `:`
outside brackets). -/
def parseHost (literal : GoString → Except ParseError GoString) (host : GoString) :
    Except ParseError GoString :=
  if isLiteralHost host then literal host
  else
    let i := strings.LastIndex host (str ":")
    if i ≠ -1 ∧ !validOptionalPort (host.drop i.toNat) then
      .error (.invalidPort (host.drop i.toNat))
    else unescape host encodeHost

/-- Go `parseHost` as Go 1.19 has it, an instance of the parameter `literal`: an
IP literal behind a leading `[`, with its zone, and any other host as a plain
one. -/
def hostLiteral119 (host : GoString) : Except ParseError GoString :=
  if strings.HasPrefix host (str "[") then
    let i := strings.LastIndex host (str "]")
    if i < 0 then .error .missingBracket
    else
      let colonPort := host.drop (i.toNat + 1)
      if !validOptionalPort colonPort then .error (.invalidPort colonPort)
      else
        let zone := strings.Index (host.take i.toNat) (str "%25")
        if 0 ≤ zone then
          match unescape (host.take zone.toNat) encodeHost with
          | .error e => .error e
          | .ok host1 =>
            match unescape ((host.take i.toNat).drop zone.toNat) encodeZone with
            | .error e => .error e
            | .ok host2 =>
              match unescape (host.drop i.toNat) encodeHost with
              | .error e => .error e
              | .ok host3 => .ok (host1 ++ host2 ++ host3)
        else unescape host encodeHost
  else
    let i := strings.LastIndex host (str ":")
    if i ≠ -1 ∧ !validOptionalPort (host.drop i.toNat) then
      .error (.invalidPort (host.drop i.toNat))
    else unescape host encodeHost

/-- Go `parseAuthority`. -/
def parseAuthority (literal : GoString → Except ParseError GoString) (authority : GoString) :
    Except ParseError (Option Userinfo × GoString) :=
  let i := strings.LastIndex authority (str "@")
  match (if i < 0 then parseHost literal authority
    else parseHost literal (authority.drop (i.toNat + 1))) with
  | .error e => .error e
  | .ok host =>
    if i < 0 then .ok (none, host)
    else
      let userinfo := authority.take i.toNat
      if !validUserinfo userinfo then .error .invalidUserinfo
      else if !strings.Contains userinfo (str ":") then
        match unescape userinfo encodeUserPassword with
        | .error e => .error e
        | .ok u => .ok (some ⟨u, [], false⟩, host)
      else
        let (username, password, _) := strings.Cut userinfo (str ":")
        match unescape username encodeUserPassword with
        | .error e => .error e
        | .ok u =>
          match unescape password encodeUserPassword with
          | .error e => .error e
          | .ok p => .ok (some ⟨u, p, true⟩, host)

/-- Go `(*URL).setPath`. -/
def URL.setPath (u : URL) (p : GoString) : Except ParseError URL :=
  match unescape p encodePath with
  | .error e => .error e
  | .ok path =>
    .ok { u with Path := path, RawPath := if p = escape path encodePath then [] else p }

/-- Go `(*URL).setFragment`. -/
def URL.setFragment (u : URL) (f : GoString) : Except ParseError URL :=
  match unescape f encodeFragment with
  | .error e => .error e
  | .ok frag =>
    .ok { u with Fragment := frag, RawFragment := if f = escape frag encodeFragment then [] else f }

/-- Go `parse` (the unexported worker of `Parse`), `viaRequest` included. -/
def parse (literal : GoString → Except ParseError GoString) (rawURL : GoString)
    (viaRequest : Bool) : Except ParseError URL :=
  if stringContainsCTLByte rawURL then .error .invalidControl
  else if rawURL = [] ∧ viaRequest then .error .emptyURL
  else if rawURL = str "*" then .ok { Path := str "*" }
  else
    match getScheme rawURL with
    | .error e => .error e
    | .ok (scheme, rest0) =>
      -- `strings.ToLower` of a scheme `getScheme` accepted: ASCII letters, digits, `+-.`
      let scheme := scheme.map (fun c => if ch 'A' ≤ c ∧ c ≤ ch 'Z' then c + (ch 'a' - ch 'A') else c)
      let (rest, rawQuery, forceQuery) :=
        if strings.HasSuffix rest0 (str "?") ∧ strings.CountByte rest0 (ch '?') = 1 then
          (rest0.take (rest0.length - 1), ([] : GoString), true)
        else ((strings.Cut rest0 (str "?")).1, (strings.Cut rest0 (str "?")).2.1, false)
      let url : URL := { Scheme := scheme, RawQuery := rawQuery, ForceQuery := forceQuery }
      if !strings.HasPrefix rest (str "/") ∧ scheme ≠ [] then .ok { url with Opaque := rest }
      else if !strings.HasPrefix rest (str "/") ∧ viaRequest then .error .invalidURIForRequest
      else if !strings.HasPrefix rest (str "/") ∧
          strings.Contains (strings.Cut rest (str "/")).1 (str ":") then
        .error .colonInFirstSegment
      else if (scheme ≠ [] ∨ (!viaRequest ∧ !strings.HasPrefix rest (str "///"))) ∧
          strings.HasPrefix rest (str "//") then
        let authority0 := rest.drop 2
        let i := strings.Index authority0 (str "/")
        let (authority, rest1) :=
          if 0 ≤ i then (authority0.take i.toNat, authority0.drop i.toNat)
          else (authority0, ([] : GoString))
        match parseAuthority literal authority with
        | .error e => .error e
        | .ok (user, host) => URL.setPath { url with User := user, Host := host } rest1
      else if scheme ≠ [] ∧ strings.HasPrefix rest (str "/") then
        URL.setPath { url with OmitHost := true } rest
      else URL.setPath url rest

/-- The `*url.Error` that `Parse` returns: operation `parse`, the offending
text, and the underlying error. -/
structure Error where
  URL : GoString
  Err : ParseError
  deriving DecidableEq, Repr

/-- Go `url.Parse`. -/
def Parse (literal : GoString → Except ParseError GoString) (rawURL : GoString) :
    Except Error URL :=
  let (u, frag, _) := strings.Cut rawURL (str "#")
  match parse literal u false with
  | .error e => .error ⟨u, e⟩
  | .ok url =>
    if frag = [] then .ok url
    else
      match url.setFragment frag with
      | .error e => .error ⟨rawURL, e⟩
      | .ok url2 => .ok url2

/-- The test `p, err := unescape(raw, mode); err == nil && p == decoded` of
`EscapedPath` and `EscapedFragment`. -/
def unescapesTo (raw : GoString) (mode : encoding) (decoded : GoString) : Bool :=
  match unescape raw mode with
  | .ok p => p == decoded
  | .error _ => false

/-- Go `(*URL).EscapedPath`. -/
def URL.EscapedPath (u : URL) : GoString :=
  if u.RawPath ≠ [] ∧ validEncoded u.RawPath encodePath ∧
      unescapesTo u.RawPath encodePath u.Path then u.RawPath
  else if u.Path = str "*" then str "*"
  else escape u.Path encodePath

/-- Go `(*URL).EscapedFragment`. -/
def URL.EscapedFragment (u : URL) : GoString :=
  if u.RawFragment ≠ [] ∧ validEncoded u.RawFragment encodeFragment ∧
      unescapesTo u.RawFragment encodeFragment u.Fragment then u.RawFragment
  else escape u.Fragment encodeFragment

/-- Go `(*Userinfo).String`. -/
def Userinfo.String (u : Userinfo) : GoString :=
  escape u.username encodeUserPassword ++
    (if u.passwordSet then str ":" ++ escape u.password encodeUserPassword else [])

/-- Go `(*URL).String`: reassembles the URL. -/
def URL.String (u : URL) : GoString :=
  let buf1 : GoString := if u.Scheme ≠ [] then u.Scheme ++ str ":" else []
  let buf2 : GoString :=
    if u.Opaque ≠ [] then buf1 ++ u.Opaque
    else
      let b : GoString :=
        if u.Scheme ≠ [] ∨ u.Host ≠ [] ∨ u.User ≠ none then
          if u.OmitHost ∧ u.Host = [] ∧ u.User = none then buf1
          else
            buf1 ++ (if u.Host ≠ [] ∨ u.Path ≠ [] ∨ u.User ≠ none then str "//" else []) ++
              (match u.User with
                | some ui => ui.String ++ str "@"
                | none => []) ++
              (if u.Host ≠ [] then escape u.Host encodeHost else [])
        else buf1
      let path := u.EscapedPath
      let b2 : GoString :=
        if path ≠ [] ∧ path.head? ≠ some (ch '/') ∧ u.Host ≠ [] then b ++ str "/" else b
      let b3 : GoString :=
        if b2 = [] ∧ strings.Contains (strings.Cut path (str "/")).1 (str ":") then
          b2 ++ str "./"
        else b2
      b3 ++ path
  let buf3 : GoString :=
    if u.ForceQuery ∨ u.RawQuery ≠ [] then buf2 ++ str "?" ++ u.RawQuery else buf2
  if u.Fragment ≠ [] then buf3 ++ str "#" ++ u.EscapedFragment else buf3

/-- Go `url.Values`, a `map[string][]string`: the entries of the map, one per key. -/
abbrev Values := List (GoString × List GoString)

/-- Map read `v[key]`: the values stored under `key`, `nil` when the key is absent. -/
def Values.lookup (v : Values) (key : GoString) : List GoString :=
  match v with
  | [] => []
  | (k, vs) :: rest => if k = key then vs else Values.lookup rest key

/-- Map write `v[key] = vals`: replaces the entry of `key`, or adds one. -/
def Values.assign (v : Values) (key : GoString) (vals : List GoString) : Values :=
  match v with
  | [] => [(key, vals)]
  | (k, vs) :: rest => if k = key then (key, vals) :: rest else (k, vs) :: Values.assign rest key vals

/-- Go `Values.Set`: `v[key] = []string{value}`. -/
def Values.Set (v : Values) (key value : GoString) : Values := v.assign key [value]

/-- Loop of Go `parseQuery`; each round cuts the next `&`-separated pair off
`query`, so `query.length + 1` rounds of `fuel` always reach `query == ""`.
Returns the map and the first error. -/
def parseQueryLoop : Nat → Values → Option ParseError → GoString → Values × Option ParseError
  | 0, m, err, _ => (m, err)
  | fuel + 1, m, err, query =>
    if query = [] then (m, err)
    else
      let key := (strings.Cut query (str "&")).1
      let query1 := (strings.Cut query (str "&")).2.1
      if strings.Contains key (str ";") then
        parseQueryLoop fuel m (some .invalidSemicolon) query1
      else if key = [] then parseQueryLoop fuel m err query1
      else
        let value := (strings.Cut key (str "=")).2.1
        match QueryUnescape (strings.Cut key (str "=")).1 with
        | .error err1 => parseQueryLoop fuel m (if err = none then some err1 else err) query1
        | .ok key1 =>
          match QueryUnescape value with
          | .error err1 => parseQueryLoop fuel m (if err = none then some err1 else err) query1
          | .ok value1 => parseQueryLoop fuel (m.assign key1 (m.lookup key1 ++ [value1])) err query1

/-- Go `url.ParseQuery`. -/
def ParseQuery (query : GoString) : Values × Option ParseError :=
  parseQueryLoop (query.length + 1) [] none query

/-- Go `(*URL).Query`: the parsed `RawQuery`, malformed pairs silently dropped. -/
def URL.Query (u : URL) : Values := (ParseQuery u.RawQuery).1

/-- Go string comparison `a < b`: bytewise lexicographic. -/
def stringLess : GoString → GoString → Bool
  | [], [] => false
  | [], _ :: _ => true
  | _ :: _, [] => false
  | a :: as, b :: bs => if a < b then true else if b < a then false else stringLess as bs

/-- Go `sort.Strings`: ascending order under `stringLess`. -/
def sortStrings (keys : List GoString) : List GoString :=
  keys.insertionSort (fun a b => stringLess b a = false)

/-- Go `Values.Encode`: `key=value` pairs, query-escaped, joined by `&`, sorted by key. -/
def Values.Encode (v : Values) : GoString :=
  (sortStrings (v.map Prod.fst)).foldl
    (fun buf k =>
      (v.lookup k).foldl
        (fun buf val =>
          (if 0 < buf.length then buf ++ str "&" else buf) ++ QueryEscape k ++ str "=" ++
            QueryEscape val)
        buf)
    []

end url

/-! ## Library parameters and results -/

/-- The library functions the sources call whose tables are not reproduced here. -/
structure GoLib where
  /-- `strconv.Quote`, the `%q` verb of `fmt` on a string. -/
  quote : GoString → GoString
  /-- `strings.Map(unicode.ToUpper, s)`, the non-ASCII branch of `strings.ToUpper`. -/
  unicodeUpper : GoString → GoString
  /-- `json.Valid` on the bytes of a string. -/
  jsonValid : GoString → Bool
  /-- The reading, by `parseHost` of `net/url`, of a host that holds `[` or more
  than one `:`. -/
  hostLiteral : GoString → Except url.ParseError GoString

/-- The table `lowerhex = "0123456789abcdef"` of `strconv`, indexed. -/
def lowerhex (i : Fin 256) : Fin 256 := (str "0123456789abcdef").getD i.val 0

/-- Go `strconv.Quote` on ASCII text, byte by byte as `appendEscapedRune` writes
it: `"` and `\` behind a backslash, the printable bytes `0x20..0x7e` as they
are, the control bytes by their escape.  (On a byte `>= 0x80` the library
decodes a rune and consults the Unicode tables; it is written `\xNN` here, which
is what the library writes for a byte that is not valid UTF-8.) -/
def quoteASCII (s : GoString) : GoString :=
  [(34 : Fin 256)] ++
    s.flatMap (fun c =>
      if c = 34 ∨ c = 92 then [92, c]
      else if 32 ≤ c ∧ c < 127 then [c]
      else if c = 7 then [92, ch 'a']
      else if c = 8 then [92, ch 'b']
      else if c = 12 then [92, ch 'f']
      else if c = 10 then [92, ch 'n']
      else if c = 13 then [92, ch 'r']
      else if c = 9 then [92, ch 't']
      else if c = 11 then [92, ch 'v']
      else [92, ch 'x', lowerhex (c >>> 4), lowerhex (c &&& 15)]) ++
    [(34 : Fin 256)]

/-- How a Go function of result type `error` ends: it returns `nil`, returns an
error (given by its message, the text of `Error()`), or panics. -/
inductive Outcome where
  | ok
  | error (msg : GoString)
  | panic
  deriving DecidableEq, Repr

namespace url

/-- The message of a parse failure (`Error()` of the underlying error). -/
def ParseError.Error (quote : GoString → GoString) : ParseError → GoString
  | .invalidControl => str "net/url: invalid control character in URL"
  | .emptyURL => str "empty url"
  | .invalidURIForRequest => str "invalid URI for request"
  | .missingScheme => str "missing protocol scheme"
  | .colonInFirstSegment => str "first path segment in URL cannot contain colon"
  | .missingBracket => str "missing ']' in host"
  | .invalidPort colonPort => str "invalid port " ++ quote colonPort ++ str " after host"
  | .invalidUserinfo => str "net/url: invalid userinfo"
  | .escapeError s => str "invalid URL escape " ++ quote s
  | .invalidHostError s => str "invalid character " ++ quote s ++ str " in host name"
  | .invalidSemicolon => str "invalid semicolon separator in query"
  | .hostLiteral msg => msg

set_option linter.dupNamespace false in
/-- Go `(*url.Error).Error`: `fmt.Sprintf("%s %q: %s", e.Op, e.URL, e.Err)` with `Op = "parse"`. -/
def Error.Error (quote : GoString → GoString) (e : Error) : GoString :=
  str "parse " ++ quote e.URL ++ str ": " ++ e.Err.Error quote

end url

/-! ## `internal/cli/api.go` -/

namespace cli

/-- The variable `apiValidMethods`. -/
def apiValidMethods : List GoString :=
  [str "GET", str "POST", str "PUT", str "PATCH", str "DELETE"]

/-- The struct `apiCmdInputs`.  `RawQueryParams` is a Go map: its entries, in the
order the `range` loop visits them.  `Data` is the `io.Reader`: `none` for the
nil interface, `some bs` for a reader over the bytes `bs`. -/
structure apiCmdInputs where
  RawMethod : GoString := []
  RawURI : GoString := []
  RawData : GoString := []
  RawQueryParams : List (GoString × GoString) := []
  Method : GoString := []
  URL : Option url.URL := none
  Data : Option GoString := none
  deriving DecidableEq, Repr

/-- The method `apiCmdInputs.parseRaw`.  `none` is the index-out-of-range panic of
`args[0]` on an empty argument list. -/
def apiCmdInputs.parseRaw (unicodeUpper : GoString → GoString) (i : apiCmdInputs)
    (args : List GoString) : Option apiCmdInputs :=
  let lenArgs := args.length
  if lenArgs = 1 then
    let i1 := { i with RawMethod := str "GET" }
    let i2 := if i1.RawData ≠ [] then { i1 with RawMethod := str "POST" } else i1
    (args.get? (lenArgs - 1)).map (fun a => { i2 with RawURI := a })
  else
    match args.get? 0 with
    | none => none
    | some a0 =>
      let i1 := { i with RawMethod := strings.ToUpper unicodeUpper a0 }
      (args.get? (lenArgs - 1)).map (fun a => { i1 with RawURI := a })

/-- The `for ... range apiValidMethods` loop of `validateAndSetMethod`: `true`
when some valid method equals `rawMethod` (the early `return nil`). -/
def validMethodLoop (rawMethod : GoString) : List GoString → Bool
  | [] => false
  | validMethod :: rest => if rawMethod = validMethod then true else validMethodLoop rawMethod rest

/-- The method `apiCmdInputs.validateAndSetMethod`. -/
def apiCmdInputs.validateAndSetMethod (i : apiCmdInputs) : apiCmdInputs × Outcome :=
  if validMethodLoop i.RawMethod apiValidMethods then ({ i with Method := i.RawMethod }, .ok)
  else
    (i, .error (str "invalid method given: " ++ i.RawMethod ++ str ", accepting only " ++
      strings.Join apiValidMethods (str ", ")))

/-- The method `apiCmdInputs.validateAndSetData`. -/
def apiCmdInputs.validateAndSetData (jsonValid : GoString → Bool) (i : apiCmdInputs) :
    apiCmdInputs × Outcome :=
  if i.RawData ≠ [] ∧ !jsonValid i.RawData then
    (i, .error (str "invalid json data given: " ++ i.RawData))
  else ({ i with Data := some i.RawData }, .ok)

/-- The method `apiCmdInputs.validateAndSetEndpoint`. -/
def apiCmdInputs.validateAndSetEndpoint (quote : GoString → GoString)
    (literal : GoString → Except url.ParseError GoString) (i : apiCmdInputs)
    (domain : GoString) : apiCmdInputs × Outcome :=
  match url.Parse literal
      (str "https://" ++ domain ++ str "/api/v2/" ++ strings.TrimByte i.RawURI (ch '/')) with
  | .error err => (i, .error (str "invalid uri given: " ++ err.Error quote))
  | .ok endpoint =>
    let params := i.RawQueryParams.foldl (fun params kv => params.Set kv.1 kv.2) endpoint.Query
    ({ i with URL := some { endpoint with RawQuery := params.Encode } }, .ok)

/-- The method `apiCmdInputs.fromArgs`. -/
def apiCmdInputs.fromArgs (L : GoLib) (i : apiCmdInputs) (args : List GoString)
    (domain : GoString) : apiCmdInputs × Outcome :=
  match i.parseRaw L.unicodeUpper args with
  | none => (i, .panic)
  | some i1 =>
    match i1.validateAndSetMethod with
    | (i2, .ok) =>
      match i2.validateAndSetData L.jsonValid with
      | (i3, .ok) => i3.validateAndSetEndpoint L.quote L.hostLiteral domain
      | r => r
    | r => r

/-- An `*http.Request` as `apiCmdRun` builds it. -/
structure Request where
  Method : GoString
  URL : GoString
  Body : Option GoString
  Header : List (GoString × GoString)
  deriving DecidableEq, Repr

/-- What `apiCmdRun` does to the outside, in order. -/
inductive apiEvent where
  /-- `http.NewRequestWithContext(ctx, method, url, body)` -/
  | newRequest (method url : GoString) (body : Option GoString)
  /-- `http.DefaultClient.Do(request)` -/
  | send (request : Request)
  /-- `cli.renderer.Output(text)` -/
  | output (text : GoString)
  deriving DecidableEq, Repr

/-- The collaborators of `apiCmdRun`: the `cli` fields it reads and the library
and repository functions it calls that are not among the sources. -/
structure apiEnv where
  /-- `cli.tenant` -/
  tenant : GoString
  /-- `cli.config.Tenants[cli.tenant].AccessToken` -/
  accessToken : GoString
  /-- The constant `userAgent`. -/
  userAgent : GoString
  /-- `buildinfo.Version` -/
  version : GoString
  /-- The error of `http.NewRequestWithContext`, if any. -/
  newRequestErr : GoString → GoString → Option GoString → Option GoString
  /-- `http.DefaultClient.Do` followed by `io.ReadAll(response.Body)`: the transport
  error, or the read error or body. -/
  roundTrip : Request → Except GoString (Except GoString GoString)
  /-- `json.Indent(&prettyJSON, rawBodyJSON, "", "  ")` -/
  jsonIndent : GoString → Except GoString GoString
  /-- `ansi.ColorizeJSON(text, false)` -/
  colorizeJSON : GoString → GoString

/-- Modelled from the spec: `ansi.Waiting` (package `internal/ansi`, not among the
sources) runs the given operation once under the busy indicator and returns
what it returns. -/
def Waiting {α : Type} (operation : α) : α := operation

/-- The closure `apiCmdRun(cli, inputs)` returns, run on `args`: the final inputs,
how the command ends, and what it did to the outside. -/
def apiCmdRun (L : GoLib) (E : apiEnv) (inputs : apiCmdInputs) (args : List GoString) :
    apiCmdInputs × Outcome × List apiEvent :=
  match inputs.fromArgs L args E.tenant with
  | (i1, .panic) => (i1, .panic, [])
  | (i1, .error err) => (i1, .error (str "failed to parse command inputs: " ++ err), [])
  | (i1, .ok) =>
    match i1.URL with
    | none => (i1, .panic, [])
    | some u =>
      let ev1 := apiEvent.newRequest i1.Method u.String i1.Data
      match Waiting (E.newRequestErr i1.Method u.String i1.Data) with
      | some err => (i1, .error (str "failed to send request: " ++ err), [ev1])
      | none =>
        let request : Request :=
          { Method := i1.Method, URL := u.String, Body := i1.Data,
            Header :=
              [(str "Authorization", str "Bearer " ++ E.accessToken),
               (str "Content-Type", str "application/json"),
               (str "User-Agent", E.userAgent ++ str "/" ++ strings.TrimPrefix E.version (str "v"))] }
        match Waiting (E.roundTrip request) with
        | .error err => (i1, .error (str "failed to send request: " ++ err), [ev1, .send request])
        | .ok (.error err) => (i1, .error err, [ev1, .send request])
        | .ok (.ok rawBodyJSON) =>
          match E.jsonIndent rawBodyJSON with
          | .error err =>
            (i1, .error (str "failed to prepare json output: " ++ err), [ev1, .send request])
          | .ok prettyJSON =>
            (i1, .ok, [ev1, .send request, .output (E.colorizeJSON prettyJSON)])

end cli

/-! ## `internal/cli/users_roles.go` -/

namespace management

/-- The fields of `management.Role` (go-auth0) that the commands read. -/
structure Role where
  ID : Option GoString := none
  Name : Option GoString := none
  deriving DecidableEq, Repr

/-- The accessor `(*Role).GetID`: the empty string for a nil role or a nil field. -/
def Role.GetID : Option Role → GoString
  | none => []
  | some r => r.ID.getD []

/-- The accessor `(*Role).GetName`: the empty string for a nil role or a nil field. -/
def Role.GetName : Option Role → GoString
  | none => []
  | some r => r.Name.getD []

end management

namespace cli

open management

/-- The variable `errNoRolesSelected`. -/
def errNoRolesSelected : GoString := str "required to select at least one role"

/-- The struct `userRolesInput`. -/
structure userRolesInput where
  ID : GoString := []
  Number : Int := 0
  Roles : List GoString := []
  deriving DecidableEq, Repr

/-- What the role commands do to the outside, in order. -/
inductive Event where
  /-- `userID.Ask(cmd, &inputs.ID)` -/
  | askUserID
  /-- `cli.api.User.Roles(id, opts...)`, with the `management.PerPage` option if given -/
  | userRoles (id : GoString) (perPage : Option Nat)
  /-- `cli.api.Role.List()` -/
  | roleList
  /-- `survey.AskOne(&survey.MultiSelect{Message: "Roles", Options: options}, &selectedRoles)` -/
  | askOne (options : List GoString)
  /-- `cli.api.User.AssignRoles(id, roles)`, the roles by identifier -/
  | assignRoles (id : GoString) (roles : List GoString)
  /-- `cli.api.User.RemoveRoles(id, roles)`, the roles by identifier -/
  | removeRoles (id : GoString) (roles : List GoString)
  /-- `cli.renderer.UserRoleList(roles)` -/
  | renderUserRoleList (roles : List (Option Role))
  deriving DecidableEq, Repr

/-- The outside of the role commands: the management API, the prompts.  Every
answer may depend on all that happened before (the list of earlier events). -/
structure World where
  askUserID : List Event → Except GoString GoString
  userRoles : List Event → GoString → Option Nat → Except GoString (List (Option Role))
  roleList : List Event → Except GoString (List (Option Role))
  askOne : List Event → List GoString → Except GoString (List GoString)
  assignRoles : List Event → GoString → List GoString → Option GoString
  removeRoles : List Event → GoString → List GoString → Option GoString

/-- The function `containsRole`. -/
def containsRole : List (Option Role) → GoString → Bool
  | [], _ => false
  | role :: roles, roleID => if Role.GetID role = roleID then true else containsRole roles roleID

/-- The constant `emptySpace`. -/
def emptySpace : GoString := str " "

/-- The `fmt.Sprintf("%s%s(Name: %s)", role.GetID(), emptySpace, role.GetName())` of both pickers. -/
def renderOption (role : Option Role) : GoString :=
  Role.GetID role ++ emptySpace ++ str "(Name: " ++ Role.GetName role ++ str ")"

/-- The options loop of `pickUserRolesToAdd`, `options` being the slice built so far. -/
def addOptionsLoop (current : List (Option Role)) :
    List (Option Role) → List GoString → List GoString
  | [], options => options
  | role :: roles, options =>
    if !containsRole current (Role.GetID role) then
      addOptionsLoop current roles (options ++ [renderOption role])
    else addOptionsLoop current roles options

/-- The options loop of `pickUserRolesToRemove`. -/
def removeOptionsLoop : List (Option Role) → List GoString → List GoString
  | [], options => options
  | role :: roles, options => removeOptionsLoop roles (options ++ [renderOption role])

/-- The decoding loop of both pickers: each selected option is cut at its first
`emptySpace` and appended to `inputs.Roles`; `none` is the panic of the slice
expression `selectedRole[:-1]` on an option without a space. -/
def decodeLoop : List GoString → List GoString → Option (List GoString)
  | [], roles => some roles
  | selectedRole :: rest, roles =>
    let indexOfFirstEmptySpace := strings.Index selectedRole emptySpace
    if indexOfFirstEmptySpace < 0 then none
    else decodeLoop rest (roles ++ [selectedRole.take indexOfFirstEmptySpace.toNat])

/-- The prompt and everything after it, shared by both pickers. -/
def askAndDecode (w : World) (tr : List Event) (inputs : userRolesInput)
    (options : List GoString) : userRolesInput × Outcome × List Event :=
  match w.askOne tr options with
  | .error err => (inputs, .error err, tr ++ [.askOne options])
  | .ok selectedRoles =>
    match decodeLoop selectedRoles inputs.Roles with
    | none => (inputs, .panic, tr ++ [.askOne options])
    | some roles =>
      if roles.length = 0 then
        ({ inputs with Roles := roles }, .error errNoRolesSelected, tr ++ [.askOne options])
      else ({ inputs with Roles := roles }, .ok, tr ++ [.askOne options])

/-- The method `cli.pickUserRolesToAdd`, started after the events `tr`. -/
def pickUserRolesToAdd (quote : GoString → GoString) (w : World) (tr : List Event)
    (inputs : userRolesInput) : userRolesInput × Outcome × List Event :=
  match Waiting (w.userRoles tr inputs.ID (some 100)) with
  | .error err =>
    (inputs, .error (str "failed to find the current roles for user with ID " ++ inputs.ID ++
      str ": " ++ err), tr ++ [.userRoles inputs.ID (some 100)])
  | .ok currentUserRoleList =>
    let tr1 := tr ++ [.userRoles inputs.ID (some 100)]
    match Waiting (w.roleList tr1) with
    | .error err => (inputs, .error (str "failed to list all roles: " ++ err), tr1 ++ [.roleList])
    | .ok roleList =>
      let tr2 := tr1 ++ [.roleList]
      if roleList.length = currentUserRoleList.length then
        (inputs, .error (str "the user with ID " ++ quote inputs.ID ++
          str " has all roles assigned already"), tr2)
      else askAndDecode w tr2 inputs (addOptionsLoop currentUserRoleList roleList [])

/-- The method `cli.pickUserRolesToRemove`, started after the events `tr`. -/
def pickUserRolesToRemove (w : World) (tr : List Event) (inputs : userRolesInput) :
    userRolesInput × Outcome × List Event :=
  match Waiting (w.userRoles tr inputs.ID none) with
  | .error err =>
    (inputs, .error (str "failed to find the current roles for user with ID " ++ inputs.ID ++
      str ": " ++ err), tr ++ [.userRoles inputs.ID none])
  | .ok currentUserRoleList =>
    askAndDecode w (tr ++ [.userRoles inputs.ID none]) inputs
      (removeOptionsLoop currentUserRoleList [])

/-- The start of both `RunE` closures: the user identifier from the prompt when
no argument is given, from `args[0]` otherwise. -/
def resolveID (w : World) (inputs : userRolesInput) (args : List GoString) :
    userRolesInput × Outcome × List Event :=
  match args with
  | [] =>
    match w.askUserID [] with
    | .error err => (inputs, .error err, [.askUserID])
    | .ok id => ({ inputs with ID := id }, .ok, [.askUserID])
  | a :: _ => ({ inputs with ID := a }, .ok, [])

/-- The `RunE` closure of `addUserRolesCmd`. -/
def addUserRolesCmd (quote : GoString → GoString) (w : World) (inputs : userRolesInput)
    (args : List GoString) : userRolesInput × Outcome × List Event :=
  match resolveID w inputs args with
  | (i1, .ok, tr1) =>
    match (if i1.Roles.length = 0 then pickUserRolesToAdd quote w tr1 i1 else (i1, .ok, tr1)) with
    | (i2, .ok, tr2) =>
      let rolesToAssign := i2.Roles
      match Waiting (w.assignRoles tr2 i2.ID rolesToAssign) with
      | some err =>
        (i2, .error (str "failed to assign roles for user with ID " ++ i2.ID ++ str ": " ++ err),
          tr2 ++ [.assignRoles i2.ID rolesToAssign])
      | none =>
        let tr3 := tr2 ++ [.assignRoles i2.ID rolesToAssign]
        match Waiting (w.userRoles tr3 i2.ID none) with
        | .error err =>
          (i2, .error (str "failed to find roles for user with ID " ++ i2.ID ++ str ": " ++ err),
            tr3 ++ [.userRoles i2.ID none])
        | .ok userRoleList =>
          (i2, .ok, tr3 ++ [.userRoles i2.ID none, .renderUserRoleList userRoleList])
    | r => r
  | r => r

/-- The `RunE` closure of `removeUserRolesCmd`. -/
def removeUserRolesCmd (w : World) (inputs : userRolesInput) (args : List GoString) :
    userRolesInput × Outcome × List Event :=
  match resolveID w inputs args with
  | (i1, .ok, tr1) =>
    match (if i1.Roles.length = 0 then pickUserRolesToRemove w tr1 i1 else (i1, .ok, tr1)) with
    | (i2, .ok, tr2) =>
      let rolesToRemove := i2.Roles
      match Waiting (w.removeRoles tr2 i2.ID rolesToRemove) with
      | some err =>
        (i2, .error (str "failed to remove roles for user with ID " ++ i2.ID ++ str ": " ++ err),
          tr2 ++ [.removeRoles i2.ID rolesToRemove])
      | none =>
        let tr3 := tr2 ++ [.removeRoles i2.ID rolesToRemove]
        match Waiting (w.userRoles tr3 i2.ID none) with
        | .error err =>
          (i2, .error (str "failed to find roles for user with ID " ++ i2.ID ++ str ": " ++ err),
            tr3 ++ [.userRoles i2.ID none])
        | .ok userRoleList =>
          (i2, .ok, tr3 ++ [.userRoles i2.ID none, .renderUserRoleList userRoleList])
    | r => r
  | r => r

end cli

/-! ## `internal/display/logs.go` -/

namespace display

/-- A Go empty-interface value as `encoding/json` decodes it: `nil`, `bool`,
`float64` (by its bits), `string`, `[]interface` and `map[string]interface`.  A map
is given by its entries; a key is read at its first entry. -/
inductive Any where
  | null
  | bool (b : Bool)
  | float64 (bits : Nat)
  | string (s : GoString)
  | array (items : List Any)
  | object (entries : List (GoString × Any))

/-- Map read `m[key]` on a `map[string]interface`: `nil` when the key is absent
(also on a nil map, which has no entries). -/
def mapIndex : List (GoString × Any) → GoString → Any
  | [], _ => .null
  | (k, v) :: rest, key => if k = key then v else mapIndex rest key

/-- The type assertion `v, _ := x.(map[string]interface)`: the zero value, a nil
map, when `x` holds anything else. -/
def assertMap : Any → List (GoString × Any)
  | .object entries => entries
  | _ => []

/-- The type assertion `v, _ := x.(string)`: the zero value `""` when `x` holds
anything else. -/
def assertString : Any → GoString
  | .string s => s
  | _ => []

/-- The fields of `management.Log` (auth0.v5) that `LogList` reads; `Time` is
`time.Time`, and `Type_` is the field `Type`. -/
structure Log (Time : Type) where
  Date : Option Time := none
  Type_ : Option GoString := none
  ClientID : Option GoString := none
  ClientName : Option GoString := none
  Details : List (GoString × Any) := []

/-- The library functions `LogList` calls. -/
structure LogEnv (Time : Type) where
  /-- `strconv.Quote`, the `%q` verb. -/
  quote : GoString → GoString
  /-- `t.Format(time.RFC3339)` -/
  formatRFC3339 : Time → GoString
  /-- `aurora.Green(s).String()` -/
  green : GoString → GoString
  /-- `aurora.BrightRed(s).String()` -/
  brightRed : GoString → GoString

/-- The accessors `GetType`, `GetClientName`, `GetClientID`: the empty string
for a nil log or a nil field. -/
def getString {Time : Type} (l : Option (Log Time)) (field : Log Time → Option GoString) :
    GoString :=
  match l with
  | none => []
  | some r => (field r).getD []

/-- One round of the loop of `LogList`: what it writes for the record `l`, or
`none` for the nil dereference of `l.Date` (nothing is written then). -/
def logListBody {Time : Type} (E : LogEnv Time) (l : Option (Log Time)) (noColor : Bool) :
    Option GoString :=
  let logType := getString l Log.Type_
  let logType :=
    if !noColor then
      if strings.HasPrefix logType (str "s") then E.green logType
      else if strings.HasPrefix logType (str "f") then E.brightRed logType
      else logType
    else logType
  match l with
  | none => none
  | some r =>
    match r.Date with
    | none => none
    | some date =>
      let out1 := str "[" ++ E.formatRFC3339 date ++ str "] (" ++ logType ++ str ") client_name=" ++
        E.quote (getString l Log.ClientName) ++ str " client_id=" ++ E.quote (getString l Log.ClientID)
      let reqMap := assertMap (mapIndex r.Details (str "request"))
      let userAgent := assertString (mapIndex reqMap (str "userAgent"))
      let out2 := if userAgent ≠ [] then out1 ++ str " user_agent=" ++ E.quote userAgent else out1
      let errMap := assertMap (mapIndex r.Details (str "error"))
      let errMsg := assertString (mapIndex errMap (str "message"))
      let errType := assertString (mapIndex errMap (str "type"))
      let out3 :=
        if errType ≠ [] ∨ errMsg ≠ [] then
          out2 ++ str " error_type=" ++ E.quote errType ++ str " error_message=" ++ E.quote errMsg
        else out2
      some (out3 ++ str "\n")

/-- The method `Renderer.LogList`: what it writes to `r.ResultWriter`, and
whether it ran to the end (`false`: it panicked at a record without a date). -/
def LogList {Time : Type} (E : LogEnv Time) (logs : List (Option (Log Time))) (noColor : Bool) :
    GoString × Bool :=
  match logs with
  | [] => ([], true)
  | l :: rest =>
    match logListBody E l noColor with
    | none => ([], false)
    | some line => (line ++ (LogList E rest noColor).1, (LogList E rest noColor).2)

end display

/-! ## Definitions that follow the specification's words

The classes of bytes, the embedded and the merged parameters and the nested log
fields that the statements below are written with.  None of them is part of
the embedding. -/

namespace cli

/-- A byte that a host may hold as it is, which `net/url` neither rejects nor
escapes in a host: a letter, a digit or one of
`- _ . ~ ! $ & ' ( ) * + , ; = : [ ] < > "`. -/
def domainByte (c : Fin 256) : Bool := !url.shouldEscape c .encodeHost

/-- A byte that a path may hold as it is, which `net/url` keeps in a path as
written: a letter, a digit, one of `- _ . ~ $ & + , / : ; = @ ! ' ( ) * [ ]`,
or the `%` of a percent escape. -/
def pathArgByte (c : Fin 256) : Bool := url.validEncoded [c] .encodePath

/-- The query text embedded in a path argument: what stands after its first
`?`, up to its first `#`. -/
def embeddedQuery (arg : GoString) : GoString :=
  ((arg.takeWhile (fun c => c != ch '#')).dropWhile (fun c => c != ch '?')).drop 1

/-- The pieces of `s` between the separator bytes `c`. -/
def splitByte (c : Fin 256) : GoString → List GoString
  | [] => [[]]
  | x :: xs =>
    if x = c then [] :: splitByte c xs
    else
      match splitByte c xs with
      | seg :: segs => (x :: seg) :: segs
      | [] => [[x]]

/-- The parameter that one `&`-separated piece of a query text embeds: the key
before its first `=` and the value after it, both decoded.  An empty piece, a
piece that holds `;` and a piece with a malformed percent escape embed none. -/
def embeddedPair (piece : GoString) : Option (GoString × GoString) :=
  if piece = [] ∨ ch ';' ∈ piece then none
  else
    match url.QueryUnescape (piece.takeWhile (fun c => c != ch '=')),
      url.QueryUnescape ((piece.dropWhile (fun c => c != ch '=')).drop 1) with
    | .ok key, .ok value => some (key, value)
    | _, _ => none

/-- The parameters embedded in a query text, in the order they are written. -/
def embeddedPairs (query : GoString) : List (GoString × GoString) :=
  (splitByte (ch '&') query).filterMap embeddedPair

/-- The merged query parameters as the specification words them: under a
supplied key exactly its supplied value, under any other key the values of the
embedded parameters of that key, in the order they are written. -/
def mergedParams (supplied embedded : List (GoString × GoString)) (key : GoString) :
    List GoString :=
  match supplied.find? (fun kv => kv.1 = key) with
  | some kv => [kv.2]
  | none => (embedded.filter (fun kv => kv.1 = key)).map Prod.snd

/-- The merged query parameters over a map of embedded values: under a supplied
key exactly its supplied value, under any other key the values the map holds. -/
def mergedValues (supplied : List (GoString × GoString)) (embedded : url.Values)
    (key : GoString) : List GoString :=
  match supplied.find? (fun kv => kv.1 = key) with
  | some kv => [kv.2]
  | none => embedded.lookup key

end cli

namespace display

/-- The nested field as the specification words it: the value of `details[outer][inner]`
when `details[outer]` is a map and its entry `inner` is a non-empty string;
`none` when the substructure or the entry is missing, nil, of another type, or
the empty string. -/
def nestedString (details : List (GoString × Any)) (outer inner : GoString) : Option GoString :=
  match mapIndex details outer with
  | .object entries =>
    match mapIndex entries inner with
    | .string s => if s = [] then none else some s
    | _ => none
  | _ => none

/-- The event-type token of a line: the type, wrapped in green when colours are
on and it starts with `s`, in bright red when colours are on and it starts
with `f`. -/
def typeToken {Time : Type} (E : LogEnv Time) (logType : GoString) (noColor : Bool) : GoString :=
  if noColor then logType
  else if strings.HasPrefix logType (str "s") then E.green logType
  else if strings.HasPrefix logType (str "f") then E.brightRed logType
  else logType

end display

/-! ## Example inputs -/

namespace cli

open management

/-- The world of the examples: one user whose assigned roles are `current`, a
tenant whose roles are `all`, and a user who ticks `selection` in the prompt. -/
def exampleWorld (current all : List (Option Role)) (selection : List GoString) : World :=
  { askUserID := fun _ => .ok (str "auth0|1")
    userRoles := fun _ _ _ => .ok current
    roleList := fun _ => .ok all
    askOne := fun _ _ => .ok selection
    assignRoles := fun _ _ _ => none
    removeRoles := fun _ _ _ => none }

/-- The role `rol_A`, named `Admin`. -/
def roleA : Option Role := some { ID := some (str "rol_A"), Name := some (str "Admin") }
/-- The role `rol_B`, named `Billing`. -/
def roleB : Option Role := some { ID := some (str "rol_B"), Name := some (str "Billing") }
/-- The role `rol_C`, named `Content Editor`. -/
def roleC : Option Role := some { ID := some (str "rol_C"), Name := some (str "Content Editor") }

/-- The inputs of `auth0 api "/clients?b=2&a=1&a=3" -q "c=x y" -q "a=9"`. -/
def exampleQueryInputs : apiCmdInputs :=
  { RawURI := str "/clients?b=2&a=1&a=3",
    RawQueryParams := [(str "c", str "x y"), (str "a", str "9")] }

/-- The inputs of `auth0 api "///clients//"`. -/
def exampleSlashInputs : apiCmdInputs := { RawURI := str "///clients//" }

/-- The inputs of `auth0 api "/users/auth0%7C123/roles/" -q "per_page=5"`. -/
def exampleEscapedInputs : apiCmdInputs :=
  { RawURI := str "/users/auth0%7C123/roles/", RawQueryParams := [(str "per_page", str "5")] }

end cli

namespace display

/-- A renderer environment for the example: `strconv.Quote` on ASCII text and
times given by their RFC 3339 text; the colour functions are not reached with
`noColor` set. -/
def exampleLogEnv : LogEnv GoString :=
  { quote := quoteASCII, formatRFC3339 := fun t => t, green := fun s => s,
    brightRed := fun s => s }

/-- A successful login from `curl/7.0`, without an `error` substructure. -/
def exampleLog : Log GoString :=
  { Date := some (str "2022-11-18T10:00:00Z"), Type_ := some (str "success_login"),
    ClientID := some (str "abc"), ClientName := some (str "My App"),
    Details := [(str "request", .object [(str "userAgent", .string (str "curl/7.0"))])] }

end display

/-! # Theorems -/

/-! ## The request builder: method and body (`api.go`) -/

namespace cli

theorem validMethodLoop_iff (m : GoString) (l : List GoString) :
    validMethodLoop m l = true ↔ m ∈ l := by
  induction l with
  | nil => simp [validMethodLoop]
  | cons a l ih =>
    unfold validMethodLoop
    by_cases h : m = a
    · simp [h]
    · simp [h, ih]

theorem validateAndSetData_fields (L : GoLib) (i : apiCmdInputs) :
    (i.validateAndSetData L.jsonValid).1.RawMethod = i.RawMethod ∧
      (i.validateAndSetData L.jsonValid).1.RawURI = i.RawURI ∧
      (i.validateAndSetData L.jsonValid).1.Method = i.Method ∧
      (i.validateAndSetData L.jsonValid).1.RawData = i.RawData ∧
      (i.validateAndSetData L.jsonValid).1.RawQueryParams = i.RawQueryParams := by
  unfold apiCmdInputs.validateAndSetData
  split <;> simp

theorem validateAndSetEndpoint_fields (L : GoLib) (i : apiCmdInputs) (domain : GoString) :
    (i.validateAndSetEndpoint L.quote L.hostLiteral domain).1.RawMethod = i.RawMethod ∧
      (i.validateAndSetEndpoint L.quote L.hostLiteral domain).1.RawURI = i.RawURI ∧
      (i.validateAndSetEndpoint L.quote L.hostLiteral domain).1.Method = i.Method ∧
      (i.validateAndSetEndpoint L.quote L.hostLiteral domain).1.RawData = i.RawData ∧
      (i.validateAndSetEndpoint L.quote L.hostLiteral domain).1.Data = i.Data := by
  unfold apiCmdInputs.validateAndSetEndpoint
  split <;> simp

theorem validateAndSetEndpoint_no_panic (L : GoLib) (i : apiCmdInputs) (domain : GoString) :
    (i.validateAndSetEndpoint L.quote L.hostLiteral domain).2 ≠ .panic := by
  unfold apiCmdInputs.validateAndSetEndpoint
  split <;> simp

set_option maxRecDepth 4000 in
theorem parseRaw_single (L : GoLib) (i : apiCmdInputs) (arg : GoString) :
    i.parseRaw L.unicodeUpper [arg] =
      some { i with RawMethod := if i.RawData = [] then str "GET" else str "POST", RawURI := arg } := by
  unfold apiCmdInputs.parseRaw
  by_cases h : i.RawData = [] <;> simp [h]

theorem validateAndSetMethod_of_mem (i : apiCmdInputs) (h : i.RawMethod ∈ apiValidMethods) :
    i.validateAndSetMethod = ({ i with Method := i.RawMethod }, .ok) := by
  unfold apiCmdInputs.validateAndSetMethod
  rw [if_pos ((validMethodLoop_iff _ _).2 h)]

theorem validateAndSetMethod_of_not_mem (i : apiCmdInputs) (h : i.RawMethod ∉ apiValidMethods) :
    i.validateAndSetMethod =
      (i, .error (str "invalid method given: " ++ i.RawMethod ++ str ", accepting only " ++
        strings.Join apiValidMethods (str ", "))) := by
  unfold apiCmdInputs.validateAndSetMethod
  rw [if_neg (fun hh => h ((validMethodLoop_iff _ _).1 hh))]

theorem fromArgs_of_method_ok (L : GoLib) (i i1 : apiCmdInputs) (args : List GoString)
    (domain : GoString) (hp : i.parseRaw L.unicodeUpper args = some i1) (hm : i1.RawMethod ∈ apiValidMethods) :
    (i.fromArgs L args domain).1.RawMethod = i1.RawMethod ∧
      (i.fromArgs L args domain).1.Method = i1.RawMethod ∧
      (i.fromArgs L args domain).1.RawURI = i1.RawURI ∧
      (i.fromArgs L args domain).2 ≠ .panic := by
  unfold apiCmdInputs.fromArgs
  rw [hp]
  simp only [validateAndSetMethod_of_mem i1 hm]
  have hd := validateAndSetData_fields L { i1 with Method := i1.RawMethod }
  rcases hres : apiCmdInputs.validateAndSetData L.jsonValid { i1 with Method := i1.RawMethod } with ⟨i3, o⟩
  rw [hres] at hd
  simp only at hd
  have he := validateAndSetEndpoint_fields L i3 domain
  have hn := validateAndSetEndpoint_no_panic L i3 domain
  cases o with
  | ok => simp only; exact ⟨he.1.trans hd.1, he.2.2.1.trans hd.2.2.1, he.2.1.trans hd.2.1, hn⟩
  | error msg => simp only; exact ⟨hd.1, hd.2.2.1, hd.2.1, by simp⟩
  | panic =>
    exfalso
    unfold apiCmdInputs.validateAndSetData at hres
    split at hres <;> simp at hres

/-- C1: with exactly one positional argument, `parseRaw` resolves the method to
`GET` when the body `RawData` is empty and to `POST` when it is not, and takes
the argument as `RawURI`; method validation then succeeds, and `fromArgs` ends
(without panic) with `Method` that method and `RawURI` the argument. -/
theorem C1_single_argument_method (L : GoLib) (i : apiCmdInputs) (arg domain : GoString) :
    ∃ i1 : apiCmdInputs, i.parseRaw L.unicodeUpper [arg] = some i1 ∧
      i1.RawMethod = (if i.RawData = [] then str "GET" else str "POST") ∧
      i1.RawURI = arg ∧
      i1.validateAndSetMethod = ({ i1 with Method := i1.RawMethod }, .ok) ∧
      (i.fromArgs L [arg] domain).1.Method = (if i.RawData = [] then str "GET" else str "POST") ∧
      (i.fromArgs L [arg] domain).1.RawURI = arg ∧
      (i.fromArgs L [arg] domain).2 ≠ .panic := by
  have hmem : (if i.RawData = [] then str "GET" else str "POST") ∈ apiValidMethods := by
    by_cases h : i.RawData = [] <;> simp [h, apiValidMethods]
  have h := fromArgs_of_method_ok L i _ [arg] domain (parseRaw_single L i arg) hmem
  exact ⟨_, parseRaw_single L i arg, rfl, rfl, validateAndSetMethod_of_mem _ hmem, h.2.1, h.2.2.1,
    h.2.2.2⟩

theorem parseRaw_two (L : GoLib) (i : apiCmdInputs) (a0 a1 : GoString) :
    i.parseRaw L.unicodeUpper [a0, a1] =
      some { i with RawMethod := strings.ToUpper L.unicodeUpper a0, RawURI := a1 } := by
  unfold apiCmdInputs.parseRaw
  simp

theorem join_apiValidMethods :
    strings.Join apiValidMethods (str ", ") = str "GET, POST, PUT, PATCH, DELETE" := by
  decide

theorem fromArgs_ok_method (L : GoLib) (i : apiCmdInputs) (args : List GoString)
    (domain : GoString) (h : (i.fromArgs L args domain).2 = .ok) :
    (i.fromArgs L args domain).1.Method ∈ apiValidMethods := by
  cases hp : i.parseRaw L.unicodeUpper args with
  | none => unfold apiCmdInputs.fromArgs at h; rw [hp] at h; simp at h
  | some i1 =>
    by_cases hm : i1.RawMethod ∈ apiValidMethods
    · rw [(fromArgs_of_method_ok L i i1 args domain hp hm).2.1]; exact hm
    · unfold apiCmdInputs.fromArgs at h
      rw [hp] at h
      simp only [validateAndSetMethod_of_not_mem i1 hm] at h
      simp at h

/-- C2: with two positional arguments, `parseRaw` resolves the method to the
upper-cased first argument and takes the second as `RawURI`; method validation
succeeds, setting `Method` to that value, exactly when it is one of `GET`,
`POST`, `PUT`, `PATCH`, `DELETE`, and otherwise it, and with it `fromArgs`,
fails with `invalid method given: <value>, accepting only GET, POST, PUT,
PATCH, DELETE`; so after every successful `fromArgs`, on any arguments,
`Method` is one of the five.  (`get` and `Delete` upper-case to `GET` and
`DELETE`.) -/
theorem C2_two_arguments_method (L : GoLib) (i : apiCmdInputs) (a0 a1 domain : GoString) :
    ∃ i1 : apiCmdInputs, i.parseRaw L.unicodeUpper [a0, a1] = some i1 ∧
      i1.RawMethod = strings.ToUpper L.unicodeUpper a0 ∧
      i1.RawURI = a1 ∧
      (i1.validateAndSetMethod.2 = .ok ↔
        i1.RawMethod ∈ [str "GET", str "POST", str "PUT", str "PATCH", str "DELETE"]) ∧
      (i1.validateAndSetMethod.2 = .ok →
        i1.validateAndSetMethod.1 = { i1 with Method := strings.ToUpper L.unicodeUpper a0 }) ∧
      (i1.validateAndSetMethod.2 ≠ .ok →
        i1.validateAndSetMethod = (i1, .error (str "invalid method given: " ++
          strings.ToUpper L.unicodeUpper a0 ++
          str ", accepting only GET, POST, PUT, PATCH, DELETE")) ∧
        i.fromArgs L [a0, a1] domain = i1.validateAndSetMethod) ∧
      (∀ args : List GoString, (i.fromArgs L args domain).2 = .ok →
        (i.fromArgs L args domain).1.Method ∈
          [str "GET", str "POST", str "PUT", str "PATCH", str "DELETE"]) ∧
      strings.ToUpper L.unicodeUpper (str "get") = str "GET" ∧
      strings.ToUpper L.unicodeUpper (str "Delete") = str "DELETE" := by
  refine ⟨_, parseRaw_two L i a0 a1, rfl, rfl, ?_, ?_, ?_,
    fun args h => fromArgs_ok_method L i args domain h, rfl, rfl⟩
  · constructor
    · intro h
      by_contra hm
      rw [validateAndSetMethod_of_not_mem _ hm] at h
      simp at h
    · intro hm
      rw [validateAndSetMethod_of_mem _ hm]
  · intro h
    by_cases hm : ({ i with RawMethod := strings.ToUpper L.unicodeUpper a0, RawURI := a1 } :
        apiCmdInputs).RawMethod ∈ apiValidMethods
    · rw [validateAndSetMethod_of_mem _ hm]
    · rw [validateAndSetMethod_of_not_mem _ hm] at h
      simp at h
  · intro h
    by_cases hm : ({ i with RawMethod := strings.ToUpper L.unicodeUpper a0, RawURI := a1 } :
        apiCmdInputs).RawMethod ∈ apiValidMethods
    · rw [validateAndSetMethod_of_mem _ hm] at h
      simp at h
    · constructor
      · have hcat : str ", accepting only " ++ str "GET, POST, PUT, PATCH, DELETE" =
            str ", accepting only GET, POST, PUT, PATCH, DELETE" := by decide
        rw [validateAndSetMethod_of_not_mem _ hm, join_apiValidMethods]
        simp only [List.append_assoc, hcat]
      · unfold apiCmdInputs.fromArgs
        rw [parseRaw_two]
        simp only [validateAndSetMethod_of_not_mem _ hm]

theorem parseRaw_RawData (L : GoLib) (i i1 : apiCmdInputs) (args : List GoString)
    (h : i.parseRaw L.unicodeUpper args = some i1) : i1.RawData = i.RawData := by
  unfold apiCmdInputs.parseRaw at h
  simp only at h
  split at h
  · simp only [Option.map_eq_some'] at h
    obtain ⟨a, _, rfl⟩ := h
    split <;> rfl
  · split at h
    · simp at h
    · simp only [Option.map_eq_some'] at h
      obtain ⟨a, _, rfl⟩ := h
      rfl

theorem parseRaw_isSome (L : GoLib) (i : apiCmdInputs) (args : List GoString) (h : args ≠ []) :
    ∃ i1, i.parseRaw L.unicodeUpper args = some i1 := by
  cases args with
  | nil => exact absurd rfl h
  | cons a rest =>
    cases rest with
    | nil => exact ⟨_, parseRaw_single L i a⟩
    | cons b rest2 =>
      have hlast : ∃ x, (a :: b :: rest2).get? ((a :: b :: rest2).length - 1) = some x := by
        have hlt : (a :: b :: rest2).length - 1 < (a :: b :: rest2).length := by simp
        exact ⟨_, List.get?_eq_get hlt⟩
      obtain ⟨x, hx⟩ := hlast
      unfold apiCmdInputs.parseRaw
      simp only [hx]
      simp

theorem validateAndSetData_error (L : GoLib) (i : apiCmdInputs)
    (h : i.RawData ≠ [] ∧ L.jsonValid i.RawData = false) :
    i.validateAndSetData L.jsonValid = (i, .error (str "invalid json data given: " ++ i.RawData)) := by
  unfold apiCmdInputs.validateAndSetData
  rw [if_pos]
  simpa using h

theorem validateAndSetData_ok (L : GoLib) (i : apiCmdInputs)
    (h : ¬ (i.RawData ≠ [] ∧ L.jsonValid i.RawData = false)) :
    i.validateAndSetData L.jsonValid = ({ i with Data := some i.RawData }, .ok) := by
  unfold apiCmdInputs.validateAndSetData
  rw [if_neg]
  simpa using h

theorem fromArgs_invalid_data (L : GoLib) (i : apiCmdInputs) (args : List GoString)
    (domain : GoString) (h : i.RawData ≠ [] ∧ L.jsonValid i.RawData = false) :
    (i.fromArgs L args domain).2 = .panic ∨ ∃ msg, (i.fromArgs L args domain).2 = .error msg := by
  unfold apiCmdInputs.fromArgs
  cases hp : i.parseRaw L.unicodeUpper args with
  | none => left; rfl
  | some i1 =>
    right
    have hd := parseRaw_RawData L i i1 args hp
    by_cases hm : i1.RawMethod ∈ apiValidMethods
    · simp only [validateAndSetMethod_of_mem i1 hm]
      rw [validateAndSetData_error L _ (by simpa [hd] using h)]
      exact ⟨_, rfl⟩
    · simp only [validateAndSetMethod_of_not_mem i1 hm]
      exact ⟨_, rfl⟩

/-- C3: `validateAndSetData` fails exactly when the body `RawData` is non-empty
and `json.Valid` rejects it, with the error `invalid json data given: <body>`;
otherwise it succeeds and `Data` is a reader over exactly the bytes of the body
(over no bytes for an empty body, never the nil reader).  For such a rejected
body `fromArgs` never returns `nil` (on a non-empty argument list it returns an
error), and `apiCmdRun` ends with an error or panic without building or
sending any request. -/
theorem C3_invalid_json_rejected (L : GoLib) (i : apiCmdInputs) :
    ((i.validateAndSetData L.jsonValid).2 ≠ .ok ↔ (i.RawData ≠ [] ∧ L.jsonValid i.RawData = false)) ∧
      ((i.RawData ≠ [] ∧ L.jsonValid i.RawData = false) →
        i.validateAndSetData L.jsonValid = (i, .error (str "invalid json data given: " ++ i.RawData))) ∧
      (¬ (i.RawData ≠ [] ∧ L.jsonValid i.RawData = false) →
        i.validateAndSetData L.jsonValid = ({ i with Data := some i.RawData }, .ok)) ∧
      (i.RawData = [] → (i.validateAndSetData L.jsonValid).1.Data = some []) ∧
      ((i.RawData ≠ [] ∧ L.jsonValid i.RawData = false) →
        ∀ (args : List GoString) (domain : GoString),
          (i.fromArgs L args domain).2 ≠ .ok ∧
          (args ≠ [] → ∃ msg, (i.fromArgs L args domain).2 = .error msg)) ∧
      ((i.RawData ≠ [] ∧ L.jsonValid i.RawData = false) →
        ∀ (E : apiEnv) (args : List GoString),
          (apiCmdRun L E i args).2.1 ≠ .ok ∧ (apiCmdRun L E i args).2.2 = []) := by
  refine ⟨?_, validateAndSetData_error L i, validateAndSetData_ok L i, ?_, ?_, ?_⟩
  · constructor
    · intro h
      by_contra hc
      rw [validateAndSetData_ok L i hc] at h
      exact h rfl
    · intro h
      rw [validateAndSetData_error L i h]
      simp
  · intro h
    rw [validateAndSetData_ok L i (by simp [h])]
    simp [h]
  · intro h args domain
    constructor
    · rcases fromArgs_invalid_data L i args domain h with hp | ⟨msg, hm⟩
      · rw [hp]; simp
      · rw [hm]; simp
    · intro hargs
      rcases fromArgs_invalid_data L i args domain h with hp | ⟨msg, hm⟩
      · exfalso
        obtain ⟨i1, hi1⟩ := parseRaw_isSome L i args hargs
        unfold apiCmdInputs.fromArgs at hp
        rw [hi1] at hp
        by_cases hmem : i1.RawMethod ∈ apiValidMethods
        · simp only [validateAndSetMethod_of_mem i1 hmem] at hp
          rw [validateAndSetData_error L _
            (by simpa [parseRaw_RawData L i i1 args hi1] using h)] at hp
          simp at hp
        · simp only [validateAndSetMethod_of_not_mem i1 hmem] at hp
          simp at hp
      · exact ⟨msg, hm⟩
  · intro h E args
    unfold apiCmdRun
    rcases hres : i.fromArgs L args E.tenant with ⟨i1, o⟩
    rcases fromArgs_invalid_data L i args E.tenant h with hp | ⟨msg, hm⟩
    · rw [hres] at hp
      simp only at hp
      subst hp
      simp
    · rw [hres] at hm
      simp only at hm
      subst hm
      simp

end cli

/-! ## Role reconciliation (`users_roles.go`) -/

namespace cli

open management

theorem containsRole_iff (roles : List (Option Role)) (roleID : GoString) :
    containsRole roles roleID = true ↔ ∃ r ∈ roles, Role.GetID r = roleID := by
  induction roles with
  | nil => simp [containsRole]
  | cons r rest ih =>
    unfold containsRole
    by_cases h : Role.GetID r = roleID
    · simp [h]
    · simp [h, ih]

theorem addOptionsLoop_eq (current : List (Option Role)) (roles : List (Option Role))
    (options : List GoString) :
    addOptionsLoop current roles options =
      options ++ (roles.filter (fun u => !containsRole current (Role.GetID u))).map renderOption := by
  induction roles generalizing options with
  | nil => simp [addOptionsLoop]
  | cons r rest ih =>
    unfold addOptionsLoop
    by_cases h : containsRole current (Role.GetID r) = true
    · simp [h, ih]
    · simp [h, ih]

theorem removeOptionsLoop_eq (roles : List (Option Role)) (options : List GoString) :
    removeOptionsLoop roles options = options ++ roles.map renderOption := by
  induction roles generalizing options with
  | nil => simp [removeOptionsLoop]
  | cons r rest ih =>
    unfold removeOptionsLoop
    simp [ih]

theorem renderOption_eq (role : Option Role) :
    renderOption role = Role.GetID role ++ str " (Name: " ++ Role.GetName role ++ str ")" := by
  have h : emptySpace ++ str "(Name: " = str " (Name: " := by decide
  unfold renderOption
  simp only [List.append_assoc]
  rw [← List.append_assoc emptySpace, h]

theorem notContains_eq (current : List (Option Role)) (u : Option Role) :
    (!containsRole current (Role.GetID u)) =
      decide (∀ c ∈ current, Role.GetID c ≠ Role.GetID u) := by
  by_cases h : containsRole current (Role.GetID u) = true
  · have h2 := (containsRole_iff _ _).1 h
    simp only [h, Bool.not_true]
    symm
    rw [decide_eq_false_iff_not]
    intro hall
    obtain ⟨c, hc, hcu⟩ := h2
    exact hall c hc hcu
  · have h2 : ¬ ∃ r ∈ current, Role.GetID r = Role.GetID u := fun hh => h ((containsRole_iff _ _).2 hh)
    simp only [Bool.not_eq_true] at h
    simp only [h, Bool.not_false]
    symm
    rw [decide_eq_true_iff]
    intro c hc hcu
    exact h2 ⟨c, hc, hcu⟩

theorem pickUserRolesToAdd_trace (quote : GoString → GoString) (w : World) (tr : List Event)
    (inputs : userRolesInput) (U C : List (Option Role))
    (hC : w.userRoles tr inputs.ID (some 100) = .ok C)
    (hU : w.roleList (tr ++ [.userRoles inputs.ID (some 100)]) = .ok U)
    (hlen : U.length ≠ C.length) :
    pickUserRolesToAdd quote w tr inputs =
      askAndDecode w (tr ++ [.userRoles inputs.ID (some 100)] ++ [.roleList]) inputs
        (addOptionsLoop C U []) := by
  unfold pickUserRolesToAdd Waiting
  simp only [hC, hU, if_neg hlen]

theorem askAndDecode_trace (w : World) (tr : List Event) (inputs : userRolesInput)
    (options : List GoString) :
    (askAndDecode w tr inputs options).2.2 = tr ++ [.askOne options] := by
  unfold askAndDecode
  split
  · rfl
  · split
    · rfl
    · split <;> rfl

/-- C6: when `pickUserRolesToAdd` gets the assigned roles `C` and the candidate
roles `U` and goes on to the prompt (the two lists differ in length), it calls
the prompt once, and the options it presents are exactly the renderings
`<id> (Name: <name>)` of the roles of `U` whose identifier is the identifier of
no role of `C`, in the order of `U`. -/
theorem C6_add_flow_options (quote : GoString → GoString) (w : World) (tr : List Event)
    (inputs : userRolesInput) (U C : List (Option Role))
    (hC : w.userRoles tr inputs.ID (some 100) = .ok C)
    (hU : w.roleList (tr ++ [.userRoles inputs.ID (some 100)]) = .ok U)
    (hlen : U.length ≠ C.length) :
    (pickUserRolesToAdd quote w tr inputs).2.2 =
      tr ++ [.userRoles inputs.ID (some 100), .roleList,
        .askOne ((U.filter (fun u => decide (∀ c ∈ C, Role.GetID c ≠ Role.GetID u))).map
          (fun u => Role.GetID u ++ str " (Name: " ++ Role.GetName u ++ str ")"))] := by
  rw [pickUserRolesToAdd_trace quote w tr inputs U C hC hU hlen, askAndDecode_trace,
    addOptionsLoop_eq]
  have hf : (fun u => !containsRole C (Role.GetID u)) =
      (fun u => decide (∀ c ∈ C, Role.GetID c ≠ Role.GetID u)) := funext (notContains_eq C)
  have hr : renderOption = (fun u => Role.GetID u ++ str " (Name: " ++ Role.GetName u ++ str ")") :=
    funext renderOption_eq
  rw [hf, hr]
  simp

theorem C6_add_flow_options_witness :
    (pickUserRolesToAdd quoteASCII (exampleWorld [roleA] [roleA, roleB, roleC] []) []
        { ID := str "auth0|1" }).2.2 =
      [.userRoles (str "auth0|1") (some 100), .roleList,
        .askOne [str "rol_B (Name: Billing)", str "rol_C (Name: Content Editor)"]] :=
  (C6_add_flow_options quoteASCII (exampleWorld [roleA] [roleA, roleB, roleC] []) []
    { ID := str "auth0|1" } [roleA, roleB, roleC] [roleA] rfl rfl (by decide)).trans (by decide)

theorem pickUserRolesToAdd_same_length (quote : GoString → GoString) (w : World) (tr : List Event)
    (inputs : userRolesInput) (U C : List (Option Role))
    (hC : w.userRoles tr inputs.ID (some 100) = .ok C)
    (hU : w.roleList (tr ++ [.userRoles inputs.ID (some 100)]) = .ok U)
    (hlen : U.length = C.length) :
    pickUserRolesToAdd quote w tr inputs =
      (inputs, .error (str "the user with ID " ++ quote inputs.ID ++
        str " has all roles assigned already"),
        tr ++ [.userRoles inputs.ID (some 100)] ++ [.roleList]) := by
  unfold pickUserRolesToAdd Waiting
  simp only [hC, hU, if_pos hlen]

/-- For duplicate-free identifier lists with `C ⊆ U`, equal length means no role
of `U` is missing from `C`. -/
theorem length_eq_iff_filter_nil (U C : List (Option Role))
    (hndU : (U.map Role.GetID).Nodup) (hndC : (C.map Role.GetID).Nodup)
    (hsub : ∀ c ∈ C, ∃ u ∈ U, Role.GetID u = Role.GetID c) :
    U.length = C.length ↔
      U.filter (fun u => decide (∀ c ∈ C, Role.GetID c ≠ Role.GetID u)) = [] := by
  have hsubset : C.map Role.GetID ⊆ U.map Role.GetID := by
    intro x hx
    obtain ⟨c, hc, rfl⟩ := List.mem_map.1 hx
    obtain ⟨u, hu, hcu⟩ := hsub c hc
    exact List.mem_map.2 ⟨u, hu, hcu⟩
  have hsp : (C.map Role.GetID).Subperm (U.map Role.GetID) := List.subperm_of_subset hndC hsubset
  rw [List.filter_eq_nil_iff]
  constructor
  · intro hlen u hu
    have hperm : (C.map Role.GetID).Perm (U.map Role.GetID) :=
      hsp.perm_of_length_le (by simp [hlen])
    have hmem : Role.GetID u ∈ C.map Role.GetID :=
      hperm.symm.subset (List.mem_map.2 ⟨u, hu, rfl⟩)
    obtain ⟨c, hc, hcu⟩ := List.mem_map.1 hmem
    simp only [decide_eq_true_eq]
    intro hall
    exact hall c hc hcu
  · intro hall
    have hsubset2 : U.map Role.GetID ⊆ C.map Role.GetID := by
      intro x hx
      obtain ⟨u, hu, rfl⟩ := List.mem_map.1 hx
      have := hall u hu
      simp only [decide_eq_true_eq, not_forall] at this
      obtain ⟨c, hc, hcu⟩ := this
      exact List.mem_map.2 ⟨c, hc, not_not.1 hcu⟩
    have hsp2 : (U.map Role.GetID).Subperm (C.map Role.GetID) :=
      List.subperm_of_subset hndU hsubset2
    have h1 := hsp.length_le
    have h2 := hsp2.length_le
    simp only [List.length_map] at h1 h2
    omega

/-- C7, as stated, fails: with candidates `[A, B]` and assigned roles `[A, C]`
the difference `U \ C` is `[B]`, not empty, yet the operation fails with the
already-assigned error and calls no prompt. -/
theorem C7_counterexample :
    [roleA, roleB].filter (fun u => decide (∀ c ∈ [roleA, roleC], Role.GetID c ≠ Role.GetID u)) =
        [roleB] ∧
      pickUserRolesToAdd quoteASCII (exampleWorld [roleA, roleC] [roleA, roleB] []) []
          { ID := str "auth0|1" } =
        ({ ID := str "auth0|1" },
          .error (str "the user with ID \"auth0|1\" has all roles assigned already"),
          [.userRoles (str "auth0|1") (some 100), .roleList]) := by
  decide

/-- C7, amended: for every list `C` of assigned roles and every list `U` of
candidates that the two API calls return, `pickUserRolesToAdd` fails with the
already-assigned error, without calling the prompt, exactly when `U` and `C`
have the same length; when the lengths differ it calls the prompt with the
renderings of `U \ C`.  When no identifier occurs twice in `U` or in `C` and
every role of `C` is in `U`, the lengths are equal exactly when `U \ C` is
empty, so the failure occurs exactly when `U \ C` is empty, and a non-empty
`U \ C` gives a prompt with a non-empty list of options. -/
theorem C7_already_assigned (quote : GoString → GoString) (w : World) (tr : List Event)
    (inputs : userRolesInput) (U C : List (Option Role))
    (hC : w.userRoles tr inputs.ID (some 100) = .ok C)
    (hU : w.roleList (tr ++ [.userRoles inputs.ID (some 100)]) = .ok U) :
    (pickUserRolesToAdd quote w tr inputs =
        (inputs, .error (str "the user with ID " ++ quote inputs.ID ++
          str " has all roles assigned already"),
          tr ++ [.userRoles inputs.ID (some 100), .roleList]) ↔
      U.length = C.length) ∧
    (U.length ≠ C.length →
      (pickUserRolesToAdd quote w tr inputs).2.2 =
        tr ++ [.userRoles inputs.ID (some 100), .roleList,
          .askOne ((U.filter (fun u => decide (∀ c ∈ C, Role.GetID c ≠ Role.GetID u))).map
            (fun u => Role.GetID u ++ str " (Name: " ++ Role.GetName u ++ str ")"))]) ∧
    ((U.map Role.GetID).Nodup → (C.map Role.GetID).Nodup →
      (∀ c ∈ C, ∃ u ∈ U, Role.GetID u = Role.GetID c) →
      (U.length = C.length ↔
        U.filter (fun u => decide (∀ c ∈ C, Role.GetID c ≠ Role.GetID u)) = []) ∧
      (pickUserRolesToAdd quote w tr inputs =
          (inputs, .error (str "the user with ID " ++ quote inputs.ID ++
            str " has all roles assigned already"),
            tr ++ [.userRoles inputs.ID (some 100), .roleList]) ↔
        U.filter (fun u => decide (∀ c ∈ C, Role.GetID c ≠ Role.GetID u)) = []) ∧
      (U.filter (fun u => decide (∀ c ∈ C, Role.GetID c ≠ Role.GetID u)) ≠ [] →
        ∃ options : List GoString, options ≠ [] ∧
          (pickUserRolesToAdd quote w tr inputs).2.2 =
            tr ++ [.userRoles inputs.ID (some 100), .roleList, .askOne options])) := by
  have hres : pickUserRolesToAdd quote w tr inputs =
        (inputs, .error (str "the user with ID " ++ quote inputs.ID ++
          str " has all roles assigned already"),
          tr ++ [.userRoles inputs.ID (some 100), .roleList]) ↔
      U.length = C.length := by
    constructor
    · intro hres
      by_contra hlen
      have htr := congrArg (fun r => r.2.2) hres
      simp only at htr
      rw [pickUserRolesToAdd_trace quote w tr inputs U C hC hU hlen, askAndDecode_trace] at htr
      have := congrArg List.length htr
      simp at this
    · intro hlen
      rw [pickUserRolesToAdd_same_length quote w tr inputs U C hC hU hlen]
      simp
  have htrace : U.length ≠ C.length →
      (pickUserRolesToAdd quote w tr inputs).2.2 =
        tr ++ [.userRoles inputs.ID (some 100), .roleList,
          .askOne ((U.filter (fun u => decide (∀ c ∈ C, Role.GetID c ≠ Role.GetID u))).map
            (fun u => Role.GetID u ++ str " (Name: " ++ Role.GetName u ++ str ")"))] := by
    intro hlen
    rw [pickUserRolesToAdd_trace quote w tr inputs U C hC hU hlen, askAndDecode_trace,
      addOptionsLoop_eq]
    have hf : (fun u => !containsRole C (Role.GetID u)) =
        (fun u => decide (∀ c ∈ C, Role.GetID c ≠ Role.GetID u)) := funext (notContains_eq C)
    have hr : renderOption =
        (fun u => Role.GetID u ++ str " (Name: " ++ Role.GetName u ++ str ")") :=
      funext renderOption_eq
    rw [hf, hr]
    simp
  refine ⟨hres, htrace, ?_⟩
  intro hndU hndC hsub
  have hiff := length_eq_iff_filter_nil U C hndU hndC hsub
  refine ⟨hiff, hres.trans hiff, ?_⟩
  intro hne
  have hlen : U.length ≠ C.length := fun h => hne (hiff.1 h)
  refine ⟨_, ?_, htrace hlen⟩
  simpa using hne

theorem C7_already_assigned_witness :
    pickUserRolesToAdd quoteASCII (exampleWorld [roleA, roleC] [roleA, roleB] []) []
        { ID := str "auth0|1" } =
      ({ ID := str "auth0|1" },
        .error (str "the user with ID " ++ quoteASCII (str "auth0|1") ++
          str " has all roles assigned already"),
        [.userRoles (str "auth0|1") (some 100), .roleList]) :=
  (C7_already_assigned quoteASCII (exampleWorld [roleA, roleC] [roleA, roleB] []) []
    { ID := str "auth0|1" } [roleA, roleB] [roleA, roleC] rfl rfl).1.2 (by decide)

end cli

/-! ### `strings.Index` on a one-byte separator, and decoding of options -/

namespace strings

theorem indexFrom_single (c : Fin 256) (pre rest : GoString) (i : Nat) (h : c ∉ pre) :
    indexFrom [c] (pre ++ c :: rest) i = ((i + pre.length : Nat) : Int) := by
  induction pre generalizing i with
  | nil => simp [indexFrom, List.isPrefixOf]
  | cons a pre ih =>
    have ha : c ≠ a := fun e => h (by simp [e])
    have hpre : c ∉ pre := fun e => h (by simp [e])
    simp only [List.cons_append, indexFrom, List.isPrefixOf, List.length_cons]
    rw [if_neg (by simp [ha])]
    show indexFrom [c] (pre ++ c :: rest) (i + 1) = _
    rw [ih (i + 1) hpre]
    congr 1
    omega

theorem indexFrom_single_nonneg (c : Fin 256) (s : GoString) (i : Nat) (h : c ∈ s) :
    0 ≤ indexFrom [c] s i := by
  induction s generalizing i with
  | nil => simp at h
  | cons a s ih =>
    simp only [indexFrom, List.isPrefixOf]
    by_cases ha : c = a
    · simp [ha]
    · have hs : c ∈ s := by
        rcases List.mem_cons.1 h with e | e
        · exact absurd e ha
        · exact e
      rw [if_neg (by simp [ha])]
      exact ih (i + 1) hs

theorem indexFrom_single_none (c : Fin 256) (s : GoString) (i : Nat) (h : c ∉ s) :
    indexFrom [c] s i = -1 := by
  induction s generalizing i with
  | nil => simp [indexFrom, List.isPrefixOf]
  | cons a s ih =>
    have ha : c ≠ a := fun e => h (by simp [e])
    have hs : c ∉ s := fun e => h (by simp [e])
    simp only [indexFrom, List.isPrefixOf]
    rw [if_neg (by simp [ha])]
    exact ih (i + 1) hs

end strings

namespace cli
open management

theorem emptySpace_eq : emptySpace = [ch ' '] := by decide

theorem renderOption_cons (role : Option Role) :
    renderOption role =
      Role.GetID role ++ ch ' ' :: (str "(Name: " ++ Role.GetName role ++ str ")") := by
  unfold renderOption
  rw [emptySpace_eq]
  simp

theorem index_renderOption (role : Option Role) (h : ch ' ' ∉ Role.GetID role) :
    strings.Index (renderOption role) emptySpace = ((Role.GetID role).length : Int) := by
  unfold strings.Index
  rw [renderOption_cons, emptySpace_eq, strings.indexFrom_single _ _ _ _ h]
  simp

theorem index_renderOption_nonneg (role : Option Role) :
    0 ≤ strings.Index (renderOption role) emptySpace := by
  unfold strings.Index
  rw [renderOption_cons, emptySpace_eq]
  exact strings.indexFrom_single_nonneg _ _ _ (by simp)

/-- C8: cutting a rendered option `<id> (Name: <name>)` at its first space, as the
decoding loop of both pickers does, gives back the identifier whenever the
identifier holds no space, whatever the display name; the index of the first
space of a rendered option is never negative, so the slice never panics; and
`rol_123 (Name: Admin)` decodes to `rol_123`. -/
theorem C8_decode_rendered_option (role : Option Role) :
    (ch ' ' ∉ Role.GetID role →
      strings.Index (renderOption role) emptySpace = ((Role.GetID role).length : Int) ∧
      (renderOption role).take (strings.Index (renderOption role) emptySpace).toNat =
        Role.GetID role ∧
      decodeLoop [renderOption role] [] = some [Role.GetID role]) ∧
    0 ≤ strings.Index (renderOption role) emptySpace ∧
    renderOption role = Role.GetID role ++ str " (Name: " ++ Role.GetName role ++ str ")" ∧
    renderOption (some { ID := some (str "rol_123"), Name := some (str "Admin") }) =
      str "rol_123 (Name: Admin)" ∧
    decodeLoop [str "rol_123 (Name: Admin)"] [] = some [str "rol_123"] := by
  refine ⟨?_, index_renderOption_nonneg role, renderOption_eq role, by decide, by decide⟩
  intro h
  have hi := index_renderOption role h
  have ht : (renderOption role).take (strings.Index (renderOption role) emptySpace).toNat =
      Role.GetID role := by
    rw [hi, renderOption_cons]
    simp
  refine ⟨hi, ht, ?_⟩
  unfold decodeLoop
  simp only [ht]
  rw [if_neg (by rw [hi]; omega)]
  simp [decodeLoop]

theorem decodeLoop_of_spaces (sel : List GoString) (roles : List GoString)
    (h : ∀ s ∈ sel, ch ' ' ∈ s) :
    decodeLoop sel roles =
      some (roles ++ sel.map (fun s => s.take (strings.Index s emptySpace).toNat)) := by
  induction sel generalizing roles with
  | nil => simp [decodeLoop]
  | cons s rest ih =>
    have hs : 0 ≤ strings.Index s emptySpace := by
      unfold strings.Index
      rw [emptySpace_eq]
      exact strings.indexFrom_single_nonneg _ _ _ (h s (by simp))
    unfold decodeLoop
    simp only
    rw [if_neg (by omega), ih _ (fun x hx => h x (by simp [hx]))]
    simp

theorem renderOption_has_space (role : Option Role) : ch ' ' ∈ renderOption role := by
  rw [renderOption_cons]
  simp

theorem askAndDecode_none_selected (w : World) (tr : List Event) (inputs : userRolesInput)
    (options : List GoString) (hflag : inputs.Roles = []) (hsel : w.askOne tr options = .ok []) :
    askAndDecode w tr inputs options =
      (inputs, .error errNoRolesSelected, tr ++ [.askOne options]) := by
  unfold askAndDecode
  simp only [hsel, decodeLoop, hflag]
  simp
  cases inputs
  simp_all

theorem askAndDecode_selected (w : World) (tr : List Event) (inputs : userRolesInput)
    (options sel : List GoString) (hflag : inputs.Roles = [])
    (hsel : w.askOne tr options = .ok sel) (hne : sel ≠ []) (hsp : ∀ s ∈ sel, ch ' ' ∈ s) :
    askAndDecode w tr inputs options =
      ({ inputs with Roles := sel.map (fun s => s.take (strings.Index s emptySpace).toNat) },
        .ok, tr ++ [.askOne options]) := by
  unfold askAndDecode
  simp only [hsel, decodeLoop_of_spaces sel _ hsp, hflag, List.nil_append, List.length_map]
  rw [if_neg]
  intro h
  exact hne (List.length_eq_zero.1 h)

theorem resolveID_ok (w : World) (inputs i1 : userRolesInput) (args : List GoString)
    (tr1 : List Event) (h : resolveID w inputs args = (i1, .ok, tr1)) :
    i1.Roles = inputs.Roles ∧ (tr1 = [] ∨ tr1 = [.askUserID]) := by
  unfold resolveID at h
  cases args with
  | nil =>
    simp only at h
    cases hw : w.askUserID [] with
    | error e => rw [hw] at h; simp at h
    | ok id =>
      rw [hw] at h
      simp only [Prod.mk.injEq] at h
      obtain ⟨rfl, _, rfl⟩ := h
      simp
  | cons a rest =>
    simp only [Prod.mk.injEq] at h
    obtain ⟨rfl, _, rfl⟩ := h
    simp

theorem errNoRolesSelected_ne_of_head (lit rest : GoString) (c : Fin 256) (tail : GoString)
    (hlit : lit = c :: tail) (hc : c ≠ ch 'r') : errNoRolesSelected ≠ lit ++ rest := by
  have h : errNoRolesSelected = ch 'r' :: str "equired to select at least one role" := by decide
  rw [h, hlit]
  intro e
  simp only [List.cons_append, List.cons.injEq] at e
  exact hc e.1.symm

theorem addUserRolesCmd_of_pick_error (quote : GoString → GoString) (w : World)
    (inputs i1 i2 : userRolesInput) (args : List GoString) (tr1 tr2 : List Event) (msg : GoString)
    (hid : resolveID w inputs args = (i1, .ok, tr1)) (hflag : i1.Roles = [])
    (hpick : pickUserRolesToAdd quote w tr1 i1 = (i2, .error msg, tr2)) :
    addUserRolesCmd quote w inputs args = (i2, .error msg, tr2) := by
  unfold addUserRolesCmd
  rw [hid]
  simp only [hflag, List.length_nil, if_true, hpick]

theorem removeUserRolesCmd_of_pick_error (w : World)
    (inputs i1 i2 : userRolesInput) (args : List GoString) (tr1 tr2 : List Event) (msg : GoString)
    (hid : resolveID w inputs args = (i1, .ok, tr1)) (hflag : i1.Roles = [])
    (hpick : pickUserRolesToRemove w tr1 i1 = (i2, .error msg, tr2)) :
    removeUserRolesCmd w inputs args = (i2, .error msg, tr2) := by
  unfold removeUserRolesCmd
  rw [hid]
  simp only [hflag, List.length_nil, if_true, hpick]

theorem pickUserRolesToRemove_eq (w : World) (tr : List Event) (inputs : userRolesInput)
    (C : List (Option Role)) (hC : w.userRoles tr inputs.ID none = .ok C) :
    pickUserRolesToRemove w tr inputs =
      askAndDecode w (tr ++ [.userRoles inputs.ID none]) inputs (removeOptionsLoop C []) := by
  unfold pickUserRolesToRemove Waiting
  simp only [hC]

theorem mem_addOptionsLoop_space (C U : List (Option Role)) (s : GoString)
    (h : s ∈ addOptionsLoop C U []) : ch ' ' ∈ s := by
  rw [addOptionsLoop_eq] at h
  simp only [List.nil_append, List.mem_map] at h
  obtain ⟨r, _, rfl⟩ := h
  exact renderOption_has_space r

theorem mem_removeOptionsLoop_space (C : List (Option Role)) (s : GoString)
    (h : s ∈ removeOptionsLoop C []) : ch ' ' ∈ s := by
  rw [removeOptionsLoop_eq] at h
  simp only [List.nil_append, List.mem_map] at h
  obtain ⟨r, _, rfl⟩ := h
  exact renderOption_has_space r

/-- C9: in the assign and in the remove command, started without roles from
the flag: when the prompt is reached and the user selects no option, the pick
step fails with `errNoRolesSelected` and the command returns that error, the
events of the run ending at the prompt, so neither `AssignRoles` nor
`RemoveRoles` is called; when the user selects at least one of the options
shown, the pick step succeeds and `inputs.Roles` holds the identifier part of
each selected option, one per option, in selection order.  The message of
`errNoRolesSelected` differs from the already-assigned error and from every
error wrapping a failed remote call. -/
theorem C9_no_roles_selected (quote : GoString → GoString) (w : World)
    (inputs i1 : userRolesInput) (args : List GoString) (tr1 : List Event)
    (hid : resolveID w inputs args = (i1, .ok, tr1)) (hflag : inputs.Roles = []) :
    (∀ U C : List (Option Role),
      w.userRoles tr1 i1.ID (some 100) = .ok C →
      w.roleList (tr1 ++ [.userRoles i1.ID (some 100)]) = .ok U →
      U.length ≠ C.length →
      (w.askOne (tr1 ++ [.userRoles i1.ID (some 100), .roleList]) (addOptionsLoop C U []) = .ok [] →
        pickUserRolesToAdd quote w tr1 i1 =
          (i1, .error errNoRolesSelected,
            tr1 ++ [.userRoles i1.ID (some 100), .roleList, .askOne (addOptionsLoop C U [])]) ∧
        addUserRolesCmd quote w inputs args =
          (i1, .error errNoRolesSelected,
            tr1 ++ [.userRoles i1.ID (some 100), .roleList, .askOne (addOptionsLoop C U [])]) ∧
        ∀ id roles, Event.assignRoles id roles ∉ (addUserRolesCmd quote w inputs args).2.2) ∧
      (∀ sel : List GoString, sel ≠ [] → (∀ s ∈ sel, s ∈ addOptionsLoop C U []) →
        w.askOne (tr1 ++ [.userRoles i1.ID (some 100), .roleList]) (addOptionsLoop C U []) = .ok sel →
        pickUserRolesToAdd quote w tr1 i1 =
          ({ i1 with Roles := sel.map (fun s => s.take (strings.Index s emptySpace).toNat) }, .ok,
            tr1 ++ [.userRoles i1.ID (some 100), .roleList, .askOne (addOptionsLoop C U [])]))) ∧
    (∀ C : List (Option Role),
      w.userRoles tr1 i1.ID none = .ok C →
      (w.askOne (tr1 ++ [.userRoles i1.ID none]) (removeOptionsLoop C []) = .ok [] →
        pickUserRolesToRemove w tr1 i1 =
          (i1, .error errNoRolesSelected,
            tr1 ++ [.userRoles i1.ID none, .askOne (removeOptionsLoop C [])]) ∧
        removeUserRolesCmd w inputs args =
          (i1, .error errNoRolesSelected,
            tr1 ++ [.userRoles i1.ID none, .askOne (removeOptionsLoop C [])]) ∧
        ∀ id roles, Event.removeRoles id roles ∉ (removeUserRolesCmd w inputs args).2.2) ∧
      (∀ sel : List GoString, sel ≠ [] → (∀ s ∈ sel, s ∈ removeOptionsLoop C []) →
        w.askOne (tr1 ++ [.userRoles i1.ID none]) (removeOptionsLoop C []) = .ok sel →
        pickUserRolesToRemove w tr1 i1 =
          ({ i1 with Roles := sel.map (fun s => s.take (strings.Index s emptySpace).toNat) }, .ok,
            tr1 ++ [.userRoles i1.ID none, .askOne (removeOptionsLoop C [])]))) ∧
    (∀ id err : GoString,
      errNoRolesSelected ≠
        str "the user with ID " ++ quote id ++ str " has all roles assigned already" ∧
      errNoRolesSelected ≠
        str "failed to find the current roles for user with ID " ++ id ++ str ": " ++ err ∧
      errNoRolesSelected ≠ str "failed to list all roles: " ++ err ∧
      errNoRolesSelected ≠ str "failed to assign roles for user with ID " ++ id ++ str ": " ++ err ∧
      errNoRolesSelected ≠ str "failed to remove roles for user with ID " ++ id ++ str ": " ++ err ∧
      errNoRolesSelected ≠ str "failed to find roles for user with ID " ++ id ++ str ": " ++ err) := by
  obtain ⟨hroles, htr1⟩ := resolveID_ok w inputs i1 args tr1 hid
  have hflag1 : i1.Roles = [] := hroles.trans hflag
  refine ⟨?_, ?_, ?_⟩
  · intro U C hC hU hlen
    have hpick := pickUserRolesToAdd_trace quote w tr1 i1 U C hC hU hlen
    simp only [List.append_assoc, List.singleton_append] at hpick
    constructor
    · intro hsel
      have hp : pickUserRolesToAdd quote w tr1 i1 =
          (i1, .error errNoRolesSelected,
            tr1 ++ [.userRoles i1.ID (some 100), .roleList, .askOne (addOptionsLoop C U [])]) := by
        rw [hpick, askAndDecode_none_selected w _ i1 _ hflag1 hsel]
        simp
      have hcmd := addUserRolesCmd_of_pick_error quote w inputs i1 i1 args tr1 _ _ hid hflag1 hp
      refine ⟨hp, hcmd, ?_⟩
      intro id roles hmem
      rw [hcmd] at hmem
      rcases htr1 with h | h <;> simp [h] at hmem
    · intro sel hne hsub hsel
      rw [hpick, askAndDecode_selected w _ i1 _ sel hflag1 hsel hne
        (fun s hs => mem_addOptionsLoop_space C U s (hsub s hs))]
      simp
  · intro C hC
    have hpick := pickUserRolesToRemove_eq w tr1 i1 C hC
    constructor
    · intro hsel
      have hp : pickUserRolesToRemove w tr1 i1 =
          (i1, .error errNoRolesSelected,
            tr1 ++ [.userRoles i1.ID none, .askOne (removeOptionsLoop C [])]) := by
        rw [hpick, askAndDecode_none_selected w _ i1 _ hflag1 hsel]
        simp
      have hcmd := removeUserRolesCmd_of_pick_error w inputs i1 i1 args tr1 _ _ hid hflag1 hp
      refine ⟨hp, hcmd, ?_⟩
      intro id roles hmem
      rw [hcmd] at hmem
      rcases htr1 with h | h <;> simp [h] at hmem
    · intro sel hne hsub hsel
      rw [hpick, askAndDecode_selected w _ i1 _ sel hflag1 hsel hne
        (fun s hs => mem_removeOptionsLoop_space C s (hsub s hs))]
      simp
  · intro id err
    refine ⟨?_, ?_, ?_, ?_, ?_, ?_⟩
    · simp only [List.append_assoc]
      exact errNoRolesSelected_ne_of_head _ _ (ch 't') (str "he user with ID ") (by decide) (by decide)
    · simp only [List.append_assoc]
      exact errNoRolesSelected_ne_of_head _ _ (ch 'f')
        (str "ailed to find the current roles for user with ID ") (by decide) (by decide)
    · exact errNoRolesSelected_ne_of_head _ _ (ch 'f') (str "ailed to list all roles: ")
        (by decide) (by decide)
    · simp only [List.append_assoc]
      exact errNoRolesSelected_ne_of_head _ _ (ch 'f')
        (str "ailed to assign roles for user with ID ") (by decide) (by decide)
    · simp only [List.append_assoc]
      exact errNoRolesSelected_ne_of_head _ _ (ch 'f')
        (str "ailed to remove roles for user with ID ") (by decide) (by decide)
    · simp only [List.append_assoc]
      exact errNoRolesSelected_ne_of_head _ _ (ch 'f')
        (str "ailed to find roles for user with ID ") (by decide) (by decide)

theorem C9_no_roles_selected_witness :
    addUserRolesCmd quoteASCII (exampleWorld [roleA] [roleA, roleB] []) {} [str "auth0|1"] =
        ({ ID := str "auth0|1" }, .error (str "required to select at least one role"),
          [.userRoles (str "auth0|1") (some 100), .roleList,
            .askOne [str "rol_B (Name: Billing)"]]) ∧
      pickUserRolesToRemove (exampleWorld [roleA, roleB] [roleA, roleB]
          [str "rol_B (Name: Billing)", str "rol_A (Name: Admin)"]) [] { ID := str "auth0|1" } =
        ({ ID := str "auth0|1", Roles := [str "rol_B", str "rol_A"] }, .ok,
          [.userRoles (str "auth0|1") none,
            .askOne [str "rol_A (Name: Admin)", str "rol_B (Name: Billing)"]]) :=
  ⟨((((C9_no_roles_selected quoteASCII (exampleWorld [roleA] [roleA, roleB] []) {}
      { ID := str "auth0|1" } [str "auth0|1"] [] rfl rfl).1 [roleA, roleB] [roleA] rfl rfl
      (by decide)).1 rfl).2.1).trans (by decide),
   ((((C9_no_roles_selected quoteASCII
      (exampleWorld [roleA, roleB] [roleA, roleB]
        [str "rol_B (Name: Billing)", str "rol_A (Name: Admin)"]) {}
      { ID := str "auth0|1" } [str "auth0|1"] [] rfl rfl).2.1 [roleA, roleB] rfl).2
      [str "rol_B (Name: Billing)", str "rol_A (Name: Admin)"] (by decide) (by decide) rfl)).trans
      (by decide)⟩
end cli

/-! ## Log rendering (`logs.go`) -/

namespace display

theorem assertString_eq (details : List (GoString × Any)) (outer inner : GoString) :
    assertString (mapIndex (assertMap (mapIndex details outer)) inner) =
      (nestedString details outer inner).getD [] := by
  unfold nestedString
  cases h : mapIndex details outer with
  | object entries =>
    simp only [assertMap]
    cases h2 : mapIndex entries inner with
    | string s =>
      simp only [assertString]
      by_cases hs : s = [] <;> simp [hs]
    | _ => simp [assertString]
  | _ => simp [assertMap, assertString, mapIndex]

theorem nestedString_ne_nil (details : List (GoString × Any)) (outer inner s : GoString)
    (h : nestedString details outer inner = some s) : s ≠ [] := by
  unfold nestedString at h
  split at h
  · split at h
    · split at h
      · simp at h
      · simp only [Option.some.injEq] at h
        subst h
        assumption
    · simp at h
  · simp at h

theorem nestedString_iff (details : List (GoString × Any)) (outer inner s : GoString) :
    nestedString details outer inner = some s ↔
      ∃ entries, mapIndex details outer = .object entries ∧
        mapIndex entries inner = .string s ∧ s ≠ [] := by
  unfold nestedString
  constructor
  · intro h
    split at h
    · rename_i entries he
      split at h
      · rename_i s2 hs2
        split at h
        · simp at h
        · simp only [Option.some.injEq] at h
          subst h
          exact ⟨entries, he, hs2, by assumption⟩
      · simp at h
    · simp at h
  · rintro ⟨entries, he, hs, hne⟩
    simp [he, hs, hne]


theorem logListBody_eq {Time : Type} (E : LogEnv Time) (date : Time)
    (ty cid cname : Option GoString) (details : List (GoString × Any)) (noColor : Bool) :
    logListBody E
        (some { Date := some date, Type_ := ty, ClientID := cid, ClientName := cname,
                Details := details }) noColor =
      some (str "[" ++ E.formatRFC3339 date ++ str "] (" ++ typeToken E (ty.getD []) noColor ++
        str ") client_name=" ++ E.quote (cname.getD []) ++ str " client_id=" ++
        E.quote (cid.getD []) ++
        (match nestedString details (str "request") (str "userAgent") with
          | some userAgent => str " user_agent=" ++ E.quote userAgent
          | none => []) ++
        (if nestedString details (str "error") (str "type") ≠ none ∨
            nestedString details (str "error") (str "message") ≠ none then
          str " error_type=" ++ E.quote ((nestedString details (str "error") (str "type")).getD []) ++
            str " error_message=" ++
            E.quote ((nestedString details (str "error") (str "message")).getD [])
        else []) ++
        str "\n") := by
  have htok : (if (!noColor) = true then
        if strings.HasPrefix (ty.getD []) (str "s") = true then E.green (ty.getD [])
        else if strings.HasPrefix (ty.getD []) (str "f") = true then E.brightRed (ty.getD [])
        else ty.getD []
      else ty.getD []) = typeToken E (ty.getD []) noColor := by
    unfold typeToken
    cases noColor <;> simp
  simp only [logListBody, getString, htok, assertString_eq]
  have hua : (if (nestedString details (str "request") (str "userAgent")).getD [] ≠ [] then
        str "[" ++ E.formatRFC3339 date ++ str "] (" ++ typeToken E (ty.getD []) noColor ++
          str ") client_name=" ++ E.quote (cname.getD []) ++ str " client_id=" ++
          E.quote (cid.getD []) ++ str " user_agent=" ++
          E.quote ((nestedString details (str "request") (str "userAgent")).getD [])
      else
        str "[" ++ E.formatRFC3339 date ++ str "] (" ++ typeToken E (ty.getD []) noColor ++
          str ") client_name=" ++ E.quote (cname.getD []) ++ str " client_id=" ++
          E.quote (cid.getD [])) =
      str "[" ++ E.formatRFC3339 date ++ str "] (" ++ typeToken E (ty.getD []) noColor ++
        str ") client_name=" ++ E.quote (cname.getD []) ++ str " client_id=" ++
        E.quote (cid.getD []) ++
        (match nestedString details (str "request") (str "userAgent") with
          | some userAgent => str " user_agent=" ++ E.quote userAgent
          | none => []) := by
    cases h : nestedString details (str "request") (str "userAgent") with
    | none => simp
    | some s => simp [nestedString_ne_nil _ _ _ _ h]
  rw [hua]
  have hcond : ((nestedString details (str "error") (str "type")).getD [] ≠ [] ∨
        (nestedString details (str "error") (str "message")).getD [] ≠ []) ↔
      (nestedString details (str "error") (str "type") ≠ none ∨
        nestedString details (str "error") (str "message") ≠ none) := by
    have key : ∀ inner, (nestedString details (str "error") inner).getD [] ≠ [] ↔
        nestedString details (str "error") inner ≠ none := by
      intro inner
      cases h : nestedString details (str "error") inner with
      | none => simp
      | some s => simp [nestedString_ne_nil _ _ _ _ h]
    rw [key, key]
  by_cases hc : (nestedString details (str "error") (str "type") ≠ none ∨
        nestedString details (str "error") (str "message") ≠ none)
  · rw [if_pos (hcond.2 hc), if_pos hc]
    simp only [List.append_assoc]
  · rw [if_neg (fun h => hc (hcond.1 h)), if_neg hc]
    simp only [List.append_assoc, List.append_nil]


/-- C10, as stated, fails: a record whose type is `a`, a newline, `b` is written
as two newline-terminated lines, the first of which ends inside the
parenthesised type. -/
theorem C10_counterexample :
    LogList exampleLogEnv [some { exampleLog with Type_ := some (str "a\nb") }] true =
      (str ("[2022-11-18T10:00:00Z] (a\nb) client_name=\"My App\" client_id=\"abc\"" ++
        " user_agent=\"curl/7.0\"\n"), true) ∧
    (LogList exampleLogEnv [some { exampleLog with Type_ := some (str "a\nb") }] true).1.count 10 =
      2 := by
  decide

/-- C10, amended: for a record with a date, `LogList` writes
`[<RFC3339 date>] (<type token>) client_name=<quoted> client_id=<quoted>`, then
` user_agent=<quoted value>` exactly when `Details["request"]` is a map whose
`userAgent` entry is a non-empty string, then
` error_type=<quoted> error_message=<quoted>` exactly when `Details["error"]` is
a map whose `type` or `message` entry is a non-empty string, then a newline,
and goes on to the next record; a missing, nil or wrongly typed substructure
or entry only leaves the field out.  With a date format and a quoting that
emit no newline, what is written for the record holds one newline more than
its type token, so, the colours adding none, it is exactly one
newline-terminated line exactly when the type of the record holds no newline.
A `request.userAgent` of `curl/7.0` without an `error` substructure gives the
user-agent field and no error fields. -/
theorem C10_log_line {Time : Type} (E : LogEnv Time) (date : Time)
    (ty cid cname : Option GoString) (details : List (GoString × Any)) (noColor : Bool)
    (rest : List (Option (Log Time))) :
    LogList E
        (some { Date := some date, Type_ := ty, ClientID := cid, ClientName := cname,
                Details := details } :: rest) noColor =
      (str "[" ++ E.formatRFC3339 date ++ str "] (" ++ typeToken E (ty.getD []) noColor ++
        str ") client_name=" ++ E.quote (cname.getD []) ++ str " client_id=" ++
        E.quote (cid.getD []) ++
        (match nestedString details (str "request") (str "userAgent") with
          | some userAgent => str " user_agent=" ++ E.quote userAgent
          | none => []) ++
        (if nestedString details (str "error") (str "type") ≠ none ∨
            nestedString details (str "error") (str "message") ≠ none then
          str " error_type=" ++ E.quote ((nestedString details (str "error") (str "type")).getD []) ++
            str " error_message=" ++
            E.quote ((nestedString details (str "error") (str "message")).getD [])
        else []) ++
        str "\n" ++ (LogList E rest noColor).1, (LogList E rest noColor).2) ∧
    (∀ outer inner s : GoString, nestedString details outer inner = some s ↔
      ∃ entries, mapIndex details outer = .object entries ∧
        mapIndex entries inner = .string s ∧ s ≠ []) ∧
    ((∀ s, (10 : Fin 256) ∉ E.quote s) → (10 : Fin 256) ∉ E.formatRFC3339 date →
      (LogList E
          [some { Date := some date, Type_ := ty, ClientID := cid, ClientName := cname,
                  Details := details }] noColor).1.count 10 =
        (typeToken E (ty.getD []) noColor).count 10 + 1 ∧
      ((∀ s, (E.green s).count 10 = s.count 10) → (∀ s, (E.brightRed s).count 10 = s.count 10) →
        ((LogList E
            [some { Date := some date, Type_ := ty, ClientID := cid, ClientName := cname,
                    Details := details }] noColor).1.count 10 = 1 ↔
          (10 : Fin 256) ∉ ty.getD []))) ∧
    nestedString [(str "request", .object [(str "userAgent", .string (str "curl/7.0"))])]
        (str "request") (str "userAgent") = some (str "curl/7.0") ∧
    nestedString [(str "request", .object [(str "userAgent", .string (str "curl/7.0"))])]
        (str "error") (str "type") = none ∧
    nestedString [(str "request", .object [(str "userAgent", .string (str "curl/7.0"))])]
        (str "error") (str "message") = none ∧
    LogList exampleLogEnv [some exampleLog] true =
      (str ("[2022-11-18T10:00:00Z] (success_login) client_name=\"My App\" client_id=\"abc\"" ++
        " user_agent=\"curl/7.0\"\n"), true) := by
  refine ⟨?_, nestedString_iff details, ?_, ?_, ?_, ?_, by decide⟩
  · rw [LogList, logListBody_eq]
  · intro hq hd
    have hcount : (LogList E
          [some { Date := some date, Type_ := ty, ClientID := cid, ClientName := cname,
                  Details := details }] noColor).1.count 10 =
        (typeToken E (ty.getD []) noColor).count 10 + 1 := by
      rw [LogList, logListBody_eq]
      simp only [LogList, List.append_nil]
      have h1 : (str "[").count 10 = 0 := by decide
      have h2 : (str "] (").count 10 = 0 := by decide
      have h3 : (str ") client_name=").count 10 = 0 := by decide
      have h4 : (str " client_id=").count 10 = 0 := by decide
      have h5 : (str " user_agent=").count 10 = 0 := by decide
      have h6 : (str " error_type=").count 10 = 0 := by decide
      have h7 : (str " error_message=").count 10 = 0 := by decide
      have h8 : (str "\n").count 10 = 1 := by decide
      have hq0 : ∀ s, (E.quote s).count 10 = 0 := fun s => List.count_eq_zero.2 (hq s)
      have hd0 : (E.formatRFC3339 date).count 10 = 0 := List.count_eq_zero.2 hd
      have hua : (match nestedString details (str "request") (str "userAgent") with
            | some userAgent => str " user_agent=" ++ E.quote userAgent
            | none => []).count 10 = 0 := by
        cases nestedString details (str "request") (str "userAgent") with
        | none => simp
        | some s => simp [h5, hq0 s]
      have her : (if nestedString details (str "error") (str "type") ≠ none ∨
              nestedString details (str "error") (str "message") ≠ none then
            str " error_type=" ++
              E.quote ((nestedString details (str "error") (str "type")).getD []) ++
              str " error_message=" ++
              E.quote ((nestedString details (str "error") (str "message")).getD [])
          else []).count 10 = 0 := by
        split
        · simp [h6, h7, hq0]
        · simp
      simp only [List.count_append, h1, h2, h3, h4, h8, hq0, hd0, hua, her]
      omega
    refine ⟨hcount, ?_⟩
    intro hg hb
    have htok : (typeToken E (ty.getD []) noColor).count 10 = (ty.getD []).count 10 := by
      unfold typeToken
      split
      · rfl
      · split
        · exact hg _
        · split
          · exact hb _
          · rfl
    rw [hcount, htok]
    constructor
    · intro h
      exact List.count_eq_zero.1 (by omega)
    · intro h
      rw [List.count_eq_zero.2 h]
  · have hcurl : str "curl/7.0" ≠ [] := by decide
    simp [nestedString, mapIndex, hcurl]
  · have hne : str "request" ≠ str "error" := by decide
    simp [nestedString, mapIndex, hne]
  · have hne : str "request" ≠ str "error" := by decide
    simp [nestedString, mapIndex, hne]

end display

/-! ## Query values (`net/url`) -/

namespace url

theorem stringLess_irrefl (a : GoString) : stringLess a a = false := by
  induction a with
  | nil => rfl
  | cons x xs ih => simp [stringLess, ih]

theorem stringLess_asymm (a b : GoString) (h : stringLess a b = true) : stringLess b a = false := by
  induction a generalizing b with
  | nil => cases b <;> simp [stringLess] at h ⊢
  | cons x xs ih =>
    cases b with
    | nil => simp [stringLess] at h
    | cons y ys =>
      simp only [stringLess] at h ⊢
      by_cases hxy : x < y
      · simp [hxy, lt_asymm hxy]
      · by_cases hyx : y < x
        · simp [hxy, hyx] at h
        · simp only [hxy, hyx, if_false] at h ⊢
          exact ih ys h

theorem stringLess_connected (a b : GoString) (h1 : stringLess a b = false)
    (h2 : stringLess b a = false) : a = b := by
  induction a generalizing b with
  | nil => cases b <;> simp [stringLess] at h1 ⊢
  | cons x xs ih =>
    cases b with
    | nil => simp [stringLess] at h2
    | cons y ys =>
      simp only [stringLess] at h1 h2
      by_cases hxy : x < y
      · simp [hxy] at h1
      · by_cases hyx : y < x
        · simp [hyx] at h2
        · simp only [hxy, hyx, if_false] at h1 h2
          have hx : x = y := le_antisymm (not_lt.1 hyx) (not_lt.1 hxy)
          rw [hx, ih ys h1 h2]

theorem stringLess_trans (a b c : GoString) (h1 : stringLess a b = true)
    (h2 : stringLess b c = true) : stringLess a c = true := by
  induction a generalizing b c with
  | nil =>
    cases b with
    | nil => simp [stringLess] at h1
    | cons y ys =>
      cases c with
      | nil => simp [stringLess] at h2
      | cons z zs => simp [stringLess]
  | cons x xs ih =>
    cases b with
    | nil => simp [stringLess] at h1
    | cons y ys =>
      cases c with
      | nil => simp [stringLess] at h2
      | cons z zs =>
        simp only [stringLess] at h1 h2 ⊢
        by_cases hxy : x < y
        · by_cases hyz : y < z
          · simp [lt_trans hxy hyz]
          · by_cases hzy : z < y
            · simp [hyz, hzy] at h2
            · have hy : y = z := le_antisymm (not_lt.1 hzy) (not_lt.1 hyz)
              subst hy
              simp [hxy]
        · by_cases hyx : y < x
          · simp [hxy, hyx] at h1
          · have hx : x = y := le_antisymm (not_lt.1 hyx) (not_lt.1 hxy)
            subst hx
            simp only [hxy, if_false] at h1
            by_cases hxz : x < z
            · simp [hxz]
            · by_cases hzx : z < x
              · simp [hxz, hzx] at h2
              · simp only [hxz, hzx, if_false] at h2 ⊢
                exact ih ys zs h1 h2

/-- The order `a <= b` of Go strings that `sort.Strings` sorts by. -/
theorem stringLE_total (a b : GoString) : stringLess b a = false ∨ stringLess a b = false := by
  cases h : stringLess b a with
  | false => left; rfl
  | true => right; exact stringLess_asymm b a h

theorem stringLE_trans (a b c : GoString) (h1 : stringLess b a = false)
    (h2 : stringLess c b = false) : stringLess c a = false := by
  cases hca : stringLess c a with
  | false => rfl
  | true =>
    exfalso
    cases hab : stringLess a b with
    | false =>
      have := stringLess_connected a b hab h1
      subst this
      rw [hca] at h2
      exact Bool.noConfusion h2
    | true =>
      have := stringLess_trans c a b hca hab
      rw [this] at h2
      exact Bool.noConfusion h2

theorem sortStrings_perm (keys : List GoString) : (sortStrings keys).Perm keys :=
  List.perm_insertionSort _ keys

theorem sortStrings_sorted (keys : List GoString) :
    (sortStrings keys).Sorted (fun a b => stringLess b a = false) := by
  haveI : IsTotal GoString (fun a b => stringLess b a = false) := ⟨stringLE_total⟩
  haveI : IsTrans GoString (fun a b => stringLess b a = false) := ⟨stringLE_trans⟩
  exact List.sorted_insertionSort _ keys

theorem sortStrings_strict (keys : List GoString) (h : keys.Nodup) :
    (sortStrings keys).Sorted (fun a b => stringLess a b = true) := by
  have hs := sortStrings_sorted keys
  have hn : (sortStrings keys).Nodup := (sortStrings_perm keys).nodup_iff.2 h
  unfold List.Sorted at hs ⊢
  have := hs.and hn
  refine this.imp ?_
  intro a b hab
  cases h1 : stringLess a b with
  | true => rfl
  | false => exact absurd (stringLess_connected a b h1 hab.1) hab.2

theorem sortStrings_eq_of_perm (k1 k2 : List GoString) (h : k1.Perm k2) :
    sortStrings k1 = sortStrings k2 := by
  haveI : IsAntisymm GoString (fun a b => stringLess b a = false) :=
    ⟨fun a b h1 h2 => stringLess_connected a b h2 h1⟩
  exact List.eq_of_perm_of_sorted
    (((sortStrings_perm k1).trans h).trans (sortStrings_perm k2).symm)
    (sortStrings_sorted k1) (sortStrings_sorted k2)


theorem Values.lookup_assign (m : Values) (k k2 : GoString) (vs : List GoString) :
    (m.assign k vs).lookup k2 = if k = k2 then vs else m.lookup k2 := by
  induction m with
  | nil => simp [Values.assign, Values.lookup]
  | cons e rest ih =>
    obtain ⟨ek, evs⟩ := e
    unfold Values.assign
    by_cases h : ek = k
    · subst h
      by_cases h2 : ek = k2
      · simp [Values.lookup, h2]
      · simp [Values.lookup, h2]
    · by_cases h2 : k = k2
      · subst h2
        simp [h, Values.lookup, ih]
      · by_cases h3 : ek = k2
        · subst h3
          simp [h, h2, Values.lookup]
        · simp [h, h2, h3, Values.lookup, ih]

theorem Values.keys_assign (m : Values) (k : GoString) (vs : List GoString) :
    (m.assign k vs).map Prod.fst =
      if k ∈ m.map Prod.fst then m.map Prod.fst else m.map Prod.fst ++ [k] := by
  induction m with
  | nil => simp [Values.assign]
  | cons e rest ih =>
    obtain ⟨ek, evs⟩ := e
    unfold Values.assign
    by_cases h : ek = k
    · subst h
      simp
    · have h2 : ¬ k = ek := fun e => h e.symm
      simp only [h, if_false, List.map_cons, ih, List.mem_cons, h2, false_or]
      split <;> simp

theorem Values.nodup_assign (m : Values) (k : GoString) (vs : List GoString)
    (h : (m.map Prod.fst).Nodup) : ((m.assign k vs).map Prod.fst).Nodup := by
  rw [Values.keys_assign]
  split
  · exact h
  · rename_i hk
    exact List.Nodup.append h (List.nodup_singleton k) (by
      intro a ha hb
      simp only [List.mem_singleton] at hb
      subst hb
      exact hk ha)

theorem Values.mem_keys_assign (m : Values) (k k2 : GoString) (vs : List GoString) :
    k2 ∈ (m.assign k vs).map Prod.fst ↔ k2 ∈ m.map Prod.fst ∨ k2 = k := by
  rw [Values.keys_assign]
  split
  · rename_i hk
    constructor
    · intro h; exact Or.inl h
    · rintro (h | h)
      · exact h
      · subst h; exact hk
  · simp

/-- The `range` loop of `validateAndSetEndpoint` over the supplied parameters. -/
theorem foldl_Set_keys (supplied : List (GoString × GoString)) (m : Values) (k : GoString) :
    k ∈ (supplied.foldl (fun params kv => params.Set kv.1 kv.2) m).map Prod.fst ↔
      k ∈ m.map Prod.fst ∨ k ∈ supplied.map Prod.fst := by
  induction supplied generalizing m with
  | nil => simp
  | cons kv rest ih =>
    rw [List.foldl_cons, ih]
    simp only [Values.Set, Values.mem_keys_assign, List.map_cons, List.mem_cons]
    tauto

theorem foldl_Set_nodup (supplied : List (GoString × GoString)) (m : Values)
    (h : (m.map Prod.fst).Nodup) :
    ((supplied.foldl (fun params kv => params.Set kv.1 kv.2) m).map Prod.fst).Nodup := by
  induction supplied generalizing m with
  | nil => exact h
  | cons kv rest ih =>
    simp only [List.foldl_cons]
    exact ih _ (Values.nodup_assign m kv.1 [kv.2] h)

theorem foldl_Set_lookup_not_mem (supplied : List (GoString × GoString)) (m : Values)
    (k : GoString) (hk : k ∉ supplied.map Prod.fst) :
    (supplied.foldl (fun params kv => params.Set kv.1 kv.2) m).lookup k = m.lookup k := by
  induction supplied generalizing m with
  | nil => rfl
  | cons kv rest ih =>
    simp only [List.map_cons, List.mem_cons, not_or] at hk
    simp only [List.foldl_cons]
    rw [ih _ hk.2, Values.Set, Values.lookup_assign, if_neg (fun e => hk.1 e.symm)]

theorem foldl_Set_lookup_mem (supplied : List (GoString × GoString)) (m : Values)
    (k v : GoString) (hnd : (supplied.map Prod.fst).Nodup) (hkv : (k, v) ∈ supplied) :
    (supplied.foldl (fun params kv => params.Set kv.1 kv.2) m).lookup k = [v] := by
  induction supplied generalizing m with
  | nil => simp at hkv
  | cons kv rest ih =>
    simp only [List.map_cons, List.nodup_cons] at hnd
    simp only [List.foldl_cons]
    rcases List.mem_cons.1 hkv with h | h
    · subst h
      rw [foldl_Set_lookup_not_mem rest _ _ hnd.1, Values.Set, Values.lookup_assign, if_pos rfl]
    · exact ih _ hnd.2 h


theorem parseQueryLoop_nodup (fuel : Nat) (m : Values) (err : Option ParseError)
    (query : GoString) (h : (m.map Prod.fst).Nodup) :
    ((parseQueryLoop fuel m err query).1.map Prod.fst).Nodup := by
  induction fuel generalizing m err query with
  | zero => exact h
  | succ fuel ih =>
    unfold parseQueryLoop
    split
    · exact h
    · simp only
      split
      · exact ih _ _ _ h
      · split
        · exact ih _ _ _ h
        · split
          · exact ih _ _ _ h
          · split
            · exact ih _ _ _ h
            · exact ih _ _ _ (Values.nodup_assign _ _ _ h)

theorem Query_nodup (u : URL) : (u.Query.map Prod.fst).Nodup := by
  unfold URL.Query ParseQuery
  exact parseQueryLoop_nodup _ _ _ _ List.nodup_nil

/-- The pieces `key=value` that `Encode` writes for the keys `ks`, in order. -/
theorem encodeFold_eq (pieces : List GoString) (buf : GoString)
    (hne : ∀ p ∈ pieces, p ≠ []) :
    pieces.foldl (fun buf p => (if 0 < buf.length then buf ++ str "&" else buf) ++ p) buf =
      if buf = [] then strings.Join pieces (str "&")
      else buf ++ pieces.flatMap (fun p => str "&" ++ p) := by
  induction pieces generalizing buf with
  | nil => by_cases hb : buf = [] <;> simp [hb, strings.Join]
  | cons p rest ih =>
    have hp : p ≠ [] := hne p (by simp)
    have hrest : ∀ q ∈ rest, q ≠ [] := fun q hq => hne q (by simp [hq])
    simp only [List.foldl_cons]
    rw [ih _ hrest]
    have hjoin : strings.Join (p :: rest) (str "&") = p ++ rest.flatMap (fun q => str "&" ++ q) := by
      clear ih hne hp
      induction rest generalizing p with
      | nil => simp [strings.Join]
      | cons q rest2 ih2 =>
        simp only [strings.Join, List.flatMap_cons]
        rw [ih2 q (fun x hx => hrest x (by simp [hx]))]
        simp
    by_cases hb : buf = []
    · subst hb
      simp only [List.length_nil, lt_irrefl, if_false, List.nil_append, if_true]
      rw [if_neg hp, hjoin]
    · have hlen : 0 < buf.length := List.length_pos.2 hb
      simp only [hlen, if_true, if_neg hb]
      rw [if_neg (by simp [hb])]
      simp

theorem Values.Encode_eq (v : Values) :
    v.Encode =
      strings.Join
        ((sortStrings (v.map Prod.fst)).flatMap
          (fun k => (v.lookup k).map (fun val => QueryEscape k ++ str "=" ++ QueryEscape val)))
        (str "&") := by
  have hfold : ∀ (ks : List GoString) (buf : GoString),
      ks.foldl
        (fun buf k =>
          (v.lookup k).foldl
            (fun buf val =>
              (if 0 < buf.length then buf ++ str "&" else buf) ++ QueryEscape k ++ str "=" ++
                QueryEscape val)
            buf)
        buf =
      (ks.flatMap
        (fun k => (v.lookup k).map (fun val => QueryEscape k ++ str "=" ++ QueryEscape val))).foldl
        (fun buf p => (if 0 < buf.length then buf ++ str "&" else buf) ++ p) buf := by
    intro ks
    induction ks with
    | nil => intro buf; rfl
    | cons k rest ih =>
      intro buf
      simp only [List.foldl_cons, List.flatMap_cons, List.foldl_append, List.foldl_map]
      rw [ih]
      simp only [List.append_assoc]
  unfold Values.Encode
  rw [hfold, encodeFold_eq]
  · simp
  · intro p hp
    simp only [List.mem_flatMap, List.mem_map] at hp
    obtain ⟨k, _, val, _, rfl⟩ := hp
    have : str "=" ≠ [] := by decide
    simp [this]

end url

namespace cli

open url

theorem flatMap_congr_mem {α β : Type} (l : List α) (f g : α → List β)
    (h : ∀ a ∈ l, f a = g a) : l.flatMap f = l.flatMap g := by
  induction l with
  | nil => rfl
  | cons a rest ih =>
    simp only [List.flatMap_cons]
    rw [h a (by simp), ih (fun x hx => h x (by simp [hx]))]

theorem mergedValues_of_mem (supplied : List (GoString × GoString)) (embedded : Values)
    (k v : GoString) (hnd : (supplied.map Prod.fst).Nodup) (hkv : (k, v) ∈ supplied) :
    mergedValues supplied embedded k = [v] := by
  unfold mergedValues
  induction supplied with
  | nil => simp at hkv
  | cons kv rest ih =>
    simp only [List.map_cons, List.nodup_cons] at hnd
    rcases List.mem_cons.1 hkv with h | h
    · subst h
      simp
    · have hne : kv.1 ≠ k := by
        intro e
        exact hnd.1 (List.mem_map.2 ⟨(k, v), h, e.symm⟩)
      simp only [List.find?_cons, hne, decide_False]
      exact ih hnd.2 h

theorem mergedValues_of_not_mem (supplied : List (GoString × GoString)) (embedded : Values)
    (k : GoString) (hk : k ∉ supplied.map Prod.fst) :
    mergedValues supplied embedded k = embedded.lookup k := by
  unfold mergedValues
  have : supplied.find? (fun kv => decide (kv.1 = k)) = none := by
    rw [List.find?_eq_none]
    intro kv hkv
    simp only [decide_eq_true_eq]
    intro e
    exact hk (List.mem_map.2 ⟨kv, hkv, e⟩)
  rw [this]

theorem foldl_Set_lookup (supplied : List (GoString × GoString)) (embedded : Values)
    (k : GoString) (hnd : (supplied.map Prod.fst).Nodup) :
    (supplied.foldl (fun params kv => params.Set kv.1 kv.2) embedded).lookup k =
      mergedValues supplied embedded k := by
  by_cases hk : k ∈ supplied.map Prod.fst
  · obtain ⟨kv, hkv, rfl⟩ := List.mem_map.1 hk
    rw [foldl_Set_lookup_mem supplied embedded kv.1 kv.2 hnd hkv,
      mergedValues_of_mem supplied embedded kv.1 kv.2 hnd hkv]
  · rw [foldl_Set_lookup_not_mem supplied embedded k hk, mergedValues_of_not_mem _ _ _ hk]

theorem mergedValues_perm (s1 s2 : List (GoString × GoString)) (embedded : Values) (k : GoString)
    (hperm : s1.Perm s2) (hnd : (s2.map Prod.fst).Nodup) :
    mergedValues s1 embedded k = mergedValues s2 embedded k := by
  have hnd1 : (s1.map Prod.fst).Nodup := (hperm.map Prod.fst).nodup_iff.2 hnd
  by_cases hk : k ∈ s2.map Prod.fst
  · obtain ⟨kv, hkv, rfl⟩ := List.mem_map.1 hk
    rw [mergedValues_of_mem s2 embedded kv.1 kv.2 hnd hkv,
      mergedValues_of_mem s1 embedded kv.1 kv.2 hnd1 (hperm.symm.subset hkv)]
  · have hk1 : k ∉ s1.map Prod.fst := fun h => hk ((hperm.map Prod.fst).subset h)
    rw [mergedValues_of_not_mem _ _ _ hk, mergedValues_of_not_mem _ _ _ hk1]

theorem encode_merged (supplied : List (GoString × GoString)) (embedded : Values)
    (hnd : (supplied.map Prod.fst).Nodup) :
    (supplied.foldl (fun params kv => params.Set kv.1 kv.2) embedded).Encode =
      strings.Join
        ((sortStrings
            ((supplied.foldl (fun params kv => params.Set kv.1 kv.2) embedded).map Prod.fst)).flatMap
          (fun k => (mergedValues supplied embedded k).map
            (fun val => QueryEscape k ++ str "=" ++ QueryEscape val)))
        (str "&") := by
  rw [Values.Encode_eq]
  congr 1
  apply flatMap_congr_mem
  intro k _
  rw [foldl_Set_lookup supplied embedded k hnd]

theorem encode_merged_perm (s1 s2 : List (GoString × GoString)) (embedded : Values)
    (hemb : (embedded.map Prod.fst).Nodup)
    (hperm : s1.Perm s2) (hnd : (s2.map Prod.fst).Nodup) :
    (s1.foldl (fun params kv => params.Set kv.1 kv.2) embedded).Encode =
      (s2.foldl (fun params kv => params.Set kv.1 kv.2) embedded).Encode := by
  have hnd1 : (s1.map Prod.fst).Nodup := (hperm.map Prod.fst).nodup_iff.2 hnd
  rw [encode_merged s1 embedded hnd1, encode_merged s2 embedded hnd]
  have hkeys : ((s1.foldl (fun params kv => params.Set kv.1 kv.2) embedded).map Prod.fst).Perm
      ((s2.foldl (fun params kv => params.Set kv.1 kv.2) embedded).map Prod.fst) := by
    rw [List.perm_ext_iff_of_nodup (foldl_Set_nodup s1 embedded hemb)
      (foldl_Set_nodup s2 embedded hemb)]
    intro k
    rw [foldl_Set_keys, foldl_Set_keys]
    constructor
    · rintro (h | h)
      · exact Or.inl h
      · exact Or.inr ((hperm.map Prod.fst).subset h)
    · rintro (h | h)
      · exact Or.inl h
      · exact Or.inr ((hperm.map Prod.fst).symm.subset h)
  rw [sortStrings_eq_of_perm _ _ hkeys]
  congr 1
  apply flatMap_congr_mem
  intro k _
  rw [mergedValues_perm s1 s2 embedded k hperm hnd]


theorem validateAndSetEndpoint_of_parse (quote : GoString → GoString)
    (literal : GoString → Except ParseError GoString) (i : apiCmdInputs)
    (domain : GoString) (endpoint : URL)
    (hparse : Parse literal (str "https://" ++ domain ++ str "/api/v2/" ++
      strings.TrimByte i.RawURI (ch '/')) = .ok endpoint) :
    i.validateAndSetEndpoint quote literal domain =
      ({ i with URL := some { endpoint with
          RawQuery := (i.RawQueryParams.foldl (fun params kv => params.Set kv.1 kv.2)
            endpoint.Query).Encode } }, .ok) := by
  unfold apiCmdInputs.validateAndSetEndpoint
  rw [hparse]

end cli

/-! ## The resolved URL (`api.go`, `net/url`) -/

/-! ### `strings` on a one-byte separator -/

namespace strings

theorem Index_single_none (c : Fin 256) (s : GoString) (h : c ∉ s) : Index s [c] = -1 :=
  indexFrom_single_none c s 0 h

theorem Index_single (c : Fin 256) (pre rest : GoString) (h : c ∉ pre) :
    Index (pre ++ c :: rest) [c] = (pre.length : Int) := by
  unfold Index
  rw [indexFrom_single c pre rest 0 h]
  simp

theorem Cut_single_none (c : Fin 256) (s : GoString) (h : c ∉ s) :
    Cut s [c] = (s, [], false) := by
  unfold Cut
  simp only [Index_single_none c s h]
  rfl

theorem Contains_single_false (c : Fin 256) (s : GoString) (h : c ∉ s) :
    Contains s [c] = false := by
  unfold Contains
  rw [Index_single_none c s h]
  rfl

theorem lastIndexFrom_single_none (c : Fin 256) (s : GoString) (i : Nat) (last : Int)
    (h : c ∉ s) : lastIndexFrom [c] s i last = last := by
  induction s generalizing i with
  | nil => simp [lastIndexFrom, List.isPrefixOf]
  | cons a s ih =>
    have ha : c ≠ a := fun e => h (by simp [e])
    have hs : c ∉ s := fun e => h (by simp [e])
    simp only [lastIndexFrom, List.isPrefixOf]
    rw [if_neg (by simp [ha])]
    exact ih (i + 1) hs

theorem LastIndex_single_none (c : Fin 256) (s : GoString) (h : c ∉ s) :
    LastIndex s [c] = -1 :=
  lastIndexFrom_single_none c s 0 (-1) h

theorem HasSuffix_single_false (c : Fin 256) (s : GoString) (h : c ∉ s) :
    HasSuffix s [c] = false := by
  unfold HasSuffix
  have hr : c ∉ s.reverse := by simpa using h
  cases hrev : s.reverse with
  | nil => simp [List.isPrefixOf]
  | cons a t =>
    rw [hrev] at hr
    have ha : c ≠ a := fun e => hr (by simp [e])
    simp [List.isPrefixOf, ha]

theorem HasPrefix_single_false (c : Fin 256) (s : GoString) (h : c ∉ s) :
    HasPrefix s [c] = false := by
  unfold HasPrefix
  cases s with
  | nil => simp [List.isPrefixOf]
  | cons a t =>
    have ha : c ≠ a := fun e => h (by simp [e])
    simp [List.isPrefixOf, ha]

theorem mem_TrimByte (s : GoString) (c x : Fin 256) (h : x ∈ TrimByte s c) : x ∈ s := by
  unfold TrimByte at h
  rw [List.mem_reverse] at h
  have h1 := (List.dropWhile_sublist _).subset h
  rw [List.mem_reverse] at h1
  exact (List.dropWhile_sublist _).subset h1

theorem Cut_single (c : Fin 256) (pre rest : GoString) (h : c ∉ pre) :
    Cut (pre ++ c :: rest) [c] = (pre, rest, true) := by
  unfold Cut
  simp only [Index_single c pre rest h]
  simp


/-- A byte that occurs in `s` splits it at its first occurrence. -/
theorem split_at_first (c : Fin 256) (s : GoString) (h : c ∈ s) :
    s = s.takeWhile (fun b => b != c) ++ c :: (s.dropWhile (fun b => b != c)).drop 1 ∧
      c ∉ s.takeWhile (fun b => b != c) := by
  induction s with
  | nil => simp at h
  | cons a rest ih =>
    by_cases hac : a = c
    · subst hac
      simp [List.takeWhile_cons, List.dropWhile_cons]
    · have hm : c ∈ rest := by
        rcases List.mem_cons.1 h with e | e
        · exact absurd e.symm hac
        · exact e
      have := ih hm
      have hne : (a != c) = true := by simp [hac]
      simp only [List.takeWhile_cons, List.dropWhile_cons, hne, if_true, List.cons_append,
        List.mem_cons, not_or]
      exact ⟨by rw [← this.1], fun e => hac e.symm, this.2⟩

theorem takeWhile_ne_of_not_mem (c : Fin 256) (s : GoString) (h : c ∉ s) :
    s.takeWhile (fun b => b != c) = s ∧ s.dropWhile (fun b => b != c) = [] := by
  induction s with
  | nil => simp
  | cons a rest ih =>
    have hac : a ≠ c := fun e => h (by simp [e])
    have hr : c ∉ rest := fun e => h (by simp [e])
    have hne : (a != c) = true := by simp [hac]
    simp [List.takeWhile_cons, List.dropWhile_cons, hne, ih hr]

theorem takeWhile_ne_append (c : Fin 256) (pre s : GoString) (h : c ∉ pre) :
    (pre ++ s).takeWhile (fun b => b != c) = pre ++ s.takeWhile (fun b => b != c) ∧
      (pre ++ s).dropWhile (fun b => b != c) = s.dropWhile (fun b => b != c) := by
  induction pre with
  | nil => simp
  | cons a rest ih =>
    have hac : a ≠ c := fun e => h (by simp [e])
    have hr : c ∉ rest := fun e => h (by simp [e])
    have hne : (a != c) = true := by simp [hac]
    simp [List.takeWhile_cons, List.dropWhile_cons, hne, ih hr]

/-- `strings.Cut` on a one-byte separator: the text before the first occurrence
and the text after it. -/
theorem Cut_single_eq (c : Fin 256) (s : GoString) :
    Cut s [c] =
      (s.takeWhile (fun b => b != c), (s.dropWhile (fun b => b != c)).drop 1, decide (c ∈ s)) := by
  by_cases h : c ∈ s
  · have hs := split_at_first c s h
    conv_lhs => rw [hs.1]
    rw [Cut_single c _ _ hs.2]
    simp [h]
  · rw [Cut_single_none c s h, (takeWhile_ne_of_not_mem c s h).1, (takeWhile_ne_of_not_mem c s h).2]
    simp [h]

/-- `strings.Index` on a one-byte separator. -/
theorem Index_single_eq (c : Fin 256) (s : GoString) :
    Index s [c] = if c ∈ s then ((s.takeWhile (fun b => b != c)).length : Int) else -1 := by
  by_cases h : c ∈ s
  · have hs := split_at_first c s h
    rw [if_pos h]
    conv_lhs => rw [hs.1]
    rw [Index_single c _ _ hs.2]
  · rw [if_neg h, Index_single_none c s h]

theorem Contains_single_eq (c : Fin 256) (s : GoString) : Contains s [c] = decide (c ∈ s) := by
  unfold Contains
  rw [Index_single_eq]
  by_cases h : c ∈ s
  · simp [h]
  · simp [h]

/-- A string that ends with its only `c`: nothing stands after that `c`. -/
theorem suffix_count_one (c : Fin 256) (s : GoString) (hs : HasSuffix s [c] = true)
    (hc : CountByte s c = 1) :
    s.takeWhile (fun b => b != c) = s.take (s.length - 1) ∧
      (s.dropWhile (fun b => b != c)).drop 1 = [] := by
  unfold HasSuffix at hs
  have hrev : ∃ t, s = t ++ [c] := by
    cases hr : s.reverse with
    | nil => rw [hr] at hs; simp [List.isPrefixOf] at hs
    | cons a t =>
      rw [hr] at hs
      simp only [List.reverse_cons, List.reverse_nil, List.nil_append, List.isPrefixOf,
        Bool.and_true, beq_iff_eq] at hs
      refine ⟨t.reverse, ?_⟩
      have := congrArg List.reverse hr
      rw [List.reverse_reverse] at this
      rw [this, hs]
      simp
  obtain ⟨t, rfl⟩ := hrev
  unfold CountByte at hc
  rw [List.count_append] at hc
  have hct : t.count c = 0 := by
    simp at hc
    exact hc
  have hnot : c ∉ t := List.count_eq_zero.1 hct
  have h1 := takeWhile_ne_append c t [c] hnot
  rw [h1.1, h1.2]
  simp

theorem takeWhile_eq_replicate (c : Fin 256) (l : GoString) :
    ∃ n, l.takeWhile (fun b => b == c) = List.replicate n c := by
  induction l with
  | nil => exact ⟨0, rfl⟩
  | cons a rest ih =>
    by_cases h : a = c
    · obtain ⟨n, hn⟩ := ih
      refine ⟨n + 1, ?_⟩
      subst h
      simp [List.takeWhile_cons, hn, List.replicate_succ]
    · exact ⟨0, by simp [List.takeWhile_cons, h]⟩

theorem head?_dropWhile_ne (c : Fin 256) (l : GoString) :
    (l.dropWhile (fun b => b == c)).head? ≠ some c := by
  intro h
  have := List.head?_dropWhile_not (fun b => b == c) l
  rw [h] at this
  simp at this

/-- The shape of `strings.Trim(s, string(c))`: `s` is the result between a run of
`c` bytes on each side, and the result neither starts nor ends with `c`. -/
theorem TrimByte_spec (s : GoString) (c : Fin 256) :
    (∃ n m, s = List.replicate n c ++ TrimByte s c ++ List.replicate m c) ∧
      (TrimByte s c).head? ≠ some c ∧ (TrimByte s c).getLast? ≠ some c := by
  have h1 := List.takeWhile_append_dropWhile (fun b => b == c) s
  have h2 := List.takeWhile_append_dropWhile (fun b => b == c)
    (s.dropWhile (fun b => b == c)).reverse
  obtain ⟨n, hn⟩ := takeWhile_eq_replicate c s
  obtain ⟨m, hm⟩ := takeWhile_eq_replicate c (s.dropWhile (fun b => b == c)).reverse
  have h3 : s.dropWhile (fun b => b == c) = TrimByte s c ++ List.replicate m c := by
    have := congrArg List.reverse h2
    rw [List.reverse_reverse, List.reverse_append, hm, List.reverse_replicate] at this
    exact this.symm
  have hlast : (TrimByte s c).getLast? ≠ some c := by
    unfold TrimByte
    rw [List.getLast?_reverse]
    exact head?_dropWhile_ne c _
  refine ⟨⟨n, m, ?_⟩, ?_, hlast⟩
  · rw [List.append_assoc, ← h3, ← hn]
    exact h1.symm
  · intro hhead
    have hne : TrimByte s c ≠ [] := by
      intro e
      rw [e] at hhead
      simp at hhead
    have : (s.dropWhile (fun b => b == c)).head? = some c := by
      rw [h3, List.head?_append_of_ne_nil _ hne]
      exact hhead
    exact head?_dropWhile_ne c s this

end strings

/-! ### `url.Parse` on `https://` followed by any text -/

namespace cli

open url

set_option maxRecDepth 1000000 in
theorem domainByte_props : ∀ c : Fin 256, domainByte c = true →
    c ≠ ch '/' ∧ c ≠ ch '?' ∧ c ≠ ch '#' ∧ c ≠ ch '@' ∧ c ≠ ch '%' ∧
    ¬ (c < ch ' ') ∧ c ≠ 127 ∧ shouldEscape c .encodeHost = false := by
  decide

set_option maxRecDepth 1000000 in
theorem pathArgByte_props : ∀ c : Fin 256, pathArgByte c = true →
    c ≠ ch '?' ∧ c ≠ ch '#' ∧ ¬ (c < ch ' ') ∧ c ≠ 127 := by
  decide

set_option maxRecDepth 1000000 in
theorem domainByte_list : ∀ c : Fin 256, domainByte c = true ↔
    (isAlnum c = true ∨ c ∈ [ch '-', ch '_', ch '.', ch '~', ch '!', ch '$', ch '&', 39, ch '(',
      ch ')', ch '*', ch '+', ch ',', ch ';', ch '=', ch ':', ch '[', ch ']', ch '<', ch '>',
      ch '"']) := by
  decide

set_option maxRecDepth 1000000 in
theorem pathArgByte_list : ∀ c : Fin 256, pathArgByte c = true ↔
    (isAlnum c = true ∨ c ∈ [ch '-', ch '_', ch '.', ch '~', ch '$', ch '&', ch '+', ch ',',
      ch '/', ch ':', ch ';', ch '=', ch '@', ch '!', 39, ch '(', ch ')', ch '*', ch '[', ch ']',
      ch '%']) := by
  decide

end cli

namespace url

open encoding

theorem unescapeCheck_host (s : GoString) (n : Nat)
    (h : ∀ c ∈ s, cli.domainByte c = true) :
    unescapeCheck encodeHost s n false = .ok (n, false) := by
  induction s with
  | nil => rfl
  | cons c rest ih =>
    have hc := cli.domainByte_props c (h c (by simp))
    have hrest : ∀ x ∈ rest, cli.domainByte x = true := fun x hx => h x (by simp [hx])
    rw [unescapeCheck.eq_def]
    simp only
    rw [if_neg hc.2.2.2.2.1]
    by_cases hplus : c = ch '+'
    · rw [if_pos hplus]
      simpa using ih hrest
    · rw [if_neg hplus, if_neg (by simp [hc.2.2.2.2.2.2.2])]
      exact ih hrest

theorem unescape_host (s : GoString) (h : ∀ c ∈ s, cli.domainByte c = true) :
    unescape s encodeHost = .ok s := by
  unfold unescape
  rw [unescapeCheck_host s 0 h]
  simp

theorem escape_id (s : GoString) (mode : encoding) (hm : mode ≠ encodeQueryComponent)
    (h : ∀ c ∈ s, shouldEscape c mode = false) : escape s mode = s := by
  unfold escape
  induction s with
  | nil => rfl
  | cons c rest ih =>
    have hrest : ∀ x ∈ rest, shouldEscape x mode = false := fun x hx => h x (by simp [hx])
    simp only [List.flatMap_cons]
    rw [ih hrest, if_neg (fun hh => hm hh.2)]
    simp [h c (by simp)]


/-- The host that `parseHost` reads from a domain of host bytes is the domain
itself, when the library reads a literal host as written. -/
theorem parseHost_class (B : GoString → Except ParseError GoString) (d : GoString)
    (hd : ∀ c ∈ d, cli.domainByte c = true)
    (hB : isLiteralHost d = true → ∀ r, B d = .ok r → r = d) :
    ∀ r, parseHost B d = .ok r → r = d := by
  intro r hr
  unfold parseHost at hr
  by_cases hl : isLiteralHost d = true
  · rw [if_pos hl] at hr
    exact hB hl r hr
  · rw [if_neg hl] at hr
    simp only at hr
    split at hr
    · simp at hr
    · rw [unescape_host d hd] at hr
      simp only [Except.ok.injEq] at hr
      exact hr.symm

/-- On a plain host, without `:` and `[`, `parseHost` succeeds. -/
theorem parseHost_plain (B : GoString → Except ParseError GoString) (d : GoString)
    (hd : ∀ c ∈ d, cli.domainByte c = true) (hcol : ch ':' ∉ d) (hbr : ch '[' ∉ d) :
    parseHost B d = .ok d := by
  have e1 : str "[" = [ch '['] := by decide
  have e2 : str ":" = [ch ':'] := by decide
  have hl : isLiteralHost d = false := by
    unfold isLiteralHost strings.CountByte
    rw [e1, strings.Contains_single_false _ _ hbr, List.count_eq_zero.2 hcol]
    simp
  unfold parseHost
  rw [hl, e2, strings.LastIndex_single_none _ _ hcol]
  simp [unescape_host d hd]

theorem parseAuthority_class (B : GoString → Except ParseError GoString) (d : GoString)
    (hd : ∀ c ∈ d, cli.domainByte c = true) :
    parseAuthority B d =
      match parseHost B d with
      | .error e => .error e
      | .ok host => .ok (none, host) := by
  have hat : ch '@' ∉ d := fun hm => (cli.domainByte_props _ (hd _ hm)).2.2.2.1 rfl
  have e1 : str "@" = [ch '@'] := by decide
  unfold parseAuthority
  rw [e1, strings.LastIndex_single_none _ _ hat]
  simp

theorem https_bytes : str "https://" =
    [ch 'h', ch 't', ch 't', ch 'p', ch 's', ch ':', ch '/', ch '/'] := by decide

theorem getSchemeFrom_letter (whole rest : GoString) (c : Fin 256) (i : Nat)
    (h : ch 'a' ≤ c ∧ c ≤ ch 'z') :
    getSchemeFrom whole (c :: rest) i = getSchemeFrom whole rest (i + 1) := by
  rw [getSchemeFrom, if_pos (Or.inl h)]

theorem getSchemeFrom_colon (whole rest : GoString) (i : Nat) :
    getSchemeFrom whole (ch ':' :: rest) (i + 1) = .ok (whole.take (i + 1), rest) := by
  rw [getSchemeFrom, if_neg (by decide), if_neg (by decide), if_pos rfl, if_neg (by omega)]

theorem getScheme_https (rest : GoString) :
    getScheme (str "https://" ++ rest) = .ok (str "https", ch '/' :: ch '/' :: rest) := by
  have hs : str "https" = [ch 'h', ch 't', ch 't', ch 'p', ch 's'] := by decide
  rw [https_bytes, hs]
  unfold getScheme
  simp only [List.cons_append, List.nil_append]
  rw [getSchemeFrom_letter _ _ _ _ (by decide), getSchemeFrom_letter _ _ _ _ (by decide),
    getSchemeFrom_letter _ _ _ _ (by decide), getSchemeFrom_letter _ _ _ _ (by decide),
    getSchemeFrom_letter _ _ _ _ (by decide), getSchemeFrom_colon]
  rfl

theorem stringContainsCTLByte_false (s : GoString)
    (h : ∀ c ∈ s, ¬ (c < ch ' ') ∧ c ≠ 127) : stringContainsCTLByte s = false := by
  unfold stringContainsCTLByte
  rw [List.any_eq_false]
  intro c hc
  have := h c hc
  simp [this.1, this.2]


theorem setPath_fields (u v : URL) (p : GoString) (h : u.setPath p = .ok v) :
    ∃ path, unescape p encodePath = .ok path ∧
      v = { u with Path := path, RawPath := if p = escape path encodePath then [] else p } := by
  unfold URL.setPath at h
  split at h
  · simp at h
  · rename_i path hpath
    simp only [Except.ok.injEq] at h
    exact ⟨path, hpath, h.symm⟩

theorem setFragment_fields (u v : URL) (f : GoString) (h : u.setFragment f = .ok v) :
    ∃ frag, v =
      { u with Fragment := frag, RawFragment := if f = escape frag encodeFragment then [] else f } := by
  unfold URL.setFragment at h
  split at h
  · simp at h
  · rename_i frag hfrag
    simp only [Except.ok.injEq] at h
    exact ⟨frag, h.symm⟩

/-- What `parse` does with `https://` followed by `t`: the query is the text
after the first `?`, the authority the text before the first `/` of the rest,
the path what is left. -/
theorem parse_https (B : GoString → Except ParseError GoString) (t : GoString)
    (hctl : stringContainsCTLByte (str "https://" ++ t) = false) :
    parse B (str "https://" ++ t) false =
      match parseAuthority B
          ((t.takeWhile (fun b => b != ch '?')).takeWhile (fun b => b != ch '/')) with
      | .error e => .error e
      | .ok (user, host) =>
        URL.setPath
          { Scheme := str "https", User := user, Host := host,
            RawQuery := (t.dropWhile (fun b => b != ch '?')).drop 1,
            ForceQuery := decide (strings.HasSuffix (ch '/' :: ch '/' :: t) (str "?") = true ∧
              strings.CountByte (ch '/' :: ch '/' :: t) (ch '?') = 1) }
          ((t.takeWhile (fun b => b != ch '?')).dropWhile (fun b => b != ch '/')) := by
  have hstar : str "https://" ++ t ≠ str "*" := by
    rw [https_bytes]
    intro e
    have := congrArg List.head? e
    simp at this
    revert this
    decide
  have hnil : str "https://" ++ t ≠ [] := by
    rw [https_bytes]
    simp
  have e1 : str "?" = [ch '?'] := by decide
  have e2 : str "/" = [ch '/'] := by decide
  have e3 : str "//" = [ch '/', ch '/'] := by decide
  have hlow : (str "https").map
      (fun c => if ch 'A' ≤ c ∧ c ≤ ch 'Z' then c + (ch 'a' - ch 'A') else c) = str "https" := by
    decide
  have hne : str "https" ≠ [] := by decide
  have htw : (ch '/' :: ch '/' :: t).takeWhile (fun b => b != ch '?') =
      ch '/' :: ch '/' :: t.takeWhile (fun b => b != ch '?') := by
    have : (ch '/' != ch '?') = true := by decide
    simp [List.takeWhile_cons, this]
  have hdw : (ch '/' :: ch '/' :: t).dropWhile (fun b => b != ch '?') =
      t.dropWhile (fun b => b != ch '?') := by
    have : (ch '/' != ch '?') = true := by decide
    simp [List.dropWhile_cons, this]
  have htuple :
      (if strings.HasSuffix (ch '/' :: ch '/' :: t) (str "?") = true ∧
            strings.CountByte (ch '/' :: ch '/' :: t) (ch '?') = 1 then
          ((ch '/' :: ch '/' :: t).take ((ch '/' :: ch '/' :: t).length - 1), ([] : GoString), true)
        else ((strings.Cut (ch '/' :: ch '/' :: t) (str "?")).1,
          (strings.Cut (ch '/' :: ch '/' :: t) (str "?")).2.1, false)) =
      (ch '/' :: ch '/' :: t.takeWhile (fun b => b != ch '?'),
        (t.dropWhile (fun b => b != ch '?')).drop 1,
        decide (strings.HasSuffix (ch '/' :: ch '/' :: t) (str "?") = true ∧
          strings.CountByte (ch '/' :: ch '/' :: t) (ch '?') = 1)) := by
    by_cases hc : strings.HasSuffix (ch '/' :: ch '/' :: t) (str "?") = true ∧
        strings.CountByte (ch '/' :: ch '/' :: t) (ch '?') = 1
    · rw [if_pos hc]
      have h := strings.suffix_count_one (ch '?') _ (by rw [← e1]; exact hc.1) hc.2
      rw [← h.1, htw, ← hdw, h.2]
      simp [hc]
    · rw [if_neg hc, e1, strings.Cut_single_eq, htw, hdw]
      simp only [Prod.mk.injEq, true_and]
      rw [← e1]
      simp [hc]
  have hpre1 : ∀ a : GoString, strings.HasPrefix (ch '/' :: ch '/' :: a) [ch '/'] = true := by
    intro a
    simp [strings.HasPrefix, List.isPrefixOf]
  have hpre2 : ∀ a : GoString,
      strings.HasPrefix (ch '/' :: ch '/' :: a) [ch '/', ch '/'] = true := by
    intro a
    simp [strings.HasPrefix, List.isPrefixOf]
  have hauth : ∀ a : GoString,
      (if 0 ≤ strings.Index a [ch '/'] then
          (a.take (strings.Index a [ch '/']).toNat, a.drop (strings.Index a [ch '/']).toNat)
        else (a, ([] : GoString))) =
      (a.takeWhile (fun b => b != ch '/'), a.dropWhile (fun b => b != ch '/')) := by
    intro a
    rw [strings.Index_single_eq]
    by_cases hm : ch '/' ∈ a
    · have hs := strings.split_at_first (ch '/') a hm
      have hd : a.dropWhile (fun b => b != ch '/') =
          ch '/' :: (a.dropWhile (fun b => b != ch '/')).drop 1 := by
        have h1 := List.takeWhile_append_dropWhile (fun b => b != ch '/') a
        have h2 := hs.1
        conv at h2 => lhs; rw [← h1]
        exact List.append_cancel_left h2
      have h1 := List.takeWhile_append_dropWhile (fun b => b != ch '/') a
      have ht : (a.takeWhile (fun b => b != ch '/') ++ a.dropWhile (fun b => b != ch '/')).take
          (a.takeWhile (fun b => b != ch '/')).length = a.takeWhile (fun b => b != ch '/') :=
        List.take_left' rfl
      have hdr : (a.takeWhile (fun b => b != ch '/') ++ a.dropWhile (fun b => b != ch '/')).drop
          (a.takeWhile (fun b => b != ch '/')).length = a.dropWhile (fun b => b != ch '/') :=
        List.drop_left' rfl
      rw [h1] at ht hdr
      rw [if_pos hm, if_pos (by positivity)]
      simp only [Int.toNat_ofNat, ht, hdr]
    · rw [if_neg hm, if_neg (by decide), (strings.takeWhile_ne_of_not_mem _ _ hm).1,
        (strings.takeWhile_ne_of_not_mem _ _ hm).2]
  unfold parse
  rw [hctl, if_neg (by simp), if_neg (by simp [hnil]), if_neg hstar, getScheme_https]
  simp only [hlow]
  rw [htuple]
  simp only [e2, e3, hpre1, hpre2, hne, List.drop_succ_cons, List.drop_zero, hauth]
  simp [hne]

/-! ### `QueryUnescape` after `QueryEscape` -/

theorem unescapeCheck_plus (mode : encoding) (rest : GoString) (n : Nat) (hp : Bool) :
    unescapeCheck mode (ch '+' :: rest) n hp =
      unescapeCheck mode rest n (decide (mode = encodeQueryComponent)) := by
  rw [unescapeCheck.eq_def]
  simp only
  rw [if_neg (by decide), if_pos trivial]

theorem unescapeCheck_other (mode : encoding) (c : Fin 256) (rest : GoString) (n : Nat) (hp : Bool)
    (h1 : c ≠ ch '%') (h2 : c ≠ ch '+') (h3 : mode ≠ encodeHost ∧ mode ≠ encodeZone) :
    unescapeCheck mode (c :: rest) n hp = unescapeCheck mode rest n hp := by
  rw [unescapeCheck.eq_def]
  simp only
  rw [if_neg h1, if_neg h2, if_neg (by simp [h3.1, h3.2])]

theorem unescapeCheck_pct (h1 h2 : Fin 256) (rest : GoString) (n : Nat) (hp : Bool)
    (hh1 : ishex h1 = true) (hh2 : ishex h2 = true) :
    unescapeCheck encodeQueryComponent (ch '%' :: h1 :: h2 :: rest) n hp =
      unescapeCheck encodeQueryComponent rest (n + 1) hp := by
  rw [unescapeCheck.eq_def]
  simp only
  rw [if_pos trivial]
  simp [hh1, hh2]

theorem unescapeBytes_plus (mode : encoding) (rest : GoString) :
    unescapeBytes mode (ch '+' :: rest) =
      (if mode = encodeQueryComponent then ch ' ' else ch '+') :: unescapeBytes mode rest := by
  rw [unescapeBytes.eq_def]
  simp only
  rw [if_neg (by decide), if_pos trivial]

theorem unescapeBytes_other (mode : encoding) (c : Fin 256) (rest : GoString)
    (h1 : c ≠ ch '%') (h2 : c ≠ ch '+') :
    unescapeBytes mode (c :: rest) = c :: unescapeBytes mode rest := by
  rw [unescapeBytes.eq_def]
  simp only
  rw [if_neg h1, if_neg h2]

theorem unescapeBytes_pct (mode : encoding) (h1 h2 : Fin 256) (rest : GoString) :
    unescapeBytes mode (ch '%' :: h1 :: h2 :: rest) =
      (unhex h1 <<< 4 ||| unhex h2) :: unescapeBytes mode rest := by
  rw [unescapeBytes.eq_def]
  simp only
  rw [if_pos trivial]

/-- What `escape` writes for one byte of a query component. -/
theorem escape_cons (c : Fin 256) (s : GoString) (mode : encoding) :
    escape (c :: s) mode =
      (if c = ch ' ' ∧ mode = encodeQueryComponent then [ch '+']
        else if shouldEscape c mode then [ch '%', upperhex (c >>> 4), upperhex (c &&& 15)]
        else [c]) ++ escape s mode := by
  simp [escape]

set_option maxRecDepth 1000000 in
theorem hex_roundtrip : ∀ c : Fin 256,
    ishex (upperhex (c >>> 4)) = true ∧ ishex (upperhex (c &&& 15)) = true ∧
      (unhex (upperhex (c >>> 4)) <<< 4 ||| unhex (upperhex (c &&& 15))) = c := by
  decide

set_option maxRecDepth 1000000 in
theorem plain_query_byte : ∀ c : Fin 256, shouldEscape c encodeQueryComponent = false →
    c ≠ ch '%' ∧ c ≠ ch '+' ∧ c ≠ ch '&' ∧ c ≠ ch '=' ∧ c ≠ ch ';' ∧ c ≠ ch ' ' := by
  decide

set_option maxRecDepth 1000000 in
theorem upperhex_byte : ∀ c : Fin 256,
    upperhex c ≠ ch '&' ∧ upperhex c ≠ ch '=' ∧ upperhex c ≠ ch ';' := by
  decide

theorem QueryEscape_bytes (s : GoString) :
    ∀ c ∈ QueryEscape s, c ≠ ch '&' ∧ c ≠ ch '=' ∧ c ≠ ch ';' := by
  unfold QueryEscape
  induction s with
  | nil => intro c hc; simp [escape] at hc
  | cons a rest ih =>
    intro c hc
    rw [escape_cons] at hc
    rcases List.mem_append.1 hc with h | h
    · split at h
      · simp only [List.mem_singleton] at h
        subst h
        decide
      · split at h
        · simp only [List.mem_cons, List.mem_singleton, List.not_mem_nil, or_false] at h
          rcases h with h | h | h
          · subst h; decide
          · subst h; exact upperhex_byte _
          · subst h; exact upperhex_byte _
        · rename_i hne hse
          simp only [List.mem_singleton] at h
          subst h
          have := plain_query_byte c (by simpa using hse)
          exact ⟨this.2.2.1, this.2.2.2.1, this.2.2.2.2.1⟩
    · exact ih c h

theorem unescapeCheck_QueryEscape (s : GoString) (n : Nat) (hasPlus : Bool) :
    ∃ n2 hp2, unescapeCheck encodeQueryComponent (QueryEscape s) n hasPlus = .ok (n2, hp2) := by
  unfold QueryEscape
  induction s generalizing n hasPlus with
  | nil => exact ⟨n, hasPlus, rfl⟩
  | cons a rest ih =>
    rw [escape_cons]
    by_cases hsp : a = ch ' '
    · subst hsp
      simp only [true_and, if_true, List.singleton_append]
      rw [unescapeCheck_plus]
      exact ih _ _
    · rw [if_neg (fun h => hsp h.1)]
      by_cases hse : shouldEscape a encodeQueryComponent = true
      · rw [if_pos hse]
        have hh := hex_roundtrip a
        simp only [List.cons_append, List.nil_append]
        rw [unescapeCheck_pct _ _ _ _ _ hh.1 hh.2.1]
        exact ih _ _
      · rw [if_neg hse]
        have hb := plain_query_byte a (by simpa using hse)
        simp only [List.singleton_append]
        rw [unescapeCheck_other _ _ _ _ _ hb.1 hb.2.1 (by decide)]
        exact ih _ _

theorem unescapeBytes_QueryEscape (s : GoString) :
    unescapeBytes encodeQueryComponent (QueryEscape s) = s := by
  unfold QueryEscape
  induction s with
  | nil => rfl
  | cons a rest ih =>
    rw [escape_cons]
    by_cases hsp : a = ch ' '
    · subst hsp
      simp only [true_and, if_true, List.singleton_append]
      rw [unescapeBytes_plus, ih]
      simp
    · rw [if_neg (fun h => hsp h.1)]
      by_cases hse : shouldEscape a encodeQueryComponent = true
      · rw [if_pos hse]
        have hh := hex_roundtrip a
        simp only [List.cons_append, List.nil_append]
        rw [unescapeBytes_pct, hh.2.2, ih]
      · rw [if_neg hse]
        have hb := plain_query_byte a (by simpa using hse)
        simp only [List.singleton_append]
        rw [unescapeBytes_other _ _ _ hb.1 hb.2.1, ih]

theorem unescapeBytes_of_check_aux (k : Nat) :
    ∀ (t : GoString) (a n : Nat) (b hp : Bool), t.length ≤ k →
      unescapeCheck encodeQueryComponent t a b = .ok (n, hp) →
      a ≤ n ∧ (n = a → hp = false → b = false ∧ unescapeBytes encodeQueryComponent t = t) := by
  induction k with
  | zero =>
    intro t a n b hp hlen h
    have ht : t = [] := List.length_eq_zero.1 (Nat.le_zero.1 hlen)
    subst ht
    simp only [unescapeCheck, Except.ok.injEq, Prod.mk.injEq] at h
    exact ⟨by omega, fun _ hh => ⟨by rw [← hh]; exact h.2, rfl⟩⟩
  | succ k ih =>
    intro t a n b hp hlen h
    cases t with
    | nil =>
      simp only [unescapeCheck, Except.ok.injEq, Prod.mk.injEq] at h
      exact ⟨by omega, fun _ hh => ⟨by rw [← hh]; exact h.2, rfl⟩⟩
    | cons c rest =>
      have hrest : rest.length ≤ k := by simpa using hlen
      by_cases hpc : c = ch '%'
      · subst hpc
        rw [unescapeCheck.eq_def] at h
        simp only at h
        rw [if_pos trivial] at h
        split at h
        · rename_i h1 h2 rest2
          split at h
          · simp at h
          · split at h
            · simp at h
            · split at h
              · simp at h
              · have hlen2 : rest2.length ≤ k := by
                  simp only [List.length_cons] at hrest
                  omega
                obtain ⟨hle, _⟩ := ih rest2 (a + 1) n b hp hlen2 h
                exact ⟨by omega, fun hn => by omega⟩
        · simp at h
      · by_cases hpl : c = ch '+'
        · subst hpl
          rw [unescapeCheck_plus] at h
          obtain ⟨hle, himp⟩ := ih rest a n _ hp hrest h
          refine ⟨hle, ?_⟩
          intro hn hhp
          have := (himp hn hhp).1
          simp at this
        · rw [unescapeCheck_other _ _ _ _ _ hpc hpl (by decide)] at h
          obtain ⟨hle, himp⟩ := ih rest a n b hp hrest h
          refine ⟨hle, ?_⟩
          intro hn hhp
          rw [unescapeBytes_other _ _ _ hpc hpl, (himp hn hhp).2]
          exact ⟨(himp hn hhp).1, rfl⟩

/-- When the checking loop of `unescape` in a query component counts no escape
and sees no `+`, the rewriting loop would leave the string as it is. -/
theorem unescapeBytes_of_check (t : GoString) (a n : Nat) (b hp : Bool)
    (h : unescapeCheck encodeQueryComponent t a b = .ok (n, hp)) :
    a ≤ n ∧ (n = a → hp = false → b = false ∧ unescapeBytes encodeQueryComponent t = t) :=
  unescapeBytes_of_check_aux t.length t a n b hp (le_refl _) h

theorem QueryUnescape_QueryEscape (s : GoString) :
    QueryUnescape (QueryEscape s) = .ok s := by
  unfold QueryUnescape unescape
  obtain ⟨n, hp, h⟩ := unescapeCheck_QueryEscape s 0 false
  rw [h]
  simp only
  split
  · rename_i hcond
    have := (unescapeBytes_of_check _ 0 n false hp h).2 hcond.1 hcond.2
    rw [← this.2, unescapeBytes_QueryEscape]
  · rw [unescapeBytes_QueryEscape]



/-! ### `url.Parse`, `EscapedPath` and `String` on a host and a path kept as written -/

theorem Parse_https (B : GoString → Except ParseError GoString) (t : GoString) :
    Parse B (str "https://" ++ t) =
      match parse B (str "https://" ++ t.takeWhile (fun b => b != ch '#')) false with
      | .error e => .error ⟨str "https://" ++ t.takeWhile (fun b => b != ch '#'), e⟩
      | .ok url =>
        if (t.dropWhile (fun b => b != ch '#')).drop 1 = [] then .ok url
        else
          match url.setFragment ((t.dropWhile (fun b => b != ch '#')).drop 1) with
          | .error e => .error ⟨str "https://" ++ t, e⟩
          | .ok url2 => .ok url2 := by
  have e1 : str "#" = [ch '#'] := by decide
  have hpre : ch '#' ∉ str "https://" := by decide
  have h := strings.takeWhile_ne_append (ch '#') (str "https://") t hpre
  unfold Parse
  rw [e1, strings.Cut_single_eq, h.1, h.2]

theorem parse_ok_noCTL (B : GoString → Except ParseError GoString) (raw : GoString) (u : URL)
    (h : parse B raw false = .ok u) : stringContainsCTLByte raw = false := by
  by_contra hc
  simp only [Bool.not_eq_false] at hc
  unfold parse at h
  rw [if_pos hc] at h
  simp at h

/-- The query string of a parsed `https://` URL is the text between its first
`?` and its first `#`. -/
theorem Parse_RawQuery (B : GoString → Except ParseError GoString) (t : GoString)
    (endpoint : URL) (h : Parse B (str "https://" ++ t) = .ok endpoint) :
    endpoint.RawQuery =
      ((t.takeWhile (fun b => b != ch '#')).dropWhile (fun b => b != ch '?')).drop 1 := by
  rw [Parse_https] at h
  split at h
  · simp at h
  · rename_i url hparse
    have hq : url.RawQuery =
        ((t.takeWhile (fun b => b != ch '#')).dropWhile (fun b => b != ch '?')).drop 1 := by
      rw [parse_https B _ (parse_ok_noCTL B _ _ hparse)] at hparse
      split at hparse
      · simp at hparse
      · obtain ⟨path, _, hv⟩ := setPath_fields _ _ _ hparse
        rw [hv]
    split at h
    · simp only [Except.ok.injEq] at h
      rw [← h, hq]
    · split at h
      · simp at h
      · rename_i url2 hfrag
        simp only [Except.ok.injEq] at h
        obtain ⟨frag, hv⟩ := setFragment_fields _ _ _ hfrag
        rw [← h, hv]
        exact hq

theorem unescape_head (c : Fin 256) (s r : GoString) (mode : encoding)
    (h1 : c ≠ ch '%') (h2 : c ≠ ch '+') (h : unescape (c :: s) mode = .ok r) :
    ∃ r2, r = c :: r2 := by
  unfold unescape at h
  split at h
  · simp at h
  · split at h
    · simp only [Except.ok.injEq] at h
      exact ⟨s, h.symm⟩
    · simp only [Except.ok.injEq] at h
      rw [unescapeBytes_other _ _ _ h1 h2] at h
      exact ⟨_, h.symm⟩

theorem unescape_nil (mode : encoding) : unescape [] mode = .ok [] := by
  simp [unescape, unescapeCheck]

/-- `EscapedPath` gives back the path text that `setPath` was given, when its
bytes are those a path may hold. -/
theorem EscapedPath_kept (u : URL) (p path : GoString)
    (hp : ∀ c ∈ p, cli.pathArgByte c = true)
    (hun : unescape (ch '/' :: p) encodePath = .ok path) (hPath : u.Path = path)
    (hRaw : u.RawPath =
      if ch '/' :: p = escape path encodePath then [] else ch '/' :: p) :
    u.EscapedPath = ch '/' :: p ∧ u.Path ≠ [] := by
  obtain ⟨r2, hr2⟩ := unescape_head _ _ _ _ (by decide) (by decide) hun
  have hstar : path ≠ str "*" := by
    rw [hr2]
    intro e
    have := congrArg List.head? e
    simp at this
    revert this
    decide
  refine ⟨?_, by rw [hPath, hr2]; simp⟩
  unfold URL.EscapedPath
  rw [hRaw, hPath]
  by_cases hEq : ch '/' :: p = escape path encodePath
  · rw [if_pos hEq, if_neg (by simp), if_neg hstar]
    exact hEq.symm
  · rw [if_neg hEq, if_pos]
    refine ⟨by simp, ?_, ?_⟩
    · unfold validEncoded
      rw [List.all_eq_true]
      intro c hc
      have hcb : cli.pathArgByte c = true := by
        rcases List.mem_cons.1 hc with e | e
        · subst e; decide
        · exact hp c e
      unfold cli.pathArgByte validEncoded at hcb
      simpa using hcb
    · unfold unescapesTo
      rw [hun]
      simp

theorem String_https (u : URL) (p : GoString) (hS : u.Scheme = str "https") (hO : u.Opaque = [])
    (hU : u.User = none) (hOm : u.OmitHost = false)
    (hH : escape u.Host encodeHost = u.Host) (hEP : u.EscapedPath = ch '/' :: p)
    (hF : u.Fragment = []) (hFQ : u.ForceQuery = false) (hPath : u.Path ≠ []) :
    u.String =
      str "https://" ++ u.Host ++ ch '/' :: p ++
        (if u.RawQuery = [] then [] else str "?" ++ u.RawQuery) := by
  have hne : str "https" ≠ [] := by decide
  have hhttps : str "https" ++ str ":" ++ str "//" = str "https://" := by decide
  unfold URL.String
  simp only [hS, hO, hU, hOm, hEP, hF, hFQ]
  by_cases hd0 : u.Host = []
  · by_cases hq : u.RawQuery = []
    · simp [hne, hd0, hq, hPath, ← hhttps]
    · simp [hne, hd0, hq, hPath, ← hhttps]
  · by_cases hq : u.RawQuery = []
    · simp [hne, hd0, hq, hH, ← hhttps]
    · simp [hne, hd0, hq, hH, ← hhttps]

/-- What `Parse` makes of `https://<domain>/api/v2/<path>` for a domain of host
bytes and a path of path bytes. -/
theorem Parse_class (B : GoString → Except ParseError GoString) (d p : GoString)
    (hd : ∀ c ∈ d, cli.domainByte c = true) (hp : ∀ c ∈ p, cli.pathArgByte c = true) :
    Parse B (str "https://" ++ d ++ str "/api/v2/" ++ p) =
      match parseHost B d with
      | .error e => .error ⟨str "https://" ++ d ++ str "/api/v2/" ++ p, e⟩
      | .ok host =>
        match unescape (str "/api/v2/" ++ p) encodePath with
        | .error e => .error ⟨str "https://" ++ d ++ str "/api/v2/" ++ p, e⟩
        | .ok path =>
          .ok { Scheme := str "https", Host := host, Path := path,
                RawPath := if str "/api/v2/" ++ p = escape path encodePath then []
                  else str "/api/v2/" ++ p } := by
  have hapi : str "/api/v2/" = ch '/' :: str "api/v2/" := by decide
  have hlit : ∀ c ∈ str "/api/v2/", cli.pathArgByte c = true := by
    set_option maxRecDepth 100000 in decide
  have hrest : ∀ c ∈ str "/api/v2/" ++ p, cli.pathArgByte c = true := by
    intro c hc
    rcases List.mem_append.1 hc with h | h
    · exact hlit c h
    · exact hp c h
  have hshape : str "https://" ++ d ++ str "/api/v2/" ++ p =
      str "https://" ++ (d ++ (str "/api/v2/" ++ p)) := by simp
  have hhash : ch '#' ∉ d ++ (str "/api/v2/" ++ p) := by
    intro hm
    rcases List.mem_append.1 hm with h | h
    · exact (cli.domainByte_props _ (hd _ h)).2.2.1 rfl
    · exact (cli.pathArgByte_props _ (hrest _ h)).2.1 rfl
  have hq : ch '?' ∉ d ++ (str "/api/v2/" ++ p) := by
    intro hm
    rcases List.mem_append.1 hm with h | h
    · exact (cli.domainByte_props _ (hd _ h)).2.1 rfl
    · exact (cli.pathArgByte_props _ (hrest _ h)).1 rfl
  have hslash : ch '/' ∉ d := fun hm => (cli.domainByte_props _ (hd _ hm)).1 rfl
  have hctl : stringContainsCTLByte (str "https://" ++ (d ++ (str "/api/v2/" ++ p))) = false := by
    apply stringContainsCTLByte_false
    intro c hc
    simp only [List.mem_append] at hc
    rcases hc with hc | hc | hc | hc
    · have hl : ∀ c ∈ str "https://", ¬ (c < ch ' ') ∧ c ≠ 127 := by
        set_option maxRecDepth 100000 in decide
      exact hl c hc
    · exact ⟨(cli.domainByte_props c (hd c hc)).2.2.2.2.2.1,
        (cli.domainByte_props c (hd c hc)).2.2.2.2.2.2.1⟩
    · exact ⟨(cli.pathArgByte_props c (hlit c hc)).2.2.1, (cli.pathArgByte_props c (hlit c hc)).2.2.2⟩
    · exact ⟨(cli.pathArgByte_props c (hp c hc)).2.2.1, (cli.pathArgByte_props c (hp c hc)).2.2.2⟩
  have hq2 : ch '?' ∉ ch '/' :: ch '/' :: (d ++ (str "/api/v2/" ++ p)) := by
    intro hm
    rcases List.mem_cons.1 hm with e | hm
    · revert e; decide
    · rcases List.mem_cons.1 hm with e | hm
      · revert e; decide
      · exact hq hm
  have e1 : str "?" = [ch '?'] := by decide
  have hauth := strings.takeWhile_ne_append (ch '/') d (str "/api/v2/" ++ p) hslash
  have htw0 : (str "/api/v2/" ++ p).takeWhile (fun b => b != ch '/') = [] := by
    rw [hapi]
    simp [List.takeWhile_cons]
  have hdw0 : (str "/api/v2/" ++ p).dropWhile (fun b => b != ch '/') = str "/api/v2/" ++ p := by
    rw [hapi]
    simp [List.dropWhile_cons]
  rw [hshape, Parse_https, (strings.takeWhile_ne_of_not_mem _ _ hhash).1,
    (strings.takeWhile_ne_of_not_mem _ _ hhash).2, parse_https B _ hctl,
    (strings.takeWhile_ne_of_not_mem _ _ hq).1, (strings.takeWhile_ne_of_not_mem _ _ hq).2,
    hauth.1, hauth.2, htw0, hdw0, List.append_nil, parseAuthority_class B d hd, e1,
    strings.HasSuffix_single_false _ _ hq2]
  cases hh : parseHost B d with
  | error e => simp
  | ok host =>
    simp only [URL.setPath]
    cases hu : unescape (str "/api/v2/" ++ p) encodePath with
    | error e => simp
    | ok path => simp

end url

/-! ### Claim C4 -/

namespace url

open encoding

theorem unescapeCheck_path (s : GoString) (n : Nat)
    (h : ∀ c ∈ s, c ≠ ch '%') :
    unescapeCheck encodePath s n false = .ok (n, false) := by
  induction s with
  | nil => rfl
  | cons c rest ih =>
    have hrest : ∀ x ∈ rest, x ≠ ch '%' := fun x hx => h x (by simp [hx])
    unfold unescapeCheck
    rw [if_neg (h c (by simp))]
    by_cases hplus : c = ch '+'
    · rw [if_pos hplus]
      simpa using ih hrest
    · rw [if_neg hplus, if_neg (by simp)]
      exact ih hrest

theorem unescape_path (s : GoString) (h : ∀ c ∈ s, c ≠ ch '%') :
    unescape s encodePath = .ok s := by
  unfold unescape
  rw [unescapeCheck_path s 0 h]
  simp

theorem Query_empty (u : URL) (h : u.RawQuery = []) : u.Query = [] := by
  unfold URL.Query ParseQuery
  rw [h]
  simp [parseQueryLoop]

end url

namespace cli

open url

/-- What `validateAndSetEndpoint` returns for a domain of host bytes and a path
argument that, once trimmed, is made of path bytes. -/
theorem validateAndSetEndpoint_class (quote : GoString → GoString)
    (literal : GoString → Except ParseError GoString) (i : apiCmdInputs) (domain : GoString)
    (hd : ∀ c ∈ domain, domainByte c = true)
    (hp : ∀ c ∈ strings.TrimByte i.RawURI (ch '/'), pathArgByte c = true) :
    i.validateAndSetEndpoint quote literal domain =
      match parseHost literal domain with
      | .error e =>
        (i, .error (str "invalid uri given: " ++
          url.Error.Error quote
            ⟨str "https://" ++ domain ++ str "/api/v2/" ++ strings.TrimByte i.RawURI (ch '/'), e⟩))
      | .ok host =>
        match unescape (str "/api/v2/" ++ strings.TrimByte i.RawURI (ch '/')) .encodePath with
        | .error e =>
          (i, .error (str "invalid uri given: " ++
            url.Error.Error quote
              ⟨str "https://" ++ domain ++ str "/api/v2/" ++ strings.TrimByte i.RawURI (ch '/'),
                e⟩))
        | .ok path =>
          ({ i with
              URL := some
                { Scheme := str "https", Host := host, Path := path,
                  RawPath :=
                    if str "/api/v2/" ++ strings.TrimByte i.RawURI (ch '/') =
                        escape path .encodePath then []
                    else str "/api/v2/" ++ strings.TrimByte i.RawURI (ch '/'),
                  RawQuery :=
                    Values.Encode
                      (i.RawQueryParams.foldl (fun params kv => Values.Set params kv.1 kv.2) []) } },
            .ok) := by
  unfold apiCmdInputs.validateAndSetEndpoint
  rw [Parse_class literal domain _ hd hp]
  cases parseHost literal domain with
  | error e => rfl
  | ok host =>
    simp only
    cases unescape (str "/api/v2/" ++ strings.TrimByte i.RawURI (ch '/')) .encodePath with
    | error e => rfl
    | ok path =>
      simp only
      rw [Query_empty _ rfl]

/-- C4, as stated, fails.  The path argument `users/auth0|123` resolves to
`https://d.com/api/v2/users/auth0%7C123` and `/a b/` to
`https://d.com/api/v2/a%20b`: a byte that a URL path cannot hold is escaped.
The path argument `clients?page=1&fields=name` resolves to
`https://d.com/api/v2/clients?fields=name&page=1`: an embedded query is
rewritten.  The path argument `clients#` resolves to
`https://d.com/api/v2/clients`: an empty fragment is dropped.  Under the domain
`d.com?x` the path argument `clients` resolves to
`https://d.com?x%2Fapi%2Fv2%2Fclients=`: the domain is no host.  In each case
the string form does not begin with `https://<domain>/api/v2/<trimmed argument>`. -/
theorem C4_counterexample :
    ((({ RawURI := str "users/auth0|123" } : apiCmdInputs).validateAndSetEndpoint quoteASCII
          hostLiteral119 (str "d.com")).2 = .ok ∧
      (({ RawURI := str "users/auth0|123" } : apiCmdInputs).validateAndSetEndpoint quoteASCII
          hostLiteral119 (str "d.com")).1.URL.map URL.String =
        some (str "https://d.com/api/v2/users/auth0%7C123") ∧
      (str "https://" ++ str "d.com" ++ str "/api/v2/" ++
          strings.TrimByte (str "users/auth0|123") (ch '/')).isPrefixOf
          (str "https://d.com/api/v2/users/auth0%7C123") = false) ∧
    ((({ RawURI := str "/a b/" } : apiCmdInputs).validateAndSetEndpoint quoteASCII
          hostLiteral119 (str "d.com")).2 = .ok ∧
      (({ RawURI := str "/a b/" } : apiCmdInputs).validateAndSetEndpoint quoteASCII
          hostLiteral119 (str "d.com")).1.URL.map URL.String =
        some (str "https://d.com/api/v2/a%20b") ∧
      (str "https://" ++ str "d.com" ++ str "/api/v2/" ++
          strings.TrimByte (str "/a b/") (ch '/')).isPrefixOf (str "https://d.com/api/v2/a%20b") =
        false) ∧
    ((({ RawURI := str "clients?page=1&fields=name" } : apiCmdInputs).validateAndSetEndpoint
          quoteASCII hostLiteral119 (str "d.com")).1.URL.map URL.String =
        some (str "https://d.com/api/v2/clients?fields=name&page=1") ∧
      (str "https://" ++ str "d.com" ++ str "/api/v2/" ++
          strings.TrimByte (str "clients?page=1&fields=name") (ch '/')).isPrefixOf
          (str "https://d.com/api/v2/clients?fields=name&page=1") = false) ∧
    ((({ RawURI := str "clients#" } : apiCmdInputs).validateAndSetEndpoint
          quoteASCII hostLiteral119 (str "d.com")).1.URL.map URL.String =
        some (str "https://d.com/api/v2/clients") ∧
      (str "https://" ++ str "d.com" ++ str "/api/v2/" ++
          strings.TrimByte (str "clients#") (ch '/')).isPrefixOf
          (str "https://d.com/api/v2/clients") = false) ∧
    ((({ RawURI := str "clients" } : apiCmdInputs).validateAndSetEndpoint quoteASCII
          hostLiteral119 (str "d.com?x")).1.URL.map URL.String =
        some (str "https://d.com?x%2Fapi%2Fv2%2Fclients=") ∧
      (str "https://" ++ str "d.com?x" ++ str "/api/v2/" ++
          strings.TrimByte (str "clients") (ch '/')).isPrefixOf
          (str "https://d.com?x%2Fapi%2Fv2%2Fclients=") = false) := by
  decide

/-- C4, amended: let the tenant domain be made of bytes a host may hold as they
are (letters, digits and `- _ . ~ ! $ & ' ( ) * + , ; = : [ ] < > "`), read by
the library as written when it holds `[` or several `:`, and the path argument
of bytes a path may hold as they are (letters, digits,
`- _ . ~ $ & + , / : ; = @ ! ' ( ) * [ ]` and `%`).  Then
`validateAndSetEndpoint` succeeds exactly when the library accepts the domain
as a host and the percent escapes of the path are well formed, which is so
whenever the domain holds no `:` and no `[` and the argument no `%`; and
whenever it succeeds the URL is absolute (scheme `https`, host the domain), its
escaped path is `/api/v2/` followed by the path argument without its leading
and trailing `/` bytes, and its string form is
`https://<domain>/api/v2/<trimmed argument>`, followed by `?` and the encoded
query when parameters are supplied.  Path arguments that differ only in leading
and trailing `/` bytes resolve to the same URL. -/
theorem C4_resolved_url (quote : GoString → GoString)
    (literal : GoString → Except ParseError GoString) (i : apiCmdInputs) (domain : GoString)
    (hd : ∀ c ∈ domain, domainByte c = true)
    (hlit : isLiteralHost domain = true → ∀ r, literal domain = .ok r → r = domain)
    (hp : ∀ c ∈ i.RawURI, pathArgByte c = true) :
    ((i.validateAndSetEndpoint quote literal domain).2 = .ok ↔
      (∃ host, parseHost literal domain = .ok host) ∧
        ∃ path, unescape (str "/api/v2/" ++ strings.TrimByte i.RawURI (ch '/')) .encodePath =
          .ok path) ∧
    (ch ':' ∉ domain → ch '[' ∉ domain → ch '%' ∉ i.RawURI →
      (i.validateAndSetEndpoint quote literal domain).2 = .ok) ∧
    ((i.validateAndSetEndpoint quote literal domain).2 = .ok →
      ∃ u : URL,
        i.validateAndSetEndpoint quote literal domain = ({ i with URL := some u }, .ok) ∧
        u.Scheme = str "https" ∧ u.Host = domain ∧ u.User = none ∧
        unescape (str "/api/v2/" ++ strings.TrimByte i.RawURI (ch '/')) .encodePath = .ok u.Path ∧
        u.EscapedPath = str "/api/v2/" ++ strings.TrimByte i.RawURI (ch '/') ∧
        u.RawQuery =
          Values.Encode
            (i.RawQueryParams.foldl (fun params kv => Values.Set params kv.1 kv.2) []) ∧
        u.String =
          str "https://" ++ domain ++ str "/api/v2/" ++ strings.TrimByte i.RawURI (ch '/') ++
            (if u.RawQuery = [] then [] else str "?" ++ u.RawQuery) ∧
        (str "https://" ++ domain ++ str "/api/v2/" ++ strings.TrimByte i.RawURI (ch '/')) <+:
          u.String ∧
        (∀ i2 : apiCmdInputs,
          strings.TrimByte i2.RawURI (ch '/') = strings.TrimByte i.RawURI (ch '/') →
          i2.RawQueryParams = i.RawQueryParams →
          (i2.validateAndSetEndpoint quote literal domain).1.URL = some u)) ∧
    (∃ n m, i.RawURI =
      List.replicate n (ch '/') ++ strings.TrimByte i.RawURI (ch '/') ++
        List.replicate m (ch '/')) ∧
    (strings.TrimByte i.RawURI (ch '/')).head? ≠ some (ch '/') ∧
    (strings.TrimByte i.RawURI (ch '/')).getLast? ≠ some (ch '/') := by
  have hapi : str "/api/v2/" = ch '/' :: str "api/v2/" := by decide
  have hpt : ∀ c ∈ strings.TrimByte i.RawURI (ch '/'), pathArgByte c = true :=
    fun c hc => hp c (strings.mem_TrimByte _ _ _ hc)
  have hlitb : ∀ c ∈ str "api/v2/", pathArgByte c = true := by
    set_option maxRecDepth 100000 in decide
  have hp2 : ∀ c ∈ str "api/v2/" ++ strings.TrimByte i.RawURI (ch '/'), pathArgByte c = true := by
    intro c hc
    rcases List.mem_append.1 hc with h | h
    · exact hlitb c h
    · exact hpt c h
  have hval := validateAndSetEndpoint_class quote literal i domain hd hpt
  have hspec := strings.TrimByte_spec i.RawURI (ch '/')
  have hiff : (i.validateAndSetEndpoint quote literal domain).2 = .ok ↔
      (∃ host, parseHost literal domain = .ok host) ∧
        ∃ path, unescape (str "/api/v2/" ++ strings.TrimByte i.RawURI (ch '/')) .encodePath =
          .ok path := by
    rw [hval]
    cases parseHost literal domain with
    | error e => simp
    | ok host =>
      cases unescape (str "/api/v2/" ++ strings.TrimByte i.RawURI (ch '/')) .encodePath with
      | error e => simp
      | ok path => simp
  refine ⟨hiff, ?_, ?_, hspec.1, hspec.2.1, hspec.2.2⟩
  · intro hcol hbr hpct
    rw [hiff]
    refine ⟨⟨domain, parseHost_plain literal domain hd hcol hbr⟩, ⟨_, unescape_path _ ?_⟩⟩
    intro c hc
    rcases List.mem_append.1 hc with h | h
    · have : ∀ c ∈ str "/api/v2/", c ≠ ch '%' := by
        set_option maxRecDepth 100000 in decide
      exact this c h
    · intro e
      exact hpct (e ▸ strings.mem_TrimByte _ _ _ h)
  · intro hok
    obtain ⟨⟨host, hhost⟩, ⟨path, hpath⟩⟩ := hiff.1 hok
    have hhd : host = domain := parseHost_class literal domain hd hlit host hhost
    subst hhd
    have hesch : escape host .encodeHost = host :=
      escape_id _ .encodeHost (by decide) (fun c hc => (domainByte_props c (hd c hc)).2.2.2.2.2.2.2)
    have hpath2 : unescape (ch '/' :: (str "api/v2/" ++ strings.TrimByte i.RawURI (ch '/')))
        .encodePath = .ok path := by
      rw [← hpath, hapi]
      rfl
    have hvalAll : ∀ i2 : apiCmdInputs,
        strings.TrimByte i2.RawURI (ch '/') = strings.TrimByte i.RawURI (ch '/') →
        i2.RawQueryParams = i.RawQueryParams →
        i2.validateAndSetEndpoint quote literal host =
          ({ i2 with
              URL := some
                { Scheme := str "https", Host := host, Path := path,
                  RawPath :=
                    if str "/api/v2/" ++ strings.TrimByte i.RawURI (ch '/') =
                        escape path .encodePath then []
                    else str "/api/v2/" ++ strings.TrimByte i.RawURI (ch '/'),
                  RawQuery :=
                    Values.Encode
                      (i.RawQueryParams.foldl (fun params kv => Values.Set params kv.1 kv.2) []) } },
            .ok) := by
      intro i2 h1 h2
      rw [validateAndSetEndpoint_class quote literal i2 host hd (by rw [h1]; exact hpt), h1, h2,
        hhost]
      simp only [hpath]
    have hEP := EscapedPath_kept
      { Scheme := str "https", Host := host, Path := path,
        RawPath :=
          if str "/api/v2/" ++ strings.TrimByte i.RawURI (ch '/') = escape path .encodePath then []
          else str "/api/v2/" ++ strings.TrimByte i.RawURI (ch '/'),
        RawQuery :=
          Values.Encode
            (i.RawQueryParams.foldl (fun params kv => Values.Set params kv.1 kv.2) []) }
      (str "api/v2/" ++ strings.TrimByte i.RawURI (ch '/')) path hp2 hpath2 rfl
      (by rw [hapi]; rfl)
    have hstring := String_https _ _ rfl rfl rfl rfl hesch hEP.1 rfl rfl hEP.2
    have hshape : ∀ t : GoString, str "https://" ++ host ++ ch '/' :: (str "api/v2/" ++ t) =
        str "https://" ++ host ++ str "/api/v2/" ++ t := by
      intro t
      rw [hapi]
      simp
    refine ⟨_, hvalAll i rfl rfl, rfl, rfl, rfl, hpath, ?_, rfl, ?_, ?_, ?_⟩
    · rw [hEP.1, hapi]
      rfl
    · rw [hstring, hshape]
    · rw [hstring, hshape]
      exact List.prefix_append _ _
    · intro i2 h1 h2
      rw [hvalAll i2 h1 h2]

set_option maxRecDepth 100000 in
theorem C4_resolved_url_witness :
    (exampleEscapedInputs.validateAndSetEndpoint quoteASCII hostLiteral119
        (str "localhost:8080")).1.URL.map URL.String =
      some (str "https://localhost:8080/api/v2/users/auth0%7C123/roles?per_page=5") ∧
    (exampleEscapedInputs.validateAndSetEndpoint quoteASCII hostLiteral119
        (str "[::1]:8080")).1.URL.map URL.String =
      some (str "https://[::1]:8080/api/v2/users/auth0%7C123/roles?per_page=5") := by
  have hlit : hostLiteral119 (str "[::1]:8080") = .ok (str "[::1]:8080") := by decide
  obtain ⟨u, h1, _, _, _, _, _, hq, hs, _, _⟩ :=
    (C4_resolved_url quoteASCII hostLiteral119 exampleEscapedInputs (str "localhost:8080")
      (by decide) (fun h => absurd h (by decide)) (by decide)).2.2.1 (by decide)
  obtain ⟨u2, k1, _, _, _, _, _, kq, ks, _, _⟩ :=
    (C4_resolved_url quoteASCII hostLiteral119 exampleEscapedInputs (str "[::1]:8080")
      (by decide) (fun _ r hr => (Except.ok.inj (hlit.symm.trans hr)).symm) (by decide)).2.2.1
      (by decide)
  have hq0 : u.RawQuery = str "per_page=5" := by rw [hq]; decide
  have kq0 : u2.RawQuery = str "per_page=5" := by rw [kq]; decide
  constructor
  · rw [h1]
    simp only [Option.map_some']
    rw [hs, hq0]
    decide
  · rw [k1]
    simp only [Option.map_some']
    rw [ks, kq0]
    decide

end cli

/-! ### `ParseQuery` after `Encode`, and the pairs `ParseQuery` reads -/

namespace url

open encoding

theorem piece_props (kv : GoString × GoString) :
    QueryEscape kv.1 ++ str "=" ++ QueryEscape kv.2 ≠ [] ∧
      ch '&' ∉ QueryEscape kv.1 ++ str "=" ++ QueryEscape kv.2 ∧
      ch ';' ∉ QueryEscape kv.1 ++ str "=" ++ QueryEscape kv.2 ∧
      QueryEscape kv.1 ++ str "=" ++ QueryEscape kv.2 =
        QueryEscape kv.1 ++ ch '=' :: QueryEscape kv.2 ∧
      ch '=' ∉ QueryEscape kv.1 := by
  have e : str "=" = [ch '='] := by decide
  rw [e]
  refine ⟨by simp, ?_, ?_, by simp, ?_⟩
  · intro h
    simp only [List.mem_append, List.mem_singleton] at h
    rcases h with (h | h) | h
    · exact (QueryEscape_bytes _ _ h).1 rfl
    · revert h; decide
    · exact (QueryEscape_bytes _ _ h).1 rfl
  · intro h
    simp only [List.mem_append, List.mem_singleton] at h
    rcases h with (h | h) | h
    · exact (QueryEscape_bytes _ _ h).2.2 rfl
    · revert h; decide
    · exact (QueryEscape_bytes _ _ h).2.2 rfl
  · intro h
    exact (QueryEscape_bytes _ _ h).2.1 rfl

/-- One round of the loop of `parseQuery` on a well-formed pair. -/
theorem parseQueryLoop_piece (fuel : Nat) (m : Values) (err : Option ParseError)
    (kv : GoString × GoString) (piece query1 : GoString)
    (hpiece : piece = QueryEscape kv.1 ++ str "=" ++ QueryEscape kv.2)
    (hcut : strings.Cut (piece ++ query1) (str "&") = (piece, query1.drop 1, decide (query1 ≠ [])))
    :
    parseQueryLoop (fuel + 1) m err (piece ++ query1) =
      parseQueryLoop fuel (m.assign kv.1 (m.lookup kv.1 ++ [kv.2])) err (query1.drop 1) := by
  have hp := piece_props kv
  rw [← hpiece] at hp
  have e1 : str ";" = [ch ';'] := by decide
  have e2 : str "=" = [ch '='] := by decide
  have hne : piece ++ query1 ≠ [] := by simp [hp.1]
  rw [parseQueryLoop, if_neg hne]
  simp only [hcut]
  rw [e1, strings.Contains_single_false _ _ hp.2.2.1]
  simp only [Bool.false_eq_true, if_false, if_neg hp.1]
  rw [hp.2.2.2.1, e2, strings.Cut_single _ _ _ hp.2.2.2.2]
  simp only [QueryUnescape_QueryEscape]

theorem parseQueryLoop_pairs (pairs : List (GoString × GoString)) :
    ∀ (fuel : Nat) (m : Values) (err : Option ParseError), pairs.length < fuel →
      parseQueryLoop fuel m err
          (strings.Join (pairs.map (fun kv => QueryEscape kv.1 ++ str "=" ++ QueryEscape kv.2))
            (str "&")) =
        (pairs.foldl (fun m kv => m.assign kv.1 (m.lookup kv.1 ++ [kv.2])) m, err) := by
  have e : str "&" = [ch '&'] := by decide
  induction pairs with
  | nil =>
    intro fuel m err hf
    cases fuel with
    | zero => rfl
    | succ f => simp [strings.Join, parseQueryLoop]
  | cons kv rest ih =>
    intro fuel m err hf
    cases fuel with
    | zero => simp at hf
    | succ f =>
      have hp := piece_props kv
      cases rest with
      | nil =>
        simp only [List.map_cons, List.map_nil, strings.Join, List.foldl_cons, List.foldl_nil]
        have h := parseQueryLoop_piece f m err kv _ [] rfl (by
          rw [List.append_nil, e, strings.Cut_single_none _ _ hp.2.1]
          simp)
        rw [List.append_nil] at h
        rw [h]
        cases f with
        | zero => rfl
        | succ f2 => simp [parseQueryLoop]
      | cons kv2 rest2 =>
        have hlen : (kv2 :: rest2).length < f := by
          simp only [List.length_cons] at hf ⊢
          omega
        have hj : strings.Join
            ((kv :: kv2 :: rest2).map (fun kv => QueryEscape kv.1 ++ str "=" ++ QueryEscape kv.2))
            (str "&") =
            (QueryEscape kv.1 ++ str "=" ++ QueryEscape kv.2) ++
              (ch '&' :: strings.Join
                ((kv2 :: rest2).map (fun kv => QueryEscape kv.1 ++ str "=" ++ QueryEscape kv.2))
                (str "&")) := by
          simp only [List.map_cons, strings.Join, e]
          simp
        rw [hj, parseQueryLoop_piece f m err kv _ _ rfl (by
          rw [e, strings.Cut_single _ _ _ hp.2.1]
          simp)]
        simp only [List.drop_succ_cons, List.drop_zero, List.foldl_cons]
        exact ih f _ err hlen

theorem length_Join_ge (pieces : List GoString) (sep : GoString) (h : ∀ p ∈ pieces, p ≠ []) :
    pieces.length ≤ (strings.Join pieces sep).length := by
  induction pieces with
  | nil => simp
  | cons p rest ih =>
    have hp : 0 < p.length := List.length_pos.2 (h p (by simp))
    cases rest with
    | nil => simp [strings.Join]; omega
    | cons q rest2 =>
      have := ih (fun x hx => h x (by simp [hx]))
      simp only [strings.Join, List.length_append, List.length_cons] at this ⊢
      omega

theorem ParseQuery_pairs (pairs : List (GoString × GoString)) :
    ParseQuery
        (strings.Join (pairs.map (fun kv => QueryEscape kv.1 ++ str "=" ++ QueryEscape kv.2))
          (str "&")) =
      (pairs.foldl (fun (m : Values) kv => m.assign kv.1 (m.lookup kv.1 ++ [kv.2])) [], none) := by
  unfold ParseQuery
  apply parseQueryLoop_pairs
  have := length_Join_ge
    (pairs.map (fun kv => QueryEscape kv.1 ++ str "=" ++ QueryEscape kv.2)) (str "&")
    (by
      intro p hp
      obtain ⟨kv, _, rfl⟩ := List.mem_map.1 hp
      exact (piece_props kv).1)
  simp only [List.length_map] at this
  omega

theorem lookup_foldl_pairs (pairs : List (GoString × GoString)) (m : Values) (k : GoString) :
    (pairs.foldl (fun m kv => m.assign kv.1 (m.lookup kv.1 ++ [kv.2])) m).lookup k =
      m.lookup k ++ (pairs.filter (fun kv => kv.1 = k)).map Prod.snd := by
  induction pairs generalizing m with
  | nil => simp
  | cons kv rest ih =>
    simp only [List.foldl_cons]
    rw [ih, Values.lookup_assign]
    by_cases h : kv.1 = k
    · subst h
      simp
    · simp [h]

theorem filter_flatMap_key (ks : List GoString) (vals : GoString → List GoString)
    (k : GoString) (hnd : ks.Nodup) :
    ((ks.flatMap (fun k2 => (vals k2).map (fun v => (k2, v)))).filter
        (fun kv => kv.1 = k)).map Prod.snd =
      if k ∈ ks then vals k else [] := by
  induction ks with
  | nil => simp
  | cons a rest ih =>
    simp only [List.nodup_cons] at hnd
    simp only [List.flatMap_cons, List.filter_append, List.map_append, ih hnd.2]
    by_cases h : a = k
    · subst h
      have hf : ((vals a).map (fun v => (a, v))).filter (fun kv => decide (kv.1 = a)) =
          (vals a).map (fun v => (a, v)) := by
        rw [List.filter_eq_self]
        intro x hx
        obtain ⟨v, _, rfl⟩ := List.mem_map.1 hx
        simp
      rw [hf]
      simp [hnd.1]
    · have hf : ((vals a).map (fun v => (a, v))).filter (fun kv => decide (kv.1 = k)) = [] := by
        rw [List.filter_eq_nil_iff]
        intro x hx
        obtain ⟨v, _, rfl⟩ := List.mem_map.1 hx
        simp [h]
      rw [hf]
      have hk : (k ∈ a :: rest) ↔ k ∈ rest := by
        simp only [List.mem_cons]
        constructor
        · rintro (e | e)
          · exact absurd e.symm h
          · exact e
        · exact Or.inr
      simp [hk]

theorem Values.lookup_of_not_mem (m : Values) (k : GoString) (h : k ∉ m.map Prod.fst) :
    m.lookup k = [] := by
  induction m with
  | nil => rfl
  | cons e rest ih =>
    simp only [List.map_cons, List.mem_cons, not_or] at h
    rw [Values.lookup, if_neg (fun e2 => h.1 e2.symm)]
    exact ih h.2


theorem splitByte_eq (c : Fin 256) (s : GoString) :
    cli.splitByte c s =
      s.takeWhile (fun b => b != c) ::
        (if c ∈ s then cli.splitByte c ((s.dropWhile (fun b => b != c)).drop 1) else []) := by
  induction s with
  | nil => simp [cli.splitByte]
  | cons x xs ih =>
    by_cases hx : x = c
    · subst hx
      simp [cli.splitByte, List.takeWhile_cons, List.dropWhile_cons]
    · have hne : (x != c) = true := by simp [hx]
      have hmem : (c ∈ x :: xs) ↔ c ∈ xs := by
        simp only [List.mem_cons]
        constructor
        · rintro (e | e)
          · exact absurd e.symm hx
          · exact e
        · exact Or.inr
      rw [cli.splitByte, if_neg hx, ih]
      simp only [List.takeWhile_cons, List.dropWhile_cons, hne, if_true, hmem]

theorem embeddedPair_nil : cli.embeddedPair [] = none := by
  simp [cli.embeddedPair]

/-- The embedded parameters of a query text: those of its first piece, then
those of the text after the first `&`. -/
theorem embeddedPairs_step (q : GoString) :
    cli.embeddedPairs q =
      (match cli.embeddedPair (q.takeWhile (fun b => b != ch '&')) with
        | some kv => [kv]
        | none => []) ++
      cli.embeddedPairs ((q.dropWhile (fun b => b != ch '&')).drop 1) := by
  unfold cli.embeddedPairs
  rw [splitByte_eq (ch '&') q]
  by_cases hm : ch '&' ∈ q
  · rw [if_pos hm, List.filterMap_cons]
    cases cli.embeddedPair (q.takeWhile (fun b => b != ch '&')) <;> simp
  · rw [if_neg hm, (strings.takeWhile_ne_of_not_mem _ _ hm).2, List.filterMap_cons]
    have : List.filterMap cli.embeddedPair (cli.splitByte (ch '&') (List.drop 1 [])) = [] := by
      simp [cli.splitByte, embeddedPair_nil]
    rw [this]
    cases cli.embeddedPair (q.takeWhile (fun b => b != ch '&')) <;> simp

theorem length_rest_lt (q : GoString) (p : Fin 256 → Bool) (hq : q ≠ []) :
    ((q.dropWhile p).drop 1).length < q.length := by
  have h1 : (q.dropWhile p).length ≤ q.length := (List.dropWhile_sublist p).length_le
  have h2 : 0 < q.length := List.length_pos.2 hq
  rw [List.length_drop]
  omega

/-- The loop of `parseQuery` adds to the map the embedded parameters of the
query text, in order. -/
theorem parseQueryLoop_split : ∀ (fuel : Nat) (m : Values) (err : Option ParseError)
    (q : GoString), q.length < fuel →
    (parseQueryLoop fuel m err q).1 =
      (cli.embeddedPairs q).foldl (fun m kv => m.assign kv.1 (m.lookup kv.1 ++ [kv.2])) m := by
  have e1 : str "&" = [ch '&'] := by decide
  have e2 : str ";" = [ch ';'] := by decide
  have e3 : str "=" = [ch '='] := by decide
  intro fuel
  induction fuel with
  | zero => intro m err q h; simp at h
  | succ f ih =>
    intro m err q hlen
    by_cases hq : q = []
    · subst hq
      simp [parseQueryLoop, cli.embeddedPairs, cli.splitByte, embeddedPair_nil]
    · have hrest : ((q.dropWhile (fun b => b != ch '&')).drop 1).length < f := by
        have := length_rest_lt q (fun b => b != ch '&') hq
        omega
      rw [parseQueryLoop, if_neg hq, embeddedPairs_step q]
      simp only [e1, e2, e3, strings.Cut_single_eq, strings.Contains_single_eq]
      by_cases hsemi : ch ';' ∈ q.takeWhile (fun b => b != ch '&')
      · have hnone : cli.embeddedPair (q.takeWhile (fun b => b != ch '&')) = none := by
          simp [cli.embeddedPair, hsemi]
        rw [hnone]
        simp only [hsemi, decide_True, if_true, List.nil_append]
        exact ih _ _ _ hrest
      · simp only [hsemi, decide_False, Bool.false_eq_true, if_false]
        by_cases hkey : q.takeWhile (fun b => b != ch '&') = []
        · have hnone : cli.embeddedPair (q.takeWhile (fun b => b != ch '&')) = none := by
            simp [cli.embeddedPair, hkey]
          rw [hnone, if_pos hkey]
          simp only [List.nil_append]
          exact ih _ _ _ hrest
        · rw [if_neg hkey]
          have hpair : cli.embeddedPair (q.takeWhile (fun b => b != ch '&')) =
              match QueryUnescape ((q.takeWhile (fun b => b != ch '&')).takeWhile
                  (fun c => c != ch '=')),
                QueryUnescape (((q.takeWhile (fun b => b != ch '&')).dropWhile
                  (fun c => c != ch '=')).drop 1) with
              | .ok key, .ok value => some (key, value)
              | _, _ => none := by
            unfold cli.embeddedPair
            rw [if_neg (by simp [hkey, hsemi])]
          rw [hpair]
          cases hk : QueryUnescape ((q.takeWhile (fun b => b != ch '&')).takeWhile
              (fun c => c != ch '=')) with
          | error e1 =>
            simp only [List.nil_append]
            exact ih _ _ _ hrest
          | ok key1 =>
            cases hv : QueryUnescape (((q.takeWhile (fun b => b != ch '&')).dropWhile
                (fun c => c != ch '=')).drop 1) with
            | error e1 =>
              simp only [List.nil_append]
              exact ih _ _ _ hrest
            | ok value1 =>
              simp only [List.singleton_append, List.foldl_cons]
              exact ih _ _ _ hrest

/-- The map `URL.Query` returns holds the embedded parameters of the query
string, in the order they are written. -/
theorem Query_pairs (u : URL) :
    u.Query =
      (cli.embeddedPairs u.RawQuery).foldl
        (fun (m : Values) kv => m.assign kv.1 (m.lookup kv.1 ++ [kv.2])) [] := by
  unfold URL.Query ParseQuery
  exact parseQueryLoop_split _ _ _ _ (Nat.lt_succ_self _)

theorem keys_foldl_pairs (pairs : List (GoString × GoString)) (m : Values) (k : GoString) :
    k ∈ (pairs.foldl (fun m kv => m.assign kv.1 (m.lookup kv.1 ++ [kv.2])) m).map Prod.fst ↔
      k ∈ m.map Prod.fst ∨ k ∈ pairs.map Prod.fst := by
  induction pairs generalizing m with
  | nil => simp
  | cons kv rest ih =>
    rw [List.foldl_cons, ih]
    simp only [Values.mem_keys_assign, List.map_cons, List.mem_cons]
    tauto

theorem Query_lookup (u : URL) (k : GoString) :
    u.Query.lookup k =
      ((cli.embeddedPairs u.RawQuery).filter (fun kv => kv.1 = k)).map Prod.snd := by
  rw [Query_pairs, lookup_foldl_pairs]
  simp [Values.lookup]

theorem Query_keys (u : URL) (k : GoString) :
    k ∈ u.Query.map Prod.fst ↔ k ∈ (cli.embeddedPairs u.RawQuery).map Prod.fst := by
  rw [Query_pairs, keys_foldl_pairs]
  simp

end url

/-! ### Claim C5 -/

namespace cli

open url

theorem map_flatMap_pairs (ks : List GoString) (vals : GoString → List GoString) :
    (ks.flatMap (fun k => (vals k).map (fun v => (k, v)))).map
        (fun kv => QueryEscape kv.1 ++ str "=" ++ QueryEscape kv.2) =
      ks.flatMap (fun k => (vals k).map (fun val => QueryEscape k ++ str "=" ++ QueryEscape val)) := by
  induction ks with
  | nil => rfl
  | cons a rest ih =>
    simp only [List.flatMap_cons, List.map_append, ih, List.map_map]
    rfl

/-- Decoding the query string that `Encode` wrote gives back the values of every key. -/
theorem ParseQuery_Join (ks : List GoString) (vals : GoString → List GoString) (hnd : ks.Nodup) :
    (ParseQuery (strings.Join
        (ks.flatMap (fun k => (vals k).map (fun val => QueryEscape k ++ str "=" ++ QueryEscape val)))
        (str "&"))).2 = none ∧
      ∀ k, (ParseQuery (strings.Join
        (ks.flatMap (fun k => (vals k).map (fun val => QueryEscape k ++ str "=" ++ QueryEscape val)))
        (str "&"))).1.lookup k = if k ∈ ks then vals k else [] := by
  rw [← map_flatMap_pairs, ParseQuery_pairs]
  refine ⟨rfl, ?_⟩
  intro k
  simp only
  rw [lookup_foldl_pairs, filter_flatMap_key ks vals k hnd]
  simp [Values.lookup]



theorem mergedValues_eq_mergedParams (supplied : List (GoString × GoString)) (u : URL)
    (k : GoString) :
    mergedValues supplied u.Query k = mergedParams supplied (embeddedPairs u.RawQuery) k := by
  unfold mergedValues mergedParams
  cases supplied.find? (fun kv => decide (kv.1 = k)) with
  | some kv => rfl
  | none => exact Query_lookup u k

/-- The query string of the URL that `validateAndSetEndpoint` parses is the
query text embedded in the trimmed path argument. -/
theorem RawQuery_embedded (literal : GoString → Except ParseError GoString) (domain arg : GoString)
    (endpoint : URL) (hq : ch '?' ∉ domain) (hh : ch '#' ∉ domain)
    (hparse : Parse literal (str "https://" ++ domain ++ str "/api/v2/" ++ arg) = .ok endpoint) :
    endpoint.RawQuery = embeddedQuery arg := by
  have hshape : str "https://" ++ domain ++ str "/api/v2/" ++ arg =
      str "https://" ++ ((domain ++ str "/api/v2/") ++ arg) := by simp
  rw [hshape] at hparse
  have h := Parse_RawQuery literal _ endpoint hparse
  have hq2 : ch '?' ∉ domain ++ str "/api/v2/" := by
    intro hm
    rcases List.mem_append.1 hm with e | e
    · exact hq e
    · revert e; decide
  have hh2 : ch '#' ∉ domain ++ str "/api/v2/" := by
    intro hm
    rcases List.mem_append.1 hm with e | e
    · exact hh e
    · revert e; decide
  rw [h, (strings.takeWhile_ne_append _ _ _ hh2).1, (strings.takeWhile_ne_append _ _ _ hq2).2]
  rfl

/-- C5, as stated, fails.  The path argument `clients?next=/x/` embeds the
parameter `next` with the value `/x/`, and the query string of the result is
`next=%2Fx`, which encodes the value `/x`: the trailing `/` of the argument is
cut before the URL is parsed.  The path argument `clients?a=1;b=2&c=3` gives the
query string `c=3`: a pair that holds `;` is dropped; and so is a pair with a
malformed percent escape, `clients?a=%zz&c=3` giving `c=3` as well. -/
theorem C5_counterexample :
    (embeddedPairs (embeddedQuery (str "clients?next=/x/")) = [(str "next", str "/x/")] ∧
      (({ RawURI := str "clients?next=/x/" } : apiCmdInputs).validateAndSetEndpoint quoteASCII
          hostLiteral119 (str "d.com")).2 = .ok ∧
      (({ RawURI := str "clients?next=/x/" } : apiCmdInputs).validateAndSetEndpoint quoteASCII
          hostLiteral119 (str "d.com")).1.URL.map URL.RawQuery = some (str "next=%2Fx") ∧
      (ParseQuery (str "next=%2Fx")).1 = [(str "next", [str "/x"])]) ∧
    ((({ RawURI := str "clients?a=1;b=2&c=3" } : apiCmdInputs).validateAndSetEndpoint quoteASCII
          hostLiteral119 (str "d.com")).2 = .ok ∧
      (({ RawURI := str "clients?a=1;b=2&c=3" } : apiCmdInputs).validateAndSetEndpoint quoteASCII
          hostLiteral119 (str "d.com")).1.URL.map URL.RawQuery = some (str "c=3")) ∧
    ((({ RawURI := str "clients?a=%zz&c=3" } : apiCmdInputs).validateAndSetEndpoint quoteASCII
          hostLiteral119 (str "d.com")).2 = .ok ∧
      (({ RawURI := str "clients?a=%zz&c=3" } : apiCmdInputs).validateAndSetEndpoint quoteASCII
          hostLiteral119 (str "d.com")).1.URL.map URL.RawQuery = some (str "c=3")) := by
  decide

/-- C5, amended: for a tenant domain without `?` and `#`, a supplied map and a
path argument with which `validateAndSetEndpoint` succeeds, the embedded
parameters are those of the query text of the path argument after its leading
and trailing `/` bytes are removed, the text between its first `?` and its
first `#`: the `&`-separated pairs `key=value`, decoded, without the empty
pairs, the pairs that hold `;` and the pairs with a malformed percent escape.
The call changes only the query string of the parsed URL, which becomes the
`&`-joined, query-escaped pairs `key=value` over the keys in strictly ascending
order, the keys being the supplied keys and the embedded keys, and the values
of a key being its supplied value alone when it is supplied and its embedded
values, in the order they are written, otherwise; decoding that query string
gives back exactly these values under every key; iterating the supplied map in
any other order gives the same URL. -/
theorem C5_query_merge (quote : GoString → GoString)
    (literal : GoString → Except ParseError GoString) (i : apiCmdInputs) (domain : GoString)
    (hq : ch '?' ∉ domain) (hh : ch '#' ∉ domain)
    (hnd : (i.RawQueryParams.map Prod.fst).Nodup)
    (hok : (i.validateAndSetEndpoint quote literal domain).2 = .ok) :
    ∃ (endpoint : URL) (query : GoString) (ks : List GoString),
      Parse literal (str "https://" ++ domain ++ str "/api/v2/" ++
        strings.TrimByte i.RawURI (ch '/')) = .ok endpoint ∧
      endpoint.RawQuery = embeddedQuery (strings.TrimByte i.RawURI (ch '/')) ∧
      i.validateAndSetEndpoint quote literal domain =
        ({ i with URL := some { endpoint with RawQuery := query } }, .ok) ∧
      ks.Sorted (fun a b => stringLess a b = true) ∧
      (∀ k, k ∈ ks ↔
        (k ∈ i.RawQueryParams.map Prod.fst ∨
          k ∈ (embeddedPairs (embeddedQuery (strings.TrimByte i.RawURI (ch '/')))).map
            Prod.fst)) ∧
      query =
        strings.Join
          (ks.flatMap (fun k =>
            (mergedParams i.RawQueryParams
                (embeddedPairs (embeddedQuery (strings.TrimByte i.RawURI (ch '/')))) k).map
              (fun val => QueryEscape k ++ str "=" ++ QueryEscape val)))
          (str "&") ∧
      (∀ k v, (k, v) ∈ i.RawQueryParams →
        mergedParams i.RawQueryParams
          (embeddedPairs (embeddedQuery (strings.TrimByte i.RawURI (ch '/')))) k = [v]) ∧
      (∀ k, k ∉ i.RawQueryParams.map Prod.fst →
        mergedParams i.RawQueryParams
            (embeddedPairs (embeddedQuery (strings.TrimByte i.RawURI (ch '/')))) k =
          ((embeddedPairs (embeddedQuery (strings.TrimByte i.RawURI (ch '/')))).filter
            (fun kv => kv.1 = k)).map Prod.snd) ∧
      (ParseQuery query).2 = none ∧
      (∀ k, (ParseQuery query).1.lookup k =
        mergedParams i.RawQueryParams
          (embeddedPairs (embeddedQuery (strings.TrimByte i.RawURI (ch '/')))) k) ∧
      (∀ i2 : apiCmdInputs, i2.RawURI = i.RawURI → i2.RawQueryParams.Perm i.RawQueryParams →
        (i2.validateAndSetEndpoint quote literal domain).1.URL =
          some { endpoint with RawQuery := query }) := by
  have hex : ∃ endpoint, Parse literal (str "https://" ++ domain ++ str "/api/v2/" ++
      strings.TrimByte i.RawURI (ch '/')) = .ok endpoint := by
    unfold apiCmdInputs.validateAndSetEndpoint at hok
    cases hP : Parse literal (str "https://" ++ domain ++ str "/api/v2/" ++
        strings.TrimByte i.RawURI (ch '/')) with
    | error e =>
      rw [hP] at hok
      simp at hok
    | ok endpoint => exact ⟨endpoint, rfl⟩
  obtain ⟨endpoint, hparse⟩ := hex
  have hraw := RawQuery_embedded literal domain _ endpoint hq hh hparse
  have hmv : mergedValues i.RawQueryParams endpoint.Query =
      mergedParams i.RawQueryParams
        (embeddedPairs (embeddedQuery (strings.TrimByte i.RawURI (ch '/')))) := by
    funext k
    rw [mergedValues_eq_mergedParams, hraw]
  have hndk : ((i.RawQueryParams.foldl (fun params kv => params.Set kv.1 kv.2)
      endpoint.Query).map Prod.fst).Nodup := foldl_Set_nodup _ _ (Query_nodup endpoint)
  have hmem : ∀ k, k ∈ sortStrings ((i.RawQueryParams.foldl
      (fun params kv => params.Set kv.1 kv.2) endpoint.Query).map Prod.fst) ↔
      (k ∈ i.RawQueryParams.map Prod.fst ∨
        k ∈ (embeddedPairs (embeddedQuery (strings.TrimByte i.RawURI (ch '/')))).map
          Prod.fst) := by
    intro k
    rw [(sortStrings_perm _).mem_iff, foldl_Set_keys, Query_keys, hraw]
    tauto
  have hdec := ParseQuery_Join
    (sortStrings ((i.RawQueryParams.foldl (fun params kv => params.Set kv.1 kv.2)
      endpoint.Query).map Prod.fst))
    (mergedValues i.RawQueryParams endpoint.Query)
    ((sortStrings_perm _).nodup_iff.2 hndk)
  have henc := encode_merged i.RawQueryParams endpoint.Query hnd
  rw [hmv] at hdec henc
  have hnot : ∀ k, k ∉ i.RawQueryParams.map Prod.fst →
      mergedParams i.RawQueryParams
          (embeddedPairs (embeddedQuery (strings.TrimByte i.RawURI (ch '/')))) k =
        ((embeddedPairs (embeddedQuery (strings.TrimByte i.RawURI (ch '/')))).filter
          (fun kv => kv.1 = k)).map Prod.snd := by
    intro k hk
    rw [← hmv, mergedValues_of_not_mem _ _ k hk, Query_lookup, hraw]
  refine ⟨endpoint, _, sortStrings ((i.RawQueryParams.foldl
      (fun params kv => params.Set kv.1 kv.2) endpoint.Query).map Prod.fst), hparse, hraw,
    validateAndSetEndpoint_of_parse quote literal i domain endpoint hparse, ?_, hmem, henc, ?_,
    hnot, ?_, ?_, ?_⟩
  · exact sortStrings_strict _ hndk
  · intro k v hkv
    rw [← hmv]
    exact mergedValues_of_mem _ _ k v hnd hkv
  · rw [henc]
    exact hdec.1
  · intro k
    rw [henc, hdec.2 k]
    split
    · rfl
    · rename_i hk
      rw [hmem] at hk
      rw [hnot k (fun h => hk (Or.inl h))]
      symm
      rw [List.map_eq_nil_iff, List.filter_eq_nil_iff]
      intro kv hkv hkey
      simp only [decide_eq_true_eq] at hkey
      exact hk (Or.inr (List.mem_map.2 ⟨kv, hkv, hkey⟩))
  · intro i2 huri hperm
    rw [validateAndSetEndpoint_of_parse quote literal i2 domain endpoint
      (by rw [huri]; exact hparse)]
    simp only
    rw [encode_merged_perm _ _ _ (Query_nodup endpoint) hperm hnd]

set_option maxRecDepth 100000 in
theorem C5_query_merge_witness :
    (exampleQueryInputs.validateAndSetEndpoint quoteASCII hostLiteral119
        (str "d.com")).1.URL.map URL.RawQuery = some (str "a=9&b=2&c=x+y") ∧
      embeddedPairs (embeddedQuery (strings.TrimByte exampleQueryInputs.RawURI (ch '/'))) =
        [(str "b", str "2"), (str "a", str "1"), (str "a", str "3")] ∧
      ∃ (endpoint : URL) (query : GoString) (ks : List GoString),
        exampleQueryInputs.validateAndSetEndpoint quoteASCII hostLiteral119 (str "d.com") =
          ({ exampleQueryInputs with URL := some { endpoint with RawQuery := query } }, .ok) ∧
        ks = [str "a", str "b", str "c"] ∧ query = str "a=9&b=2&c=x+y" := by
  obtain ⟨endpoint, query, ks, _, _, h1, h2, h3, _⟩ :=
    C5_query_merge quoteASCII hostLiteral119 exampleQueryInputs (str "d.com")
      (by decide) (by decide) (by decide) (by decide)
  have h5 : (exampleQueryInputs.validateAndSetEndpoint quoteASCII hostLiteral119
      (str "d.com")).1.URL.map URL.RawQuery = some (str "a=9&b=2&c=x+y") := by decide
  have hE : embeddedPairs (embeddedQuery (strings.TrimByte exampleQueryInputs.RawURI (ch '/'))) =
      [(str "b", str "2"), (str "a", str "1"), (str "a", str "3")] := by decide
  have hq : query = str "a=9&b=2&c=x+y" := by
    have h6 := h5
    rw [h1] at h6
    simpa using h6
  have hks : ks = [str "a", str "b", str "c"] := by
    have hperm : ks.Perm [str "a", str "b", str "c"] := by
      rw [List.perm_ext_iff_of_nodup]
      · intro k
        rw [h3, hE]
        have hk2 : exampleQueryInputs.RawQueryParams.map Prod.fst = [str "c", str "a"] := by
          decide
        rw [hk2]
        simp only [List.map_cons, List.map_nil, List.mem_cons, List.mem_singleton,
          List.not_mem_nil, or_false]
        tauto
      · haveI : IsIrrefl GoString (fun a b => stringLess a b = true) :=
          ⟨fun a h => by rw [stringLess_irrefl a] at h; exact Bool.noConfusion h⟩
        exact (List.Sorted.nodup (r := fun a b => stringLess a b = true) h2)
      · decide
    haveI : IsAntisymm GoString (fun a b => stringLess a b = true) :=
      ⟨fun a b hab hba => by rw [stringLess_asymm a b hab] at hba; exact Bool.noConfusion hba⟩
    exact List.eq_of_perm_of_sorted hperm h2 (by decide)
  exact ⟨h5, hE, endpoint, query, ks, h1, hks, hq⟩

end cli
